import Mathlib

/-!
Block store of `server/services/store/sqlstore/blocks.go`

A shallow embedding of the write path of the SQL block store (`insertBlock`,
`insertBlocks`, `patchBlock`, `patchBlocks`, `deleteBlock`), of its reads
(`getBlock`, `getBlockHistory`, the flat board-scoped reads, `getSubTree2`,
`getSubTree3`), of the ancestor walk (`getBoardAndCard`), of the identifier
rewrite (`replaceBlockID`) and of the legacy purge
(`deleteAllBoardTemplateBlocks`).

Modelling conventions.

* The two tables `blocks` and `blocks_history` are lists of rows in physical
  arrival order.  For the history table that order is the `insert_at` order.
  A `SELECT` without `ORDER BY` returns the matching rows in table order.
* A row is written as a `model.Block`.  The columns `channel_id` (always
  written as the empty string) and `insert_at` (the arrival order) are not
  fields of the block.  The column `workspace_id`, which only `replaceBlockID`
  names and which no statement of the write path sets, is added to the rows
  in the section on the identifier rewrite (`Row`, `Tables`).
* The `fields` column holds a JSON text, and a block is written with the text
  `json.Marshal` produces for its `Fields`.  For a block a caller passes that
  is the text `insertBlock` stores.  A block read from a row has been through
  `json.Unmarshal`; marshalling it again gives `Store.remarshal` of the stored
  text, which need not be the stored text (a number is read as a `float64`).
  The reads return the rows as they are stored, `blockFromRow` gives the block
  the Go caller holds, and `deleteBlock` and `patchBlock`, which write back
  what they read, write the text of that block.
* The store state carries the dialect `dbType` of the backend, as the Go
  `SQLStore` does.
* The backend is ideal: a well-formed statement never fails, so the only
  errors of the write path are the ones the Go code creates itself.  Three
  kinds of statements are not well-formed.  A statement that names a column
  without a table alias while several aliases in its `FROM` clause have that
  column is rejected as ambiguous by every dialect.  A statement that names a
  column its table does not have is rejected.  A statement whose `LIMIT`
  operand the dialect cannot read as a row count fails; since
  `blocksFromRows` does not look at `rows.Err()`, such a read has no row to
  return.
* `utils.GetMillis` reads an external clock.  The store state carries the
  stream of readings and the number of readings taken so far.
-/

namespace Sqlstore

/-- The block `model.Block`, with the fields `blocksFromRows` fills in; `Fields`
is the JSON text of the map. -/
structure Block where
  ID : String
  ParentID : String
  RootID : String
  CreatedBy : String
  ModifiedBy : String
  Schema : Int
  Type_ : String
  Title : String
  Fields : String
  CreateAt : Int
  UpdateAt : Int
  DeleteAt : Int
  BoardID : String
deriving DecidableEq, Repr

/-- The errors the store creates itself.  `IndexOutOfRange` stands for the Go
run-time fault of `blockPatches.BlockPatches[i]` in `patchBlocks` when there
are fewer patches than block ids. -/
inductive StoreError where
  | RootIDNilError : StoreError
  | BoardIDNilError : StoreError
  | BlockNotFoundErr (blockID : String) : StoreError
  | IndexOutOfRange : StoreError
deriving DecidableEq, Repr

/-- Modelled from the spec: `model.BlockPatch` and its method `Patch` are not
among the source files.  A patch "applies the patch's field-level overrides to
produce a new block value", so it is taken as the function `Patch` computes. -/
structure BlockPatch where
  Patch : Block → Block

/-- The batch `model.BlockPatchBatch`: parallel sequences of ids and patches. -/
structure BlockPatchBatch where
  BlockIDs : List String
  BlockPatches : List BlockPatch

/-- The options `model.QueryBlockHistoryOptions` as `getBlockHistory` reads them. -/
structure QueryBlockHistoryOptions where
  BeforeUpdateAt : Int
  AfterUpdateAt : Int
  Limit : Nat
  Descending : Bool
deriving DecidableEq, Repr

/-- Modelled from the spec: the constant `mysqlDBType` is declared outside the
source files; it names the "general row-oriented" dialect. -/
def mysqlDBType : String := "mysql"

/-- Modelled from the spec: the constant `sqliteDBType` is declared outside the
source files; it names the dialect "with its own JSON path syntax". -/
def sqliteDBType : String := "sqlite3"

/-- Modelled from the spec: the constant `postgresDBType` is declared outside
the source files; it names the dialect "with native JSON operators". -/
def postgresDBType : String := "postgres"

/-- The database behind the store together with what the store reads from its
surroundings: the live table `blocks`, the history table `blocks_history` in
`insert_at` order, the stream `millis` of clock readings and the number `tick`
of readings already taken, the dialect `dbType` of the backend, and
`remarshal`, the text `json.Marshal` writes for the value `json.Unmarshal`
reads from a stored fields text (the package `encoding/json` is not part of
the repository; the stored texts are taken to be texts it accepts). -/
structure Store where
  blocks : List Block
  blocks_history : List Block
  millis : Nat → Int
  tick : Nat
  dbType : String
  remarshal : String → String

/-- The store with both tables empty and no clock reading taken. -/
def emptyStore (millis : Nat → Int) (dbType : String) (remarshal : String → String) : Store :=
  { blocks := [], blocks_history := [], millis := millis, tick := 0, dbType := dbType,
    remarshal := remarshal }

/-- One call of `utils.GetMillis`: the next reading, and the clock advanced. -/
def GetMillis (s : Store) : Int × Store :=
  (s.millis s.tick, { s with tick := s.tick + 1 })

/-- `getBlock`: the first live row whose `id` is `blockID`, `none` when the
query returns no row (the Go code returns `nil, nil`). -/
def getBlock (s : Store) (blockID : String) : Option Block :=
  (s.blocks.filter (fun r => r.ID = blockID)).head?

/-- The block `blocksFromRows` makes of a row: `json.Unmarshal` decodes the
fields text into a map.  The block is written with the text `json.Marshal`
gives for that map, as every block of this development is. -/
def blockFromRow (s : Store) (row : Block) : Block :=
  { row with Fields := s.remarshal row.Fields }

/-- Whether the backend takes `n` as the operand of `LIMIT`.  The query
builder prints the `uint64` as a decimal literal; SQLite and PostgreSQL read
the operand as a signed 64-bit integer, MySQL as an unsigned one. -/
def limitAccepted (dbType : String) (n : Nat) : Bool :=
  if dbType = mysqlDBType then true else decide (n < 2 ^ 63)

/-- The rows a read with `LIMIT n` gets of the rows its statement selects: the
first `n` of them when the backend takes the operand.  When it does not, the
statement fails, at the latest when the first row is asked for, and
`blocksFromRows`, which does not look at `rows.Err()`, has no row to return. -/
def limitRows {α : Type} (dbType : String) (n : Nat) (rows : List α) : List α :=
  if limitAccepted dbType n then rows.take n else []

/-- `getBlockHistory`: the history rows of `blockID`, filtered by the strict
update-time bounds when they are non-zero, ordered by `insert_at` (descending
when asked), and, when `Limit` is non-zero, what `LIMIT` leaves of them. -/
def getBlockHistory (s : Store) (blockID : String) (opts : QueryBlockHistoryOptions) :
    List Block :=
  let rows := s.blocks_history.filter (fun r => r.ID = blockID)
  let rows := if opts.BeforeUpdateAt ≠ 0 then
      rows.filter (fun r => r.UpdateAt < opts.BeforeUpdateAt) else rows
  let rows := if opts.AfterUpdateAt ≠ 0 then
      rows.filter (fun r => r.UpdateAt > opts.AfterUpdateAt) else rows
  let rows := if opts.Descending then rows.reverse else rows
  if opts.Limit ≠ 0 then limitRows s.dbType opts.Limit rows else rows

/-- The `UPDATE` statement of `insertBlock`: every live row with the id and
the board of `block` gets the nine columns the statement sets; `created_by`,
`create_at`, `id` and `board_id` are not among them. -/
def updateRow (block : Block) (r : Block) : Block :=
  if r.ID = block.ID ∧ r.BoardID = block.BoardID then
    { r with
      ParentID := block.ParentID
      RootID := block.RootID
      ModifiedBy := block.ModifiedBy
      Schema := block.Schema
      Type_ := block.Type_
      Title := block.Title
      Fields := block.Fields
      UpdateAt := block.UpdateAt
      DeleteAt := block.DeleteAt }
  else r

/-- `insertBlock`.  The row `insertQueryValues` is built from the block as the
caller passed it, before `UpdateAt` and `ModifiedBy` are set on the block; the
creation branch then overwrites four of its entries, the update branch leaves
it as built.  The changes the Go code makes to the caller's block are not part
of the result. -/
def insertBlock (s : Store) (block : Block) (userID : String) : Store × Option StoreError :=
  if block.RootID = "" then (s, some StoreError.RootIDNilError)
  else if block.BoardID = "" then (s, some StoreError.BoardIDNilError)
  else
    let existingBlock := getBlock s block.ID
    let insertQueryValues : Block := block
    let (t0, s) := GetMillis s
    let block := { block with UpdateAt := t0, ModifiedBy := userID }
    match existingBlock with
    | some _ =>
      let s := { s with blocks := s.blocks.map (updateRow block) }
      ({ s with blocks_history := s.blocks_history ++ [insertQueryValues] }, none)
    | none =>
      let block := { block with CreatedBy := userID }
      let (t1, s) := GetMillis s
      let block := { block with CreateAt := t1, ModifiedBy := userID }
      let (t2, s) := GetMillis s
      let block := { block with UpdateAt := t2 }
      let insertQueryValues := { insertQueryValues with
        CreatedBy := block.CreatedBy
        CreateAt := block.CreateAt
        UpdateAt := block.UpdateAt
        ModifiedBy := block.ModifiedBy }
      let s := { s with blocks := s.blocks ++ [insertQueryValues] }
      ({ s with blocks_history := s.blocks_history ++ [insertQueryValues] }, none)

/-- `patchBlock`: read the live block, fail when there is none, patch the
block read and upsert the result. -/
def patchBlock (s : Store) (blockID : String) (blockPatch : BlockPatch) (userID : String) :
    Store × Option StoreError :=
  match getBlock s blockID with
  | none => (s, some (StoreError.BlockNotFoundErr blockID))
  | some row => insertBlock s (blockPatch.Patch (blockFromRow s row)) userID

/-- The loop of `patchBlocks` over the ids and the patches still to apply. -/
def patchBlocksLoop (userID : String) :
    Store → List String → List BlockPatch → Store × Option StoreError
  | s, [], _ => (s, none)
  | s, _ :: _, [] => (s, some StoreError.IndexOutOfRange)
  | s, blockID :: ids, p :: ps =>
    match patchBlock s blockID p userID with
    | (s1, none) => patchBlocksLoop userID s1 ids ps
    | (s1, some err) => (s1, some err)

/-- `patchBlocks`: the patches applied pairwise in order, stopping at the
first error. -/
def patchBlocks (s : Store) (blockPatches : BlockPatchBatch) (userID : String) :
    Store × Option StoreError :=
  patchBlocksLoop userID s blockPatches.BlockIDs blockPatches.BlockPatches

/-- `insertBlocks`: the blocks upserted in order, stopping at the first error. -/
def insertBlocks (s : Store) (blocks : List Block) (userID : String) :
    Store × Option StoreError :=
  match blocks with
  | [] => (s, none)
  | b :: rest =>
    match insertBlock s b userID with
    | (s1, none) => insertBlocks s1 rest userID
    | (s1, some err) => (s1, some err)

/-- `deleteBlock`: nothing happens when the block is not live; otherwise a
tombstone row is written to the history from the block read, its fields
marshalled again, and every live row with the id is removed. -/
def deleteBlock (s : Store) (blockID : String) (modifiedBy : String) :
    Store × Option StoreError :=
  match getBlock s blockID with
  | none => (s, none)
  | some row =>
    let block := blockFromRow s row
    let (now, s) := GetMillis s
    let row : Block :=
      { BoardID := block.BoardID
        ID := block.ID
        ParentID := block.ParentID
        Schema := block.Schema
        Type_ := block.Type_
        Title := block.Title
        Fields := block.Fields
        RootID := block.RootID
        ModifiedBy := modifiedBy
        CreateAt := block.CreateAt
        UpdateAt := now
        DeleteAt := now
        CreatedBy := block.CreatedBy }
    let s := { s with blocks_history := s.blocks_history ++ [row] }
    ({ s with blocks := s.blocks.filter (fun r => r.ID ≠ blockID) }, none)

/-- One call of the write interface. -/
inductive Op where
  | insertBlock (block : Block) (userID : String) : Op
  | patchBlock (blockID : String) (blockPatch : BlockPatch) (userID : String) : Op
  | deleteBlock (blockID : String) (modifiedBy : String) : Op

/-- The effect of one call on the store, with the error it returns. -/
def step (s : Store) : Op → Store × Option StoreError
  | Op.insertBlock block userID => insertBlock s block userID
  | Op.patchBlock blockID blockPatch userID => patchBlock s blockID blockPatch userID
  | Op.deleteBlock blockID modifiedBy => deleteBlock s blockID modifiedBy

/-- The store after a sequence of calls, each applied whatever the earlier
ones returned. -/
def run (s : Store) : List Op → Store
  | [] => s
  | op :: ops => run (step s op).1 ops

/-- The errors the calls of a sequence return, in order. -/
def outcomes (s : Store) : List Op → List (Option StoreError)
  | [] => []
  | op :: ops => (step s op).2 :: outcomes (step s op).1 ops

/-- The block id a call is addressed to. -/
def Op.target : Op → String
  | Op.insertBlock block _ => block.ID
  | Op.patchBlock blockID _ _ => blockID
  | Op.deleteBlock blockID _ => blockID

/-- Whether a call is a delete. -/
def Op.isDelete : Op → Bool
  | Op.deleteBlock _ _ => true
  | _ => false

/-- The most recent call of a sequence that was addressed to `id` and returned
no error; `acc` is the one found before the sequence started. -/
def lastSuccessful (id : String) : Store → List Op → Option Op → Option Op
  | _, [], acc => acc
  | s, op :: ops, acc =>
    lastSuccessful id (step s op).1 ops
      (if op.target = id ∧ (step s op).2 = none then some op else acc)

/-- The calls that upsert the given blocks, each with its acting user. -/
def upsertOps (ups : List (Block × String)) : List Op :=
  ups.map (fun p => Op.insertBlock p.1 p.2)

/-- The history rows of a block id, in `insert_at` order. -/
def historyOf (s : Store) (id : String) : List Block :=
  s.blocks_history.filter (fun r => r.ID = id)

/-- A patch that leaves the block id as it is. -/
def BlockPatch.KeepsID (p : BlockPatch) : Prop :=
  ∀ b : Block, (p.Patch b).ID = b.ID

/-- A patch that leaves `DeleteAt` as it is. -/
def BlockPatch.KeepsDeleteAt (p : BlockPatch) : Prop :=
  ∀ b : Block, (p.Patch b).DeleteAt = b.DeleteAt

/-- Every patch of a sequence of calls leaves the block id as it is. -/
def PatchesKeepID (ops : List Op) : Prop :=
  ∀ blockID p userID, Op.patchBlock blockID p userID ∈ ops → p.KeepsID

/-- Every upserted block of a sequence of calls carries `DeleteAt = 0` and
every patch leaves `DeleteAt` as it is. -/
def NoDeleteAtWritten (ops : List Op) : Prop :=
  (∀ block userID, Op.insertBlock block userID ∈ ops → block.DeleteAt = 0) ∧
  (∀ blockID p userID, Op.patchBlock blockID p userID ∈ ops → p.KeepsDeleteAt)

/-- The live row an update leaves for a block that was live as `e`. -/
def updatedRow (e block : Block) (userID : String) (now : Int) : Block :=
  { e with
    ParentID := block.ParentID
    RootID := block.RootID
    ModifiedBy := userID
    Schema := block.Schema
    Type_ := block.Type_
    Title := block.Title
    Fields := block.Fields
    UpdateAt := now
    DeleteAt := block.DeleteAt }

/-- The row a creation writes to both tables. -/
def createdRow (block : Block) (userID : String) (createAt updateAt : Int) : Block :=
  { block with
    CreatedBy := userID
    ModifiedBy := userID
    CreateAt := createAt
    UpdateAt := updateAt }

/-- The tombstone `deleteBlock` writes for the block `b` it read. -/
def tombstone (b : Block) (modifiedBy : String) (now : Int) : Block :=
  { b with ModifiedBy := modifiedBy, UpdateAt := now, DeleteAt := now }

/-- The options of a read of the latest history entry. -/
def latestOpts : QueryBlockHistoryOptions :=
  { BeforeUpdateAt := 0, AfterUpdateAt := 0, Limit := 1, Descending := true }

/-! ## Reads -/

/-- The options `model.QuerySubtreeOptions` as the subtree reads use them. -/
structure QuerySubtreeOptions where
  BeforeUpdateAt : Int
  AfterUpdateAt : Int
  Limit : Nat
deriving DecidableEq, Repr

/-- The errors a read can return: a statement the backend rejects because a
column name is ambiguous, the not-found error of `store.NewErrNotFound`, and
any other failure of a look-up. -/
inductive QueryError where
  | AmbiguousColumn (name : String) : QueryError
  | ErrNotFound (id : String) : QueryError
  | Backend (msg : String) : QueryError
deriving DecidableEq, Repr

/-- Modelled from the spec: `model.Board` is not among the source files.  A
board "has a type (open/private) and template/sharing flags"; the store only
passes it through. -/
structure Board where
  ID : String
  Type_ : String
  IsTemplate : Bool
deriving DecidableEq, Repr

/-- Modelled from the spec: the constant `model.TypeCard` is not among the
source files; it is the type tag of the "card"-typed blocks. -/
def TypeCard : String := "card"

/-- The constant `maxSearchDepth`. -/
def maxSearchDepth : Nat := 50

/-- `getBlocksForBoard`: the live rows of a board. -/
def getBlocksForBoard (s : Store) (boardID : String) : List Block :=
  s.blocks.filter (fun r => r.BoardID = boardID)

/-- `getBlocksWithParentAndType`: the `WHERE` clauses in the order the query
builder adds them. -/
def getBlocksWithParentAndType (s : Store) (boardID parentID blockType : String) :
    List Block :=
  ((s.blocks.filter (fun r => r.BoardID = boardID)).filter
    (fun r => r.ParentID = parentID)).filter (fun r => r.Type_ = blockType)

/-- `getBlocksWithParent`. -/
def getBlocksWithParent (s : Store) (boardID parentID : String) : List Block :=
  (s.blocks.filter (fun r => r.ParentID = parentID)).filter (fun r => r.BoardID = boardID)

/-- `getBlocksWithRootID`. -/
def getBlocksWithRootID (s : Store) (boardID rootID : String) : List Block :=
  (s.blocks.filter (fun r => r.RootID = rootID)).filter (fun r => r.BoardID = boardID)

/-- `getBlocksWithType`. -/
def getBlocksWithType (s : Store) (boardID blockType : String) : List Block :=
  (s.blocks.filter (fun r => r.Type_ = blockType)).filter (fun r => r.BoardID = boardID)

/-- `getSubTree2`: the rows that are the block or have it as parent, in the
board, inside the inclusive update-time bounds when they are non-zero, and,
when `Limit` is non-zero, what `LIMIT` leaves of them. -/
def getSubTree2 (s : Store) (boardID blockID : String) (opts : QuerySubtreeOptions) :
    List Block :=
  let rows := s.blocks.filter (fun r => r.ID = blockID ∨ r.ParentID = blockID)
  let rows := rows.filter (fun r => r.BoardID = boardID)
  let rows := if opts.BeforeUpdateAt ≠ 0 then
      rows.filter (fun r => r.UpdateAt ≤ opts.BeforeUpdateAt) else rows
  let rows := if opts.AfterUpdateAt ≠ 0 then
      rows.filter (fun r => r.UpdateAt ≥ opts.AfterUpdateAt) else rows
  if opts.Limit ≠ 0 then limitRows s.dbType opts.Limit rows else rows

/-- The three aliases of the table `blocks` in the join of `getSubTree3`. -/
inductive Alias where
  | l1 : Alias
  | l2 : Alias
  | l3 : Alias
deriving DecidableEq, Repr

/-- A row of the three-way self-join of `getSubTree3`. -/
structure JoinRow where
  l1 : Block
  l2 : Block
  l3 : Block
deriving DecidableEq, Repr

/-- The row an alias stands for in a row of the join. -/
def JoinRow.ofAlias (t : JoinRow) : Alias → Block
  | Alias.l1 => t.l1
  | Alias.l2 => t.l2
  | Alias.l3 => t.l3

/-- How the backend resolves a column name written without an alias: with one
table in the `FROM` clause it is that table's column; with several aliases of
the same table each of them has the column, and the statement is rejected. -/
def resolveBare (aliases : List Alias) (name : String) : Except QueryError Alias :=
  match aliases with
  | [a] => Except.ok a
  | _ => Except.error (QueryError.AmbiguousColumn name)

/-- The rows of `blocks as l1 join blocks as l2 on l2.parent_id = l1.id or
l2.id = l1.id join blocks as l3 on l3.parent_id = l2.id or l3.id = l2.id`. -/
def subTree3Join (s : Store) : List JoinRow :=
  s.blocks.flatMap fun a =>
    (s.blocks.filter (fun b => b.ParentID = a.ID ∨ b.ID = a.ID)).flatMap fun b =>
      (s.blocks.filter (fun c => c.ParentID = b.ID ∨ c.ID = b.ID)).map fun c =>
        { l1 := a, l2 := b, l3 := c }

/-- The rows `SELECT DISTINCT` keeps: one row for each value of `key`, the
first in the order of the list.  With `key` the block id this is
`DISTINCT ON (l3.id)`, with `key` the whole row it is `DISTINCT`. -/
def distinctBy {κ : Type} [DecidableEq κ] (key : Block → κ) : List Block → List Block
  | [] => []
  | r :: rs => r :: (distinctBy key rs).filter (fun x => key x ≠ key r)

/-- `getSubTree3`: the join restricted to `l1.id = blockID` and
`l3.board_id = boardID`, the update-time bounds on the column `update_at`,
which the statement names without an alias, the projection to the columns of
`l3`, the dialect's distinct step, and the limit. -/
def getSubTree3 (s : Store) (boardID blockID : String)
    (opts : QuerySubtreeOptions) : Except QueryError (List Block) :=
  let rows := (subTree3Join s).filter (fun t => t.l1.ID = blockID)
  let rows := rows.filter (fun t => t.l3.BoardID = boardID)
  let rows : Except QueryError (List JoinRow) :=
    if opts.BeforeUpdateAt ≠ 0 then
      (resolveBare [Alias.l1, Alias.l2, Alias.l3] "update_at").map fun a =>
        rows.filter (fun t => (t.ofAlias a).UpdateAt ≤ opts.BeforeUpdateAt)
    else Except.ok rows
  let rows : Except QueryError (List JoinRow) :=
    rows.bind fun rows =>
      if opts.AfterUpdateAt ≠ 0 then
        (resolveBare [Alias.l1, Alias.l2, Alias.l3] "update_at").map fun a =>
          rows.filter (fun t => (t.ofAlias a).UpdateAt ≥ opts.AfterUpdateAt)
      else Except.ok rows
  rows.map fun rows =>
    let selected := rows.map (fun t => t.l3)
    let selected :=
      if s.dbType = postgresDBType then distinctBy Block.ID selected
      else distinctBy (fun r => r) selected
    if opts.Limit ≠ 0 then limitRows s.dbType opts.Limit selected else selected

/-- A subtree read without time window and without limit. -/
def noSubtreeOpts : QuerySubtreeOptions :=
  { BeforeUpdateAt := 0, AfterUpdateAt := 0, Limit := 0 }

/-- The rows of the depth-3 subtree of `blockID`: the block itself, a row whose
parent it is, or a row whose parent is a live row whose parent it is. -/
def InSubTree3 (s : Store) (blockID : String) (r : Block) : Prop :=
  r.ID = blockID ∨ r.ParentID = blockID ∨
    ∃ c ∈ s.blocks, c.ParentID = blockID ∧ r.ParentID = c.ID

/-- The rows `getSubTree2` selects before the limit: in the subtree, in the
board and inside the inclusive update-time window. -/
def subTree2Matching (s : Store) (boardID blockID : String) (opts : QuerySubtreeOptions) :
    List Block :=
  s.blocks.filter (fun r =>
    (r.ID = blockID ∨ r.ParentID = blockID) ∧ r.BoardID = boardID ∧
    (opts.BeforeUpdateAt ≠ 0 → r.UpdateAt ≤ opts.BeforeUpdateAt) ∧
    (opts.AfterUpdateAt ≠ 0 → r.UpdateAt ≥ opts.AfterUpdateAt))

/-- The history rows `getBlockHistory` selects before ordering and limit: those
of the block id inside the strict update-time window. -/
def historyMatching (s : Store) (blockID : String) (opts : QueryBlockHistoryOptions) :
    List Block :=
  s.blocks_history.filter (fun r =>
    r.ID = blockID ∧
    (opts.BeforeUpdateAt ≠ 0 → r.UpdateAt < opts.BeforeUpdateAt) ∧
    (opts.AfterUpdateAt ≠ 0 → r.UpdateAt > opts.AfterUpdateAt))

/-! ## Ancestor walk -/

/-- How the loop of `getBoardAndCard` ended: the card it holds, whether it was
left by `break` (so that the board look-up follows) or by the `return` inside
the loop, and the number of `getBlockHistory` calls it made. -/
structure WalkResult where
  card : Option Block
  finished : Bool
  lookups : Nat
deriving DecidableEq, Repr

/-- The card the loop holds after looking at `iter`: `iter` itself when no
card was held and `iter` is a card. -/
def cardStep (card : Option Block) (iter : Block) : Option Block :=
  if card = none ∧ iter.Type_ = TypeCard then some iter else card

/-- The loop of `getBoardAndCard`, entered with the value `count` has before
`count++`, the block `iter`, the card found so far and the number of history
look-ups made so far. -/
def getBoardAndCardLoop (s : Store) (count : Nat) (iter : Block) (card : Option Block)
    (lookups : Nat) : WalkResult :=
  if iter.ParentID = "" ∨ cardStep card iter ≠ none ∨ count + 1 > maxSearchDepth then
    { card := cardStep card iter, finished := true, lookups := lookups }
  else
    match getBlockHistory s iter.ParentID latestOpts with
    | [] => { card := cardStep card iter, finished := false, lookups := lookups + 1 }
    | b :: _ => getBoardAndCardLoop s (count + 1) b (cardStep card iter) (lookups + 1)
termination_by maxSearchDepth + 1 - count
decreasing_by
  omega

/-- `getBoardAndCard`, with the board look-up `getBoard` of the store as a
parameter: after a `break` the board of the starting block is looked up, after
the `return` inside the loop the board is still empty. -/
def getBoardAndCard (s : Store) (getBoard : String → Except QueryError (Option Board))
    (block : Block) : Except QueryError (Option Board × Option Block) :=
  if (getBoardAndCardLoop s 0 block none 0).finished then
    match getBoard block.BoardID with
    | Except.error err => Except.error err
    | Except.ok board => Except.ok (board, (getBoardAndCardLoop s 0 block none 0).card)
  else Except.ok (none, (getBoardAndCardLoop s 0 block none 0).card)

/-- `getBoardAndCardByID`: the walk started from the latest history entry of
the id, a not-found error when there is none. -/
def getBoardAndCardByID (s : Store) (getBoard : String → Except QueryError (Option Board))
    (blockID : String) : Except QueryError (Option Board × Option Block) :=
  match getBlockHistory s blockID latestOpts with
  | [] => Except.error (QueryError.ErrNotFound blockID)
  | b :: _ => getBoardAndCard s getBoard b

/-- The latest history entry of the parent of a block, when the block names a
parent. -/
def parentEntry (s : Store) (b : Block) : Option Block :=
  if b.ParentID = "" then none else (getBlockHistory s b.ParentID latestOpts).head?

/-- The chain of ancestors of a block: `b0` itself, then for each member the
latest history entry of its parent. -/
def ancestor (s : Store) (b0 : Block) : Nat → Option Block
  | 0 => some b0
  | k + 1 => (ancestor s b0 k).bind (parentEntry s)

/-! ## Identifier rewrite -/

/-- A row of a table together with its column `workspace_id`.  `replaceBlockID`
is the only function of the source that names this column; `board_id` is a
column of its own.  `blockFields` does not select `workspace_id`, and the
`INSERT` and `UPDATE` statements of `insertBlock` and `deleteBlock` do not list
it, so a row they write holds the null value, `none`. -/
structure Row extends Block where
  workspace_id : Option String
deriving DecidableEq, Repr

/-- The database as `replaceBlockID` sees it: the rows of the two tables with
their column `workspace_id`, the dialect, and whether the tables have that
column at all.  The declaration of the tables is not among the source files;
a statement that names a column its table does not have is refused. -/
structure Tables where
  blocks : List Row
  blocks_history : List Row
  dbType : String
  hasWorkspaceID : Bool

/-- A block as a row of the workspace `w`. -/
def inWorkspace (w : String) (b : Block) : Row :=
  { toBlock := b, workspace_id := some w }

/-- A block as a row the write path of the store wrote: without workspace. -/
def writtenRow (b : Block) : Row :=
  { toBlock := b, workspace_id := none }

/-- The tables of a store all of whose rows the write path wrote. -/
def writtenTables (s : Store) (hasWorkspaceID : Bool) : Tables :=
  { blocks := s.blocks.map writtenRow
    blocks_history := s.blocks_history.map writtenRow
    dbType := s.dbType
    hasWorkspaceID := hasWorkspaceID }

/-- The scan of the SQL function `REPLACE` over the characters of a text, from
left to right: `skip` characters of a pattern just replaced are still to be
passed over; where the pattern starts, the replacement is written and the
scan goes on behind the pattern. -/
def replaceFrom (pat rep : List Char) : Nat → List Char → List Char
  | _, [] => []
  | skip + 1, _ :: cs => replaceFrom pat rep skip cs
  | 0, c :: cs =>
    if pat.isPrefixOf (c :: cs) then rep ++ replaceFrom pat rep (pat.length - 1) cs
    else c :: replaceFrom pat rep 0 cs

/-- The SQL function `REPLACE(text, pattern, replacement)`; an empty pattern
leaves the text as it is. -/
def sqlReplace (text pattern replacement : String) : String :=
  if pattern = "" then text
  else String.mk (replaceFrom pattern.data replacement.data 0 text.data)

/-- The condition `text LIKE '%' + id + '%'`: the id occurs in the text.  The
id is taken to hold none of the characters `LIKE` reads as wildcards or as
escape; a collation that compares without case selects more rows, on which
`REPLACE`, which compares exactly, changes nothing. -/
def likeContains (text id : String) : Prop := id.data <:+: text.data

instance likeContainsDecidable (text id : String) : Decidable (likeContains text id) :=
  List.decidableInfix id.data text.data

/-- An `UPDATE ... SET ... WHERE cond` on a table: the rows that satisfy the
condition are rewritten, in place. -/
def updateWhere (cond : Row → Prop) [DecidablePred cond] (set : Row → Row)
    (rows : List Row) : List Row :=
  rows.map (fun r => if cond r then set r else r)

/-- The helper `runUpdateForBlocksAndHistory` of `replaceBlockID`: the same
update on the live table and then on the history table. -/
def runUpdateForBlocksAndHistory (t : Tables) (query : List Row → List Row) : Tables :=
  { t with blocks := query t.blocks, blocks_history := query t.blocks_history }

/-- `replaceBlockID`: the four updates, on id, root id, parent id and the fields
of the cards, each restricted to the rows whose `workspace_id` is the given
one and run on both tables.  Without the column the first statement is
refused and its error returned.  The selection of the last update depends on
the dialect: the text of the member `contentOrder` of the fields for postgres
(`contentOrder` stands for the operator `fields->>'contentOrder'` of the
backend, and the cast of the replaced text back to json is taken to succeed),
the whole text of the fields otherwise. -/
def replaceBlockID (contentOrder : String → String) (t : Tables)
    (currentID newID workspaceID : String) : Tables × Option QueryError :=
  if t.hasWorkspaceID = false then
    (t, some (QueryError.Backend "no such column: workspace_id"))
  else
    let t := runUpdateForBlocksAndHistory t
      (updateWhere (fun r => r.workspace_id = some workspaceID ∧ r.ID = currentID)
        (fun r => { r with ID := newID }))
    let t := runUpdateForBlocksAndHistory t
      (updateWhere (fun r => r.workspace_id = some workspaceID ∧ r.RootID = currentID)
        (fun r => { r with RootID := newID }))
    let t := runUpdateForBlocksAndHistory t
      (updateWhere (fun r => r.workspace_id = some workspaceID ∧ r.ParentID = currentID)
        (fun r => { r with ParentID := newID }))
    let t :=
      if t.dbType = postgresDBType then
        runUpdateForBlocksAndHistory t
          (updateWhere
            (fun r => r.workspace_id = some workspaceID ∧
              likeContains (contentOrder r.Fields) currentID ∧ r.Type_ = TypeCard)
            (fun r => { r with Fields := sqlReplace r.Fields currentID newID }))
      else
        runUpdateForBlocksAndHistory t
          (updateWhere
            (fun r => r.workspace_id = some workspaceID ∧
              likeContains r.Fields currentID ∧ r.Type_ = TypeCard)
            (fun r => { r with Fields := sqlReplace r.Fields currentID newID }))
    (t, none)

/-- Whether the embedded-reference step of `replaceBlockID` selects a row of
the workspace: a card whose `contentOrder` text (postgres) or whose fields
text (other dialects) holds the id. -/
def selectsCard (dbType : String) (contentOrder : String → String) (currentID : String)
    (r : Row) : Prop :=
  r.Type_ = TypeCard ∧
    if dbType = postgresDBType then likeContains (contentOrder r.Fields) currentID
    else likeContains r.Fields currentID

instance selectsCardDecidable (dbType : String) (contentOrder : String → String)
    (currentID : String) (r : Row) :
    Decidable (selectsCard dbType contentOrder currentID r) := by
  unfold selectsCard
  exact inferInstance

/-- What the four updates of `replaceBlockID` together do to one row. -/
def rewriteRow (dbType : String) (contentOrder : String → String)
    (currentID newID workspaceID : String) (r : Row) : Row :=
  if r.workspace_id = some workspaceID then
    { r with
      ID := if r.ID = currentID then newID else r.ID
      RootID := if r.RootID = currentID then newID else r.RootID
      ParentID := if r.ParentID = currentID then newID else r.ParentID
      Fields := if selectsCard dbType contentOrder currentID r
        then sqlReplace r.Fields currentID newID else r.Fields }
  else r

/-- The columns the identifier rewrite does not set are the same in two rows:
title, type, boardID, schema, createdBy, modifiedBy, the three timestamps and
the workspace id. -/
def FrameKept (r x : Row) : Prop :=
  x.Title = r.Title ∧ x.Type_ = r.Type_ ∧ x.BoardID = r.BoardID ∧ x.Schema = r.Schema ∧
  x.CreatedBy = r.CreatedBy ∧ x.ModifiedBy = r.ModifiedBy ∧ x.CreateAt = r.CreateAt ∧
  x.UpdateAt = r.UpdateAt ∧ x.DeleteAt = r.DeleteAt ∧ x.workspace_id = r.workspace_id

/-- What the identifier rewrite leaves of a row `r` of the workspace as the row
`x`: the id, rootID and parentID are no longer the old id, are the new id where
they were the old one and are unchanged elsewhere; the fields of a card the
embedded-reference step selects are the substituted text, and the fields of a
row of another type are unchanged. -/
def Rewritten (dbType : String) (contentOrder : String → String)
    (currentID newID : String) (r x : Row) : Prop :=
  x.ID ≠ currentID ∧ x.RootID ≠ currentID ∧ x.ParentID ≠ currentID ∧
  (r.ID = currentID → x.ID = newID) ∧ (r.RootID = currentID → x.RootID = newID) ∧
  (r.ParentID = currentID → x.ParentID = newID) ∧
  (r.ID ≠ currentID → x.ID = r.ID) ∧ (r.RootID ≠ currentID → x.RootID = r.RootID) ∧
  (r.ParentID ≠ currentID → x.ParentID = r.ParentID) ∧
  (selectsCard dbType contentOrder currentID r →
    x.Fields = sqlReplace r.Fields currentID newID) ∧
  (r.Type_ ≠ TypeCard → x.Fields = r.Fields)

/-- A non-empty end of `x` is a start of `y`. -/
def Overlaps (x y : List Char) : Prop := ∃ k < x.length, x.drop k <+: y

instance overlapsDecidable (x y : List Char) : Decidable (Overlaps x y) := by
  unfold Overlaps
  exact inferInstance

/-- Two ids stand clear of each other: neither occurs in the other, and no
non-empty end of one is a start of the other. -/
def Clear (x y : String) : Prop :=
  ¬ x.data <:+: y.data ∧ ¬ y.data <:+: x.data ∧
  ¬ Overlaps x.data y.data ∧ ¬ Overlaps y.data x.data

instance clearDecidable (x y : String) : Decidable (Clear x y) := by
  unfold Clear
  exact inferInstance

/-! ## Legacy purge -/

/-- The constant `legacyTypeBoard`. -/
def legacyTypeBoard : String := "board"

/-- The text the JSON operators give for a boolean member. -/
def jsonText (b : Bool) : String := if b then "true" else "false"

/-- A text value as the condition of a `WHERE` clause on SQLite: the text is
read as a number, by the longest start of it that is one, and the condition
holds when that number is not zero.  A text that starts with no digit reads
as zero. -/
def sqliteCondition (text : String) : Bool :=
  let cs := text.data.dropWhile Char.isWhitespace
  let cs := match cs with
    | '-' :: rest => rest
    | '+' :: rest => rest
    | _ => cs
  let whole := cs.takeWhile Char.isDigit
  let frac := match cs.dropWhile Char.isDigit with
    | '.' :: rest => rest.takeWhile Char.isDigit
    | _ => []
  (whole ++ frac).any (fun c => c ≠ '0')

/-- `getIsTemplateFilter`: the dialect's condition on the member `isTemplate`
of the fields, an error for any other dialect name.  `member` stands for the
JSON reader of the backend: `member fields` is `some b` when the payload has
the boolean member `isTemplate` with the value `b`, and `none` when it has no
such member (payloads with a member of another kind are left out).  On MySQL
the condition is the JSON value `json_extract` gives, which holds for `true`;
on PostgreSQL it is the text of the member cast to boolean, which is true for
`true`; on SQLite it is the text the operator `->` gives, taken as a
condition. -/
def getIsTemplateFilter (member : String → Option Bool) (dbType : String) :
    Except QueryError (Block → Bool) :=
  if dbType = mysqlDBType then Except.ok (fun r => member r.Fields = some true)
  else if dbType = sqliteDBType then
    Except.ok (fun r =>
      match member r.Fields with
      | some b => sqliteCondition (jsonText b)
      | none => false)
  else if dbType = postgresDBType then Except.ok (fun r => member r.Fields = some true)
  else Except.error (QueryError.Backend "invalid dbType")

/-- `getAllBoardTemplateBlocks`: the rows of type `board` that pass the
template filter, of the live table and of the history table. -/
def getAllBoardTemplateBlocks (member : String → Option Bool) (s : Store) :
    Except QueryError (List Block × List Block) :=
  match getIsTemplateFilter member s.dbType with
  | Except.error err => Except.error err
  | Except.ok flt =>
    Except.ok
      ((s.blocks.filter (fun r => r.Type_ = legacyTypeBoard)).filter flt,
       (s.blocks_history.filter (fun r => r.Type_ = legacyTypeBoard)).filter flt)

/-- `deleteAllBoardTemplateBlocks`: two `DELETE` statements, both on the table
`blocks`, for the rows of type `board` that pass the template filter. -/
def deleteAllBoardTemplateBlocks (member : String → Option Bool) (s : Store) :
    Store × Option QueryError :=
  match getIsTemplateFilter member s.dbType with
  | Except.error err => (s, some err)
  | Except.ok flt =>
    let live := s.blocks.filter (fun r => ¬ (r.Type_ = legacyTypeBoard ∧ flt r = true))
    let s := { s with blocks := live }
    let live := s.blocks.filter (fun r => ¬ (r.Type_ = legacyTypeBoard ∧ flt r = true))
    let s := { s with blocks := live }
    (s, none)

/-- The calls that upsert the given blocks for one acting user. -/
def insertOps (blocks : List Block) (userID : String) : List Op :=
  blocks.map (fun b => Op.insertBlock b userID)

/-- The calls that apply the given patches to the given ids, pairwise, for one
acting user. -/
def patchOps (ids : List String) (patches : List BlockPatch) (userID : String) : List Op :=
  List.zipWith (fun id p => Op.patchBlock id p userID) ids patches

/-! ## Sample data -/

/-- A clock that starts at 1000 and advances by one per reading. -/
def sampleMillis : Nat → Int := fun n => 1000 + n

/-- The round trip of `encoding/json` on the payloads of the sample data: an
integer above 2^53 is read as the nearest `float64` and written as that, the
other payloads come back as they are. -/
def sampleRemarshal (fields : String) : String :=
  if fields = "\x7b\"n\":9007199254740993\x7d" then "\x7b\"n\":9007199254740992\x7d"
  else fields

/-- The empty store of the samples, on SQLite. -/
def sampleEmpty : Store := emptyStore sampleMillis sqliteDBType sampleRemarshal

/-- A block as a caller may pass it. -/
def sampleBlock : Block :=
  { ID := "b1", ParentID := "p", RootID := "r", CreatedBy := "x", ModifiedBy := "y",
    Schema := 1, Type_ := "card", Title := "t1", Fields := "\x7b\x7d",
    CreateAt := 5, UpdateAt := 6, DeleteAt := 0, BoardID := "board" }

/-- A patch that sets the title. -/
def titlePatch (title : String) : BlockPatch :=
  { Patch := fun b => { b with Title := title } }

/-- A create, a patch and a delete of `b1`, then a patch that finds nothing. -/
def sampleOps : List Op :=
  [Op.insertBlock sampleBlock "u0", Op.patchBlock "b1" (titlePatch "t3") "u1",
   Op.deleteBlock "b1" "u2", Op.patchBlock "b1" (titlePatch "t4") "u1"]

/-- A create and a patch of `b1`. -/
def sampleLiveOps : List Op :=
  [Op.insertBlock sampleBlock "u0", Op.patchBlock "b1" (titlePatch "t3") "u1"]

/-- A live row with the given id, parent, board and update time. -/
def sampleRow (id parentID boardID : String) (updateAt : Int) : Block :=
  { ID := id, ParentID := parentID, RootID := "r", CreatedBy := "u0", ModifiedBy := "u0",
    Schema := 1, Type_ := "text", Title := "", Fields := "\x7b\x7d",
    CreateAt := 1, UpdateAt := updateAt, DeleteAt := 0, BoardID := boardID }

/-- A store whose live table holds a block `B`, two children, a grandchild
under each of them, and, in another board, a row with the same parent. -/
def sampleTree : Store :=
  { blocks := [sampleRow "B" "" "board" 10, sampleRow "c1" "B" "board" 20,
               sampleRow "c2" "B" "board" 30, sampleRow "g1" "c1" "board" 40,
               sampleRow "g2" "c2" "board" 50, sampleRow "x" "B" "other" 60]
    blocks_history := []
    millis := sampleMillis
    tick := 0
    dbType := sqliteDBType
    remarshal := sampleRemarshal }

/-- A history row with the given id, parent, type and update time. -/
def sampleEntry (id parentID blockType : String) (updateAt : Int) : Block :=
  { ID := id, ParentID := parentID, RootID := "r", CreatedBy := "u0", ModifiedBy := "u0",
    Schema := 1, Type_ := blockType, Title := "", Fields := "\x7b\x7d",
    CreateAt := 1, UpdateAt := updateAt, DeleteAt := 0, BoardID := "board" }

/-- A store whose history holds three entries of `h1` and one of `h2`. -/
def sampleHistory : Store :=
  { blocks := []
    blocks_history := [sampleEntry "h1" "" "text" 10, sampleEntry "h2" "" "text" 15,
                       sampleEntry "h1" "" "text" 20, sampleEntry "h1" "" "text" 30]
    millis := sampleMillis
    tick := 0
    dbType := sqliteDBType
    remarshal := sampleRemarshal }

/-- A store whose history is cyclic and holds no card: the latest entry of
`A` has the parent `B` and the latest entry of `B` has the parent `A`. -/
def sampleCycle : Store :=
  { blocks := []
    blocks_history := [sampleEntry "A" "B" "text" 10, sampleEntry "B" "A" "text" 20]
    millis := sampleMillis
    tick := 0
    dbType := sqliteDBType
    remarshal := sampleRemarshal }

/-- A store whose history holds a comment under a card under a view; the card
was deleted, its latest entry is the tombstone. -/
def sampleChain : Store :=
  { blocks := []
    blocks_history := [sampleEntry "view" "" "view" 10, sampleEntry "card" "view" "card" 20,
                       sampleEntry "text" "card" "text" 30,
                       { sampleEntry "card" "view" "card" 40 with DeleteAt := 40 }]
    millis := sampleMillis
    tick := 0
    dbType := sqliteDBType
    remarshal := sampleRemarshal }

/-- A board look-up that knows the board `board`. -/
def sampleGetBoard (boardID : String) : Except QueryError (Option Board) :=
  if boardID = "board" then
    Except.ok (some { ID := "board", Type_ := "O", IsTemplate := false })
  else Except.ok none

/-- A board look-up that fails. -/
def sampleBoardDown (_boardID : String) : Except QueryError (Option Board) :=
  Except.error (QueryError.Backend "connection lost")

/-- The block the test setup inserts: an id, a title, the type `card` and a
board, everything else left at the zero value; the fields, a nil map, marshal
to `null`. -/
def minimalBlock (id boardID : String) : Block :=
  { ID := id, ParentID := "", RootID := "", CreatedBy := "", ModifiedBy := "",
    Schema := 0, Type_ := "card", Title := "Test", Fields := "null",
    CreateAt := 0, UpdateAt := 0, DeleteAt := 0, BoardID := boardID }

/-- The sample tree on PostgreSQL. -/
def samplePgTree : Store := { sampleTree with dbType := postgresDBType }

/-- The sample tree after its root `B` was removed from the live table. -/
def sampleTreeNoRoot : Store :=
  { blocks := [sampleRow "c1" "B" "board" 20, sampleRow "c2" "B" "board" 30,
               sampleRow "g1" "c1" "board" 40]
    blocks_history := []
    millis := sampleMillis
    tick := 0
    dbType := sqliteDBType
    remarshal := sampleRemarshal }

/-- The sample tree without its root, on PostgreSQL. -/
def samplePgTreeNoRoot : Store := { sampleTreeNoRoot with dbType := postgresDBType }

/-- A stand-in for the JSON reader on the sample payloads, which consist of
the one member `isTemplate`. -/
def sampleMember (fields : String) : Option Bool :=
  if fields = "\x7b\"isTemplate\":true\x7d" then some true
  else if fields = "\x7b\"isTemplate\":false\x7d" then some false
  else none

/-- A row of type `board` with the given id and fields. -/
def sampleBoardRow (id fields : String) : Block :=
  { ID := id, ParentID := "", RootID := id, CreatedBy := "u0", ModifiedBy := "u0",
    Schema := 1, Type_ := "board", Title := "", Fields := fields,
    CreateAt := 1, UpdateAt := 1, DeleteAt := 0, BoardID := "0" }

/-- A store on SQLite with a legacy template board, a legacy board that is no
template and a card, each of the boards also in the history. -/
def sampleLegacy : Store :=
  { blocks := [sampleBoardRow "t1" "\x7b\"isTemplate\":true\x7d",
               sampleBoardRow "n1" "\x7b\"isTemplate\":false\x7d",
               sampleRow "c1" "t1" "0" 5]
    blocks_history := [sampleBoardRow "t1" "\x7b\"isTemplate\":true\x7d",
                       sampleBoardRow "n1" "\x7b\"isTemplate\":false\x7d"]
    millis := sampleMillis
    tick := 0
    dbType := sqliteDBType
    remarshal := sampleRemarshal }

/-- A stand-in for the operator `fields->>'contentOrder'` on the sample
payloads, which consist of the one member `contentOrder`: the text between
the opening `{"contentOrder":` and the closing brace. -/
def sampleContentOrder (fields : String) : String :=
  if "\x7b\"contentOrder\":".data <+: fields.data then
    String.mk ((fields.data.drop 16).dropLast)
  else ""

/-- A row of the workspace `board` with the given id, parent, type and fields,
in the board `board`. -/
def sampleRefRow (id parentID blockType fields : String) : Row :=
  inWorkspace "board"
    { ID := id, ParentID := parentID, RootID := "root", CreatedBy := "u0", ModifiedBy := "u0",
      Schema := 1, Type_ := blockType, Title := "", Fields := fields,
      CreateAt := 1, UpdateAt := 1, DeleteAt := 0, BoardID := "board" }

/-- Tables on SQLite in which a card and a view both list the child `X` in
their `contentOrder`; the history holds the card. -/
def sampleRefs : Tables :=
  { blocks := [sampleRefRow "card1" "root" "card" "\x7b\"contentOrder\":[\"X\"]\x7d",
               sampleRefRow "view1" "root" "view" "\x7b\"contentOrder\":[\"X\"]\x7d",
               sampleRefRow "X" "card1" "text" "\x7b\x7d"]
    blocks_history := [sampleRefRow "card1" "root" "card" "\x7b\"contentOrder\":[\"X\"]\x7d"]
    dbType := sqliteDBType
    hasWorkspaceID := true }

/-- Tables on SQLite with a card whose fields hold the id `X` in the
contentOrder, in another member and inside the longer id `X2`, with a card
that lists `X` and `X2`, and with a view that lists `X`. -/
def sampleWide : Tables :=
  { blocks := [sampleRefRow "card1" "root" "card"
                 "\x7b\"contentOrder\":[\"X\"],\"icon\":\"X\",\"link\":\"X2\"\x7d",
               sampleRefRow "card2" "root" "card" "\x7b\"contentOrder\":[\"X\",\"X2\"]\x7d",
               sampleRefRow "view1" "root" "view" "\x7b\"contentOrder\":[\"X\"]\x7d"]
    blocks_history := []
    dbType := sqliteDBType
    hasWorkspaceID := true }

/-- Tables on SQLite with the block `B` and a child in the workspace `board`,
a child of `B` in the workspace `other`, and a child of `B` in the board
`board` that the write path wrote. -/
def sampleScoped : Tables :=
  { blocks := [inWorkspace "board" (sampleRow "B" "" "board" 10),
               inWorkspace "board" (sampleRow "c1" "B" "board" 20),
               inWorkspace "other" (sampleRow "x" "B" "other" 60),
               writtenRow (sampleRow "w" "B" "board" 70)]
    blocks_history := [inWorkspace "board" (sampleRow "B" "" "board" 10)]
    dbType := sqliteDBType
    hasWorkspaceID := true }

/-- The store after user `u0` created a block whose fields hold an integer
above 2^53. -/
def sampleBigStore : Store :=
  (insertBlock sampleEmpty
    { sampleBlock with Fields := "\x7b\"n\":9007199254740993\x7d" } "u0").1

/-- The store after `sampleBlock` was created by user `u0`. -/
def sampleStore : Store := (insertBlock sampleEmpty sampleBlock "u0").1

/-! ## Single calls -/

theorem getBlock_eq_none_iff (s : Store) (blockID : String) :
    getBlock s blockID = none ↔ ∀ r ∈ s.blocks, r.ID ≠ blockID := by
  unfold getBlock
  rw [List.head?_eq_none_iff, List.filter_eq_nil_iff]
  simp

theorem getBlock_some_id (s : Store) (blockID : String) (b : Block)
    (h : getBlock s blockID = some b) : b.ID = blockID := by
  unfold getBlock at h
  have hm : b ∈ s.blocks.filter (fun r => r.ID = blockID) := List.mem_of_mem_head? h
  simpa using (List.mem_filter.mp hm).2

theorem insertBlock_create_eq (s : Store) (block : Block) (userID : String)
    (hRoot : block.RootID ≠ "") (hBoard : block.BoardID ≠ "")
    (hAbsent : getBlock s block.ID = none) :
    insertBlock s block userID =
      ({ blocks := s.blocks ++
            [createdRow block userID (s.millis (s.tick + 1)) (s.millis (s.tick + 1 + 1))]
         blocks_history := s.blocks_history ++
            [createdRow block userID (s.millis (s.tick + 1)) (s.millis (s.tick + 1 + 1))]
         millis := s.millis
         tick := s.tick + 1 + 1 + 1
         dbType := s.dbType
         remarshal := s.remarshal }, none) := by
  simp [insertBlock, hRoot, hBoard, hAbsent, GetMillis, createdRow]

theorem insertBlock_update_eq (s : Store) (block e : Block) (userID : String)
    (hRoot : block.RootID ≠ "") (hBoard : block.BoardID ≠ "")
    (hLive : getBlock s block.ID = some e) :
    insertBlock s block userID =
      ({ blocks := s.blocks.map
            (updateRow { block with UpdateAt := s.millis s.tick, ModifiedBy := userID })
         blocks_history := s.blocks_history ++ [block]
         millis := s.millis
         tick := s.tick + 1
         dbType := s.dbType
         remarshal := s.remarshal }, none) := by
  simp [insertBlock, hRoot, hBoard, hLive, GetMillis]

/-- C1: an upsert of a block with non-empty rootID and boardID whose id has no
live row succeeds and appends one and the same row to the live table and to the
history table; the row is the block with createdBy and modifiedBy set to the
acting user and createAt and updateAt set to clock readings, whatever the
caller put there. -/
theorem insertBlock_creates (s : Store) (block : Block) (userID : String)
    (hRoot : block.RootID ≠ "") (hBoard : block.BoardID ≠ "")
    (hAbsent : getBlock s block.ID = none) :
    ∃ row : Block,
      (insertBlock s block userID).2 = none ∧
      (insertBlock s block userID).1.blocks = s.blocks ++ [row] ∧
      (insertBlock s block userID).1.blocks_history = s.blocks_history ++ [row] ∧
      row.ID = block.ID ∧ row.ParentID = block.ParentID ∧ row.RootID = block.RootID ∧
      row.BoardID = block.BoardID ∧ row.Type_ = block.Type_ ∧ row.Title = block.Title ∧
      row.Schema = block.Schema ∧ row.Fields = block.Fields ∧
      row.DeleteAt = block.DeleteAt ∧
      row.CreatedBy = userID ∧ row.CreateAt = s.millis (s.tick + 1) ∧
      row.ModifiedBy = userID ∧ row.UpdateAt = s.millis (s.tick + 2) := by
  refine ⟨createdRow block userID (s.millis (s.tick + 1)) (s.millis (s.tick + 1 + 1)), ?_⟩
  rw [insertBlock_create_eq s block userID hRoot hBoard hAbsent]
  simp [createdRow]

theorem insertBlock_creates_witness :
    ∃ row : Block,
      (insertBlock sampleEmpty sampleBlock "u0").2 = none ∧
      (insertBlock sampleEmpty sampleBlock "u0").1.blocks =
        sampleEmpty.blocks ++ [row] ∧
      (insertBlock sampleEmpty sampleBlock "u0").1.blocks_history =
        sampleEmpty.blocks_history ++ [row] ∧
      row.ID = sampleBlock.ID ∧ row.ParentID = sampleBlock.ParentID ∧
      row.RootID = sampleBlock.RootID ∧
      row.BoardID = sampleBlock.BoardID ∧ row.Type_ = sampleBlock.Type_ ∧
      row.Title = sampleBlock.Title ∧
      row.Schema = sampleBlock.Schema ∧ row.Fields = sampleBlock.Fields ∧
      row.DeleteAt = sampleBlock.DeleteAt ∧
      row.CreatedBy = "u0" ∧
      row.CreateAt = sampleEmpty.millis (sampleEmpty.tick + 1) ∧
      row.ModifiedBy = "u0" ∧
      row.UpdateAt = sampleEmpty.millis (sampleEmpty.tick + 2) :=
  insertBlock_creates sampleEmpty sampleBlock "u0" (by decide) (by decide) rfl

theorem updateRow_ID (block r : Block) : (updateRow block r).ID = r.ID := by
  unfold updateRow
  split <;> rfl

theorem updateRow_of_ne (block r : Block) (h : r.ID ≠ block.ID) : updateRow block r = r := by
  unfold updateRow
  rw [if_neg]
  intro hc
  exact h hc.1

theorem head?_filter_map_of_ID (f : Block → Block) (hf : ∀ r, (f r).ID = r.ID)
    (id : String) (e : Block) :
    ∀ l : List Block, (l.filter (fun r => r.ID = id)).head? = some e →
      ((l.map f).filter (fun r => r.ID = id)).head? = some (f e) := by
  intro l
  induction l with
  | nil => intro h; simp at h
  | cons r l ih =>
    intro h
    by_cases hr : r.ID = id
    · have h1 : r = e := by simpa [List.filter_cons, hr] using h
      subst h1
      simp [List.filter_cons, hf, hr]
    · have h1 : (l.filter (fun r => r.ID = id)).head? = some e := by
        simpa [List.filter_cons, hr] using h
      simpa [List.filter_cons, hf, hr] using ih h1

/-- C2: an upsert of a block with non-empty rootID and boardID whose id is live
in the same board succeeds; afterwards the live row of the id carries the
block's parentID, rootID, type, title, schema, fields and deleteAt, the acting
user as modifiedBy and the clock reading as updateAt, and keeps the createdBy
and createAt (and id and boardID) of the previous live row; the live table
keeps its length and every row with another id stays in its place unchanged. -/
theorem insertBlock_updates (s : Store) (block e : Block) (userID : String)
    (hRoot : block.RootID ≠ "") (hBoard : block.BoardID ≠ "")
    (hLive : getBlock s block.ID = some e) (hSame : e.BoardID = block.BoardID) :
    (insertBlock s block userID).2 = none ∧
    getBlock (insertBlock s block userID).1 block.ID =
      some { ID := e.ID, BoardID := e.BoardID,
             CreatedBy := e.CreatedBy, CreateAt := e.CreateAt,
             ParentID := block.ParentID, RootID := block.RootID, Type_ := block.Type_,
             Title := block.Title, Schema := block.Schema, Fields := block.Fields,
             DeleteAt := block.DeleteAt,
             ModifiedBy := userID, UpdateAt := s.millis s.tick } ∧
    (insertBlock s block userID).1.blocks.length = s.blocks.length ∧
    (∀ (i : Nat) (r : Block), s.blocks[i]? = some r → r.ID ≠ block.ID →
      (insertBlock s block userID).1.blocks[i]? = some r) := by
  rw [insertBlock_update_eq s block e userID hRoot hBoard hLive]
  refine ⟨rfl, ?_, by simp, ?_⟩
  · have hid : e.ID = block.ID := getBlock_some_id s block.ID e hLive
    have h := head?_filter_map_of_ID
      (updateRow { block with UpdateAt := s.millis s.tick, ModifiedBy := userID })
      (updateRow_ID _) block.ID e s.blocks hLive
    unfold getBlock
    simp only []
    rw [h]
    simp [updateRow, hid, hSame]
  · intro i r hi hr
    simp only [List.getElem?_map, hi, Option.map_some']
    rw [updateRow_of_ne]
    exact hr

theorem insertBlock_updates_witness :
    (insertBlock sampleStore { sampleBlock with Title := "t2" } "u1").2 = none ∧
    getBlock (insertBlock sampleStore { sampleBlock with Title := "t2" } "u1").1 "b1" =
      some { ID := "b1", BoardID := "board", CreatedBy := "u0", CreateAt := 1001,
             ParentID := "p", RootID := "r", Type_ := "card", Title := "t2", Schema := 1,
             Fields := "\x7b\x7d", DeleteAt := 0, ModifiedBy := "u1", UpdateAt := 1003 } ∧
    (insertBlock sampleStore { sampleBlock with Title := "t2" } "u1").1.blocks.length =
      sampleStore.blocks.length ∧
    (∀ (i : Nat) (r : Block), sampleStore.blocks[i]? = some r → r.ID ≠ "b1" →
      (insertBlock sampleStore { sampleBlock with Title := "t2" } "u1").1.blocks[i]? =
        some r) :=
  insertBlock_updates sampleStore { sampleBlock with Title := "t2" }
    (createdRow sampleBlock "u0" 1001 1002) "u1" (by decide) (by decide) rfl rfl

/-- When the id is already live, the history row an
upsert appends is the block exactly as the caller passed it, so it carries the
caller's modifiedBy, updateAt, createdBy and createAt, not those of the live
row after the update. -/
theorem insertBlock_update_history_is_argument (s : Store) (block e : Block)
    (userID : String) (hRoot : block.RootID ≠ "") (hBoard : block.BoardID ≠ "")
    (hLive : getBlock s block.ID = some e) :
    (insertBlock s block userID).1.blocks_history = s.blocks_history ++ [block] := by
  rw [insertBlock_update_eq s block e userID hRoot hBoard hLive]

/-- C3 at the failing input: user `u1` upserts the live block `b1` with a new
title at clock reading 1003.  The live row then has updateAt 1003 and
modifiedBy `u1`, the history row appended by the call has updateAt 6 and
modifiedBy `y`, the values the caller's block happened to carry. -/
theorem insertBlock_update_history_stale :
    getBlock (insertBlock sampleStore { sampleBlock with Title := "t2" } "u1").1 "b1" =
      some { ID := "b1", BoardID := "board", CreatedBy := "u0", CreateAt := 1001,
             ParentID := "p", RootID := "r", Type_ := "card", Title := "t2", Schema := 1,
             Fields := "\x7b\x7d", DeleteAt := 0, ModifiedBy := "u1", UpdateAt := 1003 } ∧
    (insertBlock sampleStore { sampleBlock with Title := "t2" } "u1").1.blocks_history =
      sampleStore.blocks_history ++
        [{ ID := "b1", BoardID := "board", CreatedBy := "x", CreateAt := 5,
           ParentID := "p", RootID := "r", Type_ := "card", Title := "t2", Schema := 1,
           Fields := "\x7b\x7d", DeleteAt := 0, ModifiedBy := "y", UpdateAt := 6 }] := by
  constructor <;> rfl

/-- C4: an upsert of a block with an empty rootID fails with RootIDNilError,
one with a non-empty rootID and an empty boardID fails with BoardIDNilError,
and in both cases the store, live table and history table included, is exactly
as before. -/
theorem insertBlock_preconditions (s : Store) (block : Block) (userID : String) :
    (block.RootID = "" →
      insertBlock s block userID = (s, some StoreError.RootIDNilError)) ∧
    (block.RootID ≠ "" → block.BoardID = "" →
      insertBlock s block userID = (s, some StoreError.BoardIDNilError)) := by
  constructor
  · intro h
    simp [insertBlock, h]
  · intro h1 h2
    simp [insertBlock, h1, h2]

theorem insertBlock_preconditions_witness :
    insertBlock sampleStore { sampleBlock with RootID := "" } "u1" =
      (sampleStore, some StoreError.RootIDNilError) ∧
    insertBlock sampleStore { sampleBlock with BoardID := "" } "u1" =
      (sampleStore, some StoreError.BoardIDNilError) :=
  ⟨(insertBlock_preconditions sampleStore { sampleBlock with RootID := "" } "u1").1 rfl,
   (insertBlock_preconditions sampleStore { sampleBlock with BoardID := "" } "u1").2
     (by decide) rfl⟩

theorem deleteBlock_existing_eq (s : Store) (blockID modifiedBy : String) (b : Block)
    (hLive : getBlock s blockID = some b) :
    deleteBlock s blockID modifiedBy =
      ({ blocks := s.blocks.filter (fun r => r.ID ≠ blockID)
         blocks_history := s.blocks_history ++
            [tombstone (blockFromRow s b) modifiedBy (s.millis s.tick)]
         millis := s.millis
         tick := s.tick + 1
         dbType := s.dbType
         remarshal := s.remarshal }, none) := by
  simp [deleteBlock, hLive, GetMillis, tombstone, blockFromRow]

theorem deleteBlock_absent_eq (s : Store) (blockID modifiedBy : String)
    (hAbsent : getBlock s blockID = none) :
    deleteBlock s blockID modifiedBy = (s, none) := by
  simp [deleteBlock, hAbsent]

theorem limitRows_of_lt {α : Type} (dbType : String) (n : Nat) (rows : List α)
    (h : n < 2 ^ 63) : limitRows dbType n rows = rows.take n := by
  unfold limitRows limitAccepted
  have h2 : decide (n < 2 ^ 63) = true := decide_eq_true h
  by_cases hd : dbType = mysqlDBType
  · rw [if_pos hd, if_pos rfl]
  · rw [if_neg hd, h2, if_pos rfl]

theorem limitRows_one {α : Type} (dbType : String) (rows : List α) :
    limitRows dbType 1 rows = rows.take 1 :=
  limitRows_of_lt dbType 1 rows (by norm_num)

theorem getBlockHistory_latest (s : Store) (blockID : String) :
    getBlockHistory s blockID latestOpts = ((historyOf s blockID).reverse).take 1 := by
  simp [getBlockHistory, latestOpts, historyOf, limitRows_one]

/-- C5 (as amended): a delete of a block that is live as `b` succeeds, appends
to the history exactly one tombstone, which copies boardID, id, parentID,
rootID, schema, type, title, createdBy and createAt of `b`, holds as fields
the text `json.Marshal` writes for the decoded fields of `b`, and has deleteAt
and updateAt equal to the clock reading, and removes the live row: a following
getBlock finds nothing and the latest history entry of the id is the
tombstone.  Where the fields text of `b` comes back from the round trip as it
is, the tombstone holds that text. -/
theorem deleteBlock_existing (s : Store) (blockID modifiedBy : String) (b : Block)
    (hLive : getBlock s blockID = some b) :
    (deleteBlock s blockID modifiedBy).2 = none ∧
    (deleteBlock s blockID modifiedBy).1.blocks_history =
      s.blocks_history ++
        [{ BoardID := b.BoardID, ID := b.ID, ParentID := b.ParentID, RootID := b.RootID,
           Schema := b.Schema, Type_ := b.Type_, Title := b.Title,
           Fields := s.remarshal b.Fields,
           CreatedBy := b.CreatedBy, CreateAt := b.CreateAt, ModifiedBy := modifiedBy,
           DeleteAt := s.millis s.tick, UpdateAt := s.millis s.tick }] ∧
    (deleteBlock s blockID modifiedBy).1.blocks =
      s.blocks.filter (fun r => r.ID ≠ blockID) ∧
    getBlock (deleteBlock s blockID modifiedBy).1 blockID = none ∧
    getBlockHistory (deleteBlock s blockID modifiedBy).1 blockID latestOpts =
      [{ BoardID := b.BoardID, ID := b.ID, ParentID := b.ParentID, RootID := b.RootID,
         Schema := b.Schema, Type_ := b.Type_, Title := b.Title,
         Fields := s.remarshal b.Fields,
         CreatedBy := b.CreatedBy, CreateAt := b.CreateAt, ModifiedBy := modifiedBy,
         DeleteAt := s.millis s.tick, UpdateAt := s.millis s.tick }] ∧
    (s.remarshal b.Fields = b.Fields →
      (deleteBlock s blockID modifiedBy).1.blocks_history =
        s.blocks_history ++
          [{ b with ModifiedBy := modifiedBy, DeleteAt := s.millis s.tick,
                    UpdateAt := s.millis s.tick }]) := by
  have hid : b.ID = blockID := getBlock_some_id s blockID b hLive
  rw [deleteBlock_existing_eq s blockID modifiedBy b hLive]
  refine ⟨rfl, rfl, rfl, ?_, ?_, ?_⟩
  · rw [getBlock_eq_none_iff]
    intro r hr
    simpa using (List.mem_filter.mp hr).2
  · rw [getBlockHistory_latest]
    simp [historyOf, List.filter_append, tombstone, blockFromRow, hid]
  · intro hfix
    simp [tombstone, blockFromRow, hfix]

theorem deleteBlock_existing_witness :
    (deleteBlock sampleStore "b1" "u2").2 = none ∧
    (deleteBlock sampleStore "b1" "u2").1.blocks_history =
      sampleStore.blocks_history ++
        [{ BoardID := "board", ID := "b1", ParentID := "p", RootID := "r",
           Schema := 1, Type_ := "card", Title := "t1", Fields := "\x7b\x7d",
           CreatedBy := "u0", CreateAt := 1001, ModifiedBy := "u2",
           DeleteAt := 1003, UpdateAt := 1003 }] ∧
    (deleteBlock sampleStore "b1" "u2").1.blocks =
      sampleStore.blocks.filter (fun r => r.ID ≠ "b1") ∧
    getBlock (deleteBlock sampleStore "b1" "u2").1 "b1" = none ∧
    getBlockHistory (deleteBlock sampleStore "b1" "u2").1 "b1" latestOpts =
      [{ BoardID := "board", ID := "b1", ParentID := "p", RootID := "r",
         Schema := 1, Type_ := "card", Title := "t1", Fields := "\x7b\x7d",
         CreatedBy := "u0", CreateAt := 1001, ModifiedBy := "u2",
         DeleteAt := 1003, UpdateAt := 1003 }] ∧
    (sampleStore.remarshal "\x7b\x7d" = "\x7b\x7d" →
      (deleteBlock sampleStore "b1" "u2").1.blocks_history =
        sampleStore.blocks_history ++
          [{ createdRow sampleBlock "u0" 1001 1002 with
             ModifiedBy := "u2", DeleteAt := 1003, UpdateAt := 1003 }]) :=
  deleteBlock_existing sampleStore "b1" "u2" (createdRow sampleBlock "u0" 1001 1002) rfl

/-- C5 as stated fails: the tombstone does not copy the fields of the live
row.  User `u0` creates `b1` with the fields `{"n":9007199254740993}`, the text
`json.Marshal` writes for an integer member; the delete reads the row, decodes
the member as a `float64` and writes the tombstone with the fields
`{"n":9007199254740992}`. -/
theorem deleteBlock_reencodes_fields :
    (getBlock sampleBigStore "b1").map Block.Fields =
      some "\x7b\"n\":9007199254740993\x7d" ∧
    (deleteBlock sampleBigStore "b1" "u2").2 = none ∧
    (deleteBlock sampleBigStore "b1" "u2").1.blocks_history =
      sampleBigStore.blocks_history ++
        [{ BoardID := "board", ID := "b1", ParentID := "p", RootID := "r",
           Schema := 1, Type_ := "card", Title := "t1",
           Fields := "\x7b\"n\":9007199254740992\x7d",
           CreatedBy := "u0", CreateAt := 1001, ModifiedBy := "u2",
           DeleteAt := 1003, UpdateAt := 1003 }] := by
  refine ⟨rfl, rfl, rfl⟩

/-- C6: a delete of an id with no live row returns success and leaves the
store, live table and history table included, exactly as it was; so a second
delete of the same id does the same. -/
theorem deleteBlock_absent (s : Store) (blockID m1 m2 : String)
    (hAbsent : getBlock s blockID = none) :
    deleteBlock s blockID m1 = (s, none) ∧
    deleteBlock (deleteBlock s blockID m1).1 blockID m2 = (s, none) := by
  have h1 := deleteBlock_absent_eq s blockID m1 hAbsent
  refine ⟨h1, ?_⟩
  rw [h1]
  exact deleteBlock_absent_eq s blockID m2 hAbsent

theorem deleteBlock_absent_witness :
    deleteBlock sampleStore "nope" "u1" = (sampleStore, none) ∧
    deleteBlock (deleteBlock sampleStore "nope" "u1").1 "nope" "u2" = (sampleStore, none) :=
  deleteBlock_absent sampleStore "nope" "u1" "u2" rfl

/-! ## What one call does to the tables -/

/-- The three ways an upsert can go: a precondition fails and nothing changes;
the id is live and the update branch runs; the id is not live and the creation
branch runs. -/
theorem insertBlock_cases (s : Store) (block : Block) (userID : String) :
    ((insertBlock s block userID).2 ≠ none ∧ (insertBlock s block userID).1 = s) ∨
    ((∃ e, getBlock s block.ID = some e) ∧
      insertBlock s block userID =
        ({ blocks := s.blocks.map
              (updateRow { block with UpdateAt := s.millis s.tick, ModifiedBy := userID })
           blocks_history := s.blocks_history ++ [block]
           millis := s.millis
           tick := s.tick + 1
           dbType := s.dbType
           remarshal := s.remarshal }, none)) ∨
    (getBlock s block.ID = none ∧
      insertBlock s block userID =
        ({ blocks := s.blocks ++
              [createdRow block userID (s.millis (s.tick + 1)) (s.millis (s.tick + 1 + 1))]
           blocks_history := s.blocks_history ++
              [createdRow block userID (s.millis (s.tick + 1)) (s.millis (s.tick + 1 + 1))]
           millis := s.millis
           tick := s.tick + 1 + 1 + 1
           dbType := s.dbType
           remarshal := s.remarshal }, none)) := by
  by_cases hRoot : block.RootID = ""
  · left
    simp [insertBlock, hRoot]
  · by_cases hBoard : block.BoardID = ""
    · left
      simp [insertBlock, hRoot, hBoard]
    · cases hLive : getBlock s block.ID with
      | none => exact Or.inr (Or.inr ⟨rfl, insertBlock_create_eq s block userID hRoot hBoard hLive⟩)
      | some e =>
        exact Or.inr (Or.inl ⟨⟨e, rfl⟩, insertBlock_update_eq s block e userID hRoot hBoard hLive⟩)

theorem insertBlock_millis (s : Store) (block : Block) (userID : String) :
    (insertBlock s block userID).1.millis = s.millis := by
  rcases insertBlock_cases s block userID with h | h | h
  · rw [h.2]
  · rw [h.2]
  · rw [h.2]

theorem insertBlock_unchanged_of_error (s : Store) (block : Block) (userID : String)
    (h : (insertBlock s block userID).2 ≠ none) : (insertBlock s block userID).1 = s := by
  rcases insertBlock_cases s block userID with h1 | h1 | h1
  · exact h1.2
  · rw [h1.2] at h; exact absurd rfl h
  · rw [h1.2] at h; exact absurd rfl h

/-- A successful upsert appends exactly one history row, with the block's id. -/
theorem insertBlock_history_of_success (s : Store) (block : Block) (userID : String)
    (h : (insertBlock s block userID).2 = none) :
    ∃ row : Block, row.ID = block.ID ∧
      (insertBlock s block userID).1.blocks_history = s.blocks_history ++ [row] := by
  rcases insertBlock_cases s block userID with h1 | h1 | h1
  · exact absurd h h1.1
  · exact ⟨block, rfl, by rw [h1.2]⟩
  · exact ⟨createdRow block userID (s.millis (s.tick + 1)) (s.millis (s.tick + 1 + 1)), rfl,
      by rw [h1.2]⟩

/-- After a successful upsert the block's id is live. -/
theorem insertBlock_live_of_success (s : Store) (block : Block) (userID : String)
    (h : (insertBlock s block userID).2 = none) :
    getBlock (insertBlock s block userID).1 block.ID ≠ none := by
  rcases insertBlock_cases s block userID with h1 | h1 | h1
  · exact absurd h h1.1
  · obtain ⟨⟨e, he⟩, heq⟩ := h1
    rw [heq]
    have := head?_filter_map_of_ID
      (updateRow { block with UpdateAt := s.millis s.tick, ModifiedBy := userID })
      (updateRow_ID _) block.ID e s.blocks he
    unfold getBlock
    simp only []
    rw [this]
    simp
  · rw [h1.2, Ne, getBlock_eq_none_iff]
    intro hall
    exact hall (createdRow block userID (s.millis (s.tick + 1)) (s.millis (s.tick + 1 + 1)))
      (by simp) rfl

theorem insertBlock_history_grows (s : Store) (block : Block) (userID : String) :
    s.blocks_history <+: (insertBlock s block userID).1.blocks_history := by
  rcases insertBlock_cases s block userID with h | h | h
  · rw [h.2]
  · rw [h.2]; exact List.prefix_append _ _
  · rw [h.2]; exact List.prefix_append _ _

theorem patchBlock_history_grows (s : Store) (blockID : String) (p : BlockPatch)
    (userID : String) :
    s.blocks_history <+: (patchBlock s blockID p userID).1.blocks_history := by
  unfold patchBlock
  cases getBlock s blockID with
  | none => exact List.prefix_refl _
  | some e => exact insertBlock_history_grows s (p.Patch (blockFromRow s e)) userID

theorem patchBlock_history_of_success (s : Store) (blockID : String) (p : BlockPatch)
    (userID : String) (h : (patchBlock s blockID p userID).2 = none) :
    ∃ row : Block,
      (patchBlock s blockID p userID).1.blocks_history = s.blocks_history ++ [row] := by
  unfold patchBlock at h ⊢
  cases hg : getBlock s blockID with
  | none => rw [hg] at h; simp at h
  | some e =>
    rw [hg] at h
    obtain ⟨row, _, hrow⟩ :=
      insertBlock_history_of_success s (p.Patch (blockFromRow s e)) userID h
    exact ⟨row, hrow⟩

theorem deleteBlock_history_grows (s : Store) (blockID modifiedBy : String) :
    s.blocks_history <+: (deleteBlock s blockID modifiedBy).1.blocks_history := by
  cases hg : getBlock s blockID with
  | none => rw [deleteBlock_absent_eq s blockID modifiedBy hg]
  | some b =>
    rw [deleteBlock_existing_eq s blockID modifiedBy b hg]
    exact List.prefix_append _ _

theorem insertBlocks_history_grows (userID : String) :
    ∀ (blocks : List Block) (s : Store),
      s.blocks_history <+: (insertBlocks s blocks userID).1.blocks_history := by
  intro blocks
  induction blocks with
  | nil => intro s; exact List.prefix_refl _
  | cons b rest ih =>
    intro s
    unfold insertBlocks
    have h1 := insertBlock_history_grows s b userID
    rcases hr : insertBlock s b userID with ⟨s1, err⟩
    rw [hr] at h1
    cases err with
    | none => exact List.IsPrefix.trans h1 (ih s1)
    | some e => exact h1

theorem patchBlocksLoop_history_grows (userID : String) :
    ∀ (ids : List String) (ps : List BlockPatch) (s : Store),
      s.blocks_history <+: (patchBlocksLoop userID s ids ps).1.blocks_history := by
  intro ids
  induction ids with
  | nil => intro ps s; simp [patchBlocksLoop]
  | cons id ids ih =>
    intro ps s
    cases ps with
    | nil => simp [patchBlocksLoop]
    | cons p ps =>
      unfold patchBlocksLoop
      have h1 := patchBlock_history_grows s id p userID
      rcases hr : patchBlock s id p userID with ⟨s1, err⟩
      rw [hr] at h1
      cases err with
      | none => exact List.IsPrefix.trans h1 (ih ps s1)
      | some e => exact h1

/-- C8: each of insertBlock, insertBlocks, patchBlock, patchBlocks and
deleteBlock leaves the history it found as a prefix of the history it leaves;
a successful single upsert, a successful single patch and a delete of a live
block each append exactly one history row. -/
theorem history_append_only (s : Store) :
    (∀ (block : Block) (userID : String),
      s.blocks_history <+: (insertBlock s block userID).1.blocks_history ∧
      ((insertBlock s block userID).2 = none →
        ∃ row, (insertBlock s block userID).1.blocks_history = s.blocks_history ++ [row])) ∧
    (∀ (blocks : List Block) (userID : String),
      s.blocks_history <+: (insertBlocks s blocks userID).1.blocks_history) ∧
    (∀ (blockID : String) (p : BlockPatch) (userID : String),
      s.blocks_history <+: (patchBlock s blockID p userID).1.blocks_history ∧
      ((patchBlock s blockID p userID).2 = none →
        ∃ row, (patchBlock s blockID p userID).1.blocks_history =
          s.blocks_history ++ [row])) ∧
    (∀ (batch : BlockPatchBatch) (userID : String),
      s.blocks_history <+: (patchBlocks s batch userID).1.blocks_history) ∧
    (∀ (blockID modifiedBy : String),
      s.blocks_history <+: (deleteBlock s blockID modifiedBy).1.blocks_history ∧
      (getBlock s blockID ≠ none →
        ∃ row, (deleteBlock s blockID modifiedBy).1.blocks_history =
          s.blocks_history ++ [row])) := by
  refine ⟨?_, ?_, ?_, ?_, ?_⟩
  · intro block userID
    refine ⟨insertBlock_history_grows s block userID, fun h => ?_⟩
    obtain ⟨row, _, hrow⟩ := insertBlock_history_of_success s block userID h
    exact ⟨row, hrow⟩
  · intro blocks userID
    exact insertBlocks_history_grows userID blocks s
  · intro blockID p userID
    exact ⟨patchBlock_history_grows s blockID p userID,
      patchBlock_history_of_success s blockID p userID⟩
  · intro batch userID
    exact patchBlocksLoop_history_grows userID batch.BlockIDs batch.BlockPatches s
  · intro blockID modifiedBy
    refine ⟨deleteBlock_history_grows s blockID modifiedBy, fun h => ?_⟩
    cases hg : getBlock s blockID with
    | none => exact absurd hg h
    | some b =>
      rw [deleteBlock_existing_eq s blockID modifiedBy b hg]
      exact ⟨_, rfl⟩

theorem history_append_only_witness :
    sampleStore.blocks_history <+: (deleteBlock sampleStore "b1" "u2").1.blocks_history ∧
    ∃ row, (deleteBlock sampleStore "b1" "u2").1.blocks_history =
      sampleStore.blocks_history ++ [row] :=
  ⟨((history_append_only sampleStore).2.2.2.2 "b1" "u2").1,
   ((history_append_only sampleStore).2.2.2.2 "b1" "u2").2 (by decide)⟩

/-! ## Sequences of calls -/

theorem historyOf_append (s : Store) (id : String) (row : Block) (h : row.ID = id)
    (hist : List Block) (hh : hist = s.blocks_history ++ [row]) :
    hist.filter (fun r => r.ID = id) = historyOf s id ++ [row] := by
  subst hh
  simp [historyOf, List.filter_append, h]

/-- A run of successful upserts of one id adds one history row of that id per
call, leaves the clock stream as it is, and leaves the id live when there was
at least one call. -/
theorem run_upserts (id : String) :
    ∀ (ups : List (Block × String)) (s : Store),
      (∀ p ∈ ups, p.1.ID = id) →
      (∀ o ∈ outcomes s (upsertOps ups), o = none) →
      (historyOf (run s (upsertOps ups)) id).length = (historyOf s id).length + ups.length ∧
      (run s (upsertOps ups)).millis = s.millis ∧
      (ups ≠ [] → getBlock (run s (upsertOps ups)) id ≠ none) := by
  intro ups
  induction ups with
  | nil => intro s _ _; simp [upsertOps, run]
  | cons p rest ih =>
    intro s hIds hOk
    have hp : p.1.ID = id := hIds p (List.mem_cons_self _ _)
    have hsucc : (insertBlock s p.1 p.2).2 = none :=
      hOk _ (by simp [upsertOps, outcomes, step])
    have hrest : ∀ o ∈ outcomes (insertBlock s p.1 p.2).1 (upsertOps rest), o = none := by
      intro o ho
      exact hOk o (by simp only [upsertOps, List.map_cons, outcomes, step, List.mem_cons]
                      exact Or.inr ho)
    obtain ⟨h1, h2, h3⟩ := ih (insertBlock s p.1 p.2).1
      (fun q hq => hIds q (List.mem_cons_of_mem _ hq)) hrest
    obtain ⟨row, hrow, hhist⟩ := insertBlock_history_of_success s p.1 p.2 hsucc
    have hlen : (historyOf (insertBlock s p.1 p.2).1 id).length =
        (historyOf s id).length + 1 := by
      have := historyOf_append s id row (hrow.trans hp) _ hhist
      unfold historyOf at this ⊢
      rw [this]
      simp
    have hrun : run s (upsertOps (p :: rest)) =
        run (insertBlock s p.1 p.2).1 (upsertOps rest) := by
      simp [upsertOps, run, step]
    rw [hrun]
    refine ⟨?_, ?_, ?_⟩
    · rw [h1, hlen, List.length_cons]; omega
    · rw [h2, insertBlock_millis]
    · intro _
      by_cases hr : rest = []
      · subst hr
        have := insertBlock_live_of_success s p.1 p.2 hsucc
        rw [hp] at this
        simpa [upsertOps, run] using this
      · exact h3 hr

/-- C7 (as amended): from a store whose history has no row of a block id, after
N ≥ 1 successful upserts of that id followed by one delete of that id, read on
a clock that never shows 0, the history holds exactly N+1 rows of the id and
the last of them in insert order has a non-zero deleteAt. -/
theorem history_completeness (s : Store) (id : String) (ups : List (Block × String))
    (modifiedBy : String)
    (hHist : historyOf s id = [])
    (hIds : ∀ p ∈ ups, p.1.ID = id)
    (hOk : ∀ o ∈ outcomes s (upsertOps ups), o = none)
    (hN : ups ≠ [])
    (hClock : ∀ n, s.millis n ≠ 0) :
    (historyOf (deleteBlock (run s (upsertOps ups)) id modifiedBy).1 id).length =
      ups.length + 1 ∧
    ∃ t, (historyOf (deleteBlock (run s (upsertOps ups)) id modifiedBy).1 id).getLast? =
      some t ∧ t.DeleteAt ≠ 0 := by
  obtain ⟨h1, h2, h3⟩ := run_upserts id ups s hIds hOk
  cases hg : getBlock (run s (upsertOps ups)) id with
  | none => exact absurd hg (h3 hN)
  | some b =>
    have hid : b.ID = id := getBlock_some_id _ id b hg
    rw [deleteBlock_existing_eq _ id modifiedBy b hg]
    have happ := historyOf_append (run s (upsertOps ups)) id
      (tombstone (blockFromRow (run s (upsertOps ups)) b) modifiedBy
        ((run s (upsertOps ups)).millis (run s (upsertOps ups)).tick))
      hid _ rfl
    unfold historyOf at happ h1 hHist ⊢
    simp only []
    rw [happ]
    refine ⟨?_, ?_⟩
    · rw [List.length_append, h1, hHist]
      simp
    · refine ⟨_, List.getLast?_concat _, ?_⟩
      show (run s (upsertOps ups)).millis (run s (upsertOps ups)).tick ≠ 0
      rw [h2]
      exact hClock _

theorem history_completeness_witness :
    (historyOf (deleteBlock (run sampleEmpty
        (upsertOps [(sampleBlock, "u0"), ({ sampleBlock with Title := "t2" }, "u1")]))
        "b1" "u2").1 "b1").length =
      [(sampleBlock, "u0"), ({ sampleBlock with Title := "t2" }, "u1")].length + 1 ∧
    ∃ t, (historyOf (deleteBlock (run sampleEmpty
        (upsertOps [(sampleBlock, "u0"), ({ sampleBlock with Title := "t2" }, "u1")]))
        "b1" "u2").1 "b1").getLast? =
      some t ∧ t.DeleteAt ≠ 0 :=
  history_completeness sampleEmpty "b1"
    [(sampleBlock, "u0"), ({ sampleBlock with Title := "t2" }, "u1")] "u2"
    rfl (by decide) (by decide) (by decide)
    (fun n => by unfold sampleEmpty emptyStore sampleMillis; simp only []; omega)

/-- C7 as stated fails for N = 0: on the empty store, zero upserts followed by
a delete of `b1` succeed, and the history then holds no row of `b1`, not
0 + 1 rows. -/
theorem history_completeness_fails_without_upsert :
    outcomes sampleEmpty (upsertOps [] ++ [Op.deleteBlock "b1" "u2"]) =
      [none] ∧
    (historyOf (deleteBlock (run sampleEmpty (upsertOps [])) "b1" "u2").1
      "b1").length = 0 ∧
    (historyOf (deleteBlock (run sampleEmpty (upsertOps [])) "b1" "u2").1
      "b1").length ≠ ([] : List (Block × String)).length + 1 := by
  refine ⟨rfl, rfl, ?_⟩
  decide

/-! ## Invariants of the live table -/

theorem insertBlock_ids_nodup (s : Store) (block : Block) (userID : String)
    (h : (s.blocks.map Block.ID).Nodup) :
    ((insertBlock s block userID).1.blocks.map Block.ID).Nodup := by
  rcases insertBlock_cases s block userID with h1 | h1 | h1
  · rw [h1.2]; exact h
  · rw [h1.2]
    have : (fun r => Block.ID (updateRow
        { block with UpdateAt := s.millis s.tick, ModifiedBy := userID } r)) = Block.ID := by
      funext r
      exact updateRow_ID _ r
    simpa [List.map_map, Function.comp_def, this] using h
  · rw [h1.2]
    have habs := (getBlock_eq_none_iff s block.ID).mp h1.1
    simp only [List.map_append, List.map_cons, List.map_nil]
    rw [List.nodup_append]
    refine ⟨h, List.nodup_singleton _, ?_⟩
    intro a ha hb
    rw [List.mem_singleton] at hb
    obtain ⟨r, hr, hra⟩ := List.mem_map.mp ha
    exact habs r hr (by rw [hra, hb]; rfl)

theorem patchBlock_ids_nodup (s : Store) (blockID : String) (p : BlockPatch)
    (userID : String) (h : (s.blocks.map Block.ID).Nodup) :
    ((patchBlock s blockID p userID).1.blocks.map Block.ID).Nodup := by
  unfold patchBlock
  cases getBlock s blockID with
  | none => exact h
  | some e => exact insertBlock_ids_nodup s (p.Patch (blockFromRow s e)) userID h

theorem deleteBlock_ids_nodup (s : Store) (blockID modifiedBy : String)
    (h : (s.blocks.map Block.ID).Nodup) :
    ((deleteBlock s blockID modifiedBy).1.blocks.map Block.ID).Nodup := by
  cases hg : getBlock s blockID with
  | none => rw [deleteBlock_absent_eq s blockID modifiedBy hg]; exact h
  | some b =>
    rw [deleteBlock_existing_eq s blockID modifiedBy b hg]
    exact List.Nodup.sublist (List.Sublist.map _ (List.filter_sublist _)) h

theorem step_ids_nodup (s : Store) (op : Op) (h : (s.blocks.map Block.ID).Nodup) :
    ((step s op).1.blocks.map Block.ID).Nodup := by
  cases op with
  | insertBlock block userID => exact insertBlock_ids_nodup s block userID h
  | patchBlock blockID p userID => exact patchBlock_ids_nodup s blockID p userID h
  | deleteBlock blockID modifiedBy => exact deleteBlock_ids_nodup s blockID modifiedBy h

theorem run_ids_nodup :
    ∀ (ops : List Op) (s : Store), (s.blocks.map Block.ID).Nodup →
      ((run s ops).blocks.map Block.ID).Nodup := by
  intro ops
  induction ops with
  | nil => intro s h; exact h
  | cons op ops ih => intro s h; exact ih (step s op).1 (step_ids_nodup s op h)

/-- An upsert that returns an error or carries another id leaves an id that is
not live not live. -/
theorem insertBlock_keeps_absent (s : Store) (block : Block) (userID id : String)
    (habs : ∀ r ∈ s.blocks, r.ID ≠ id)
    (h : block.ID ≠ id ∨ (insertBlock s block userID).2 ≠ none) :
    ∀ r ∈ (insertBlock s block userID).1.blocks, r.ID ≠ id := by
  rcases insertBlock_cases s block userID with h1 | h1 | h1
  · rw [h1.2]; exact habs
  · rw [h1.2]
    intro r hr
    obtain ⟨r0, hr0, rfl⟩ := List.mem_map.mp hr
    rw [updateRow_ID]
    exact habs r0 hr0
  · rcases h with h | h
    · rw [h1.2]
      intro r hr
      rcases List.mem_append.mp hr with hr | hr
      · exact habs r hr
      · rw [List.mem_singleton] at hr
        subst hr
        exact h
    · rw [h1.2] at h
      exact absurd rfl h

theorem patchBlock_keeps_absent (s : Store) (blockID : String) (p : BlockPatch)
    (userID id : String) (hp : p.KeepsID)
    (habs : ∀ r ∈ s.blocks, r.ID ≠ id) :
    ∀ r ∈ (patchBlock s blockID p userID).1.blocks, r.ID ≠ id := by
  unfold patchBlock
  cases hg : getBlock s blockID with
  | none => exact habs
  | some e =>
    have hmem : e ∈ s.blocks := by
      unfold getBlock at hg
      exact (List.mem_filter.mp (List.mem_of_mem_head? hg)).1
    refine insertBlock_keeps_absent s (p.Patch (blockFromRow s e)) userID id habs (Or.inl ?_)
    rw [hp (blockFromRow s e)]
    exact habs e hmem

theorem deleteBlock_mem (s : Store) (blockID modifiedBy : String) :
    ∀ r ∈ (deleteBlock s blockID modifiedBy).1.blocks, r ∈ s.blocks ∧ r.ID ≠ blockID := by
  cases hg : getBlock s blockID with
  | none =>
    rw [deleteBlock_absent_eq s blockID modifiedBy hg]
    intro r hr
    exact ⟨hr, (getBlock_eq_none_iff s blockID).mp hg r hr⟩
  | some b =>
    rw [deleteBlock_existing_eq s blockID modifiedBy b hg]
    intro r hr
    have := List.mem_filter.mp hr
    exact ⟨this.1, by simpa using this.2⟩

/-- While the most recent
successful call addressed to `id` is a delete, `id` has no live row. -/
theorem run_absent_after_delete (id : String) :
    ∀ (ops : List Op) (s : Store) (acc : Option Op),
      PatchesKeepID ops →
      (∀ op, acc = some op → op.isDelete = true → ∀ r ∈ s.blocks, r.ID ≠ id) →
      ∀ op, lastSuccessful id s ops acc = some op → op.isDelete = true →
        ∀ r ∈ (run s ops).blocks, r.ID ≠ id := by
  intro ops
  induction ops with
  | nil =>
    intro s acc _ hacc op hop hdel
    exact hacc op hop hdel
  | cons o ops ih =>
    intro s acc hkeep hacc op hop hdel
    have hkeep1 : PatchesKeepID ops := fun b p u hm => hkeep b p u (List.mem_cons_of_mem _ hm)
    refine ih (step s o).1 _ hkeep1 ?_ op hop hdel
    intro op1 hop1 hdel1
    by_cases hc : o.target = id ∧ (step s o).2 = none
    · rw [if_pos hc] at hop1
      have : o = op1 := Option.some.inj hop1
      subst this
      cases o with
      | insertBlock block userID => simp [Op.isDelete] at hdel1
      | patchBlock blockID p userID => simp [Op.isDelete] at hdel1
      | deleteBlock blockID modifiedBy =>
        have ht : blockID = id := hc.1
        subst ht
        intro r hr
        exact (deleteBlock_mem s blockID modifiedBy r hr).2
    · rw [if_neg hc] at hop1
      have habs := hacc op1 hop1 hdel1
      cases o with
      | insertBlock block userID =>
        refine insertBlock_keeps_absent s block userID id habs ?_
        by_cases hb : block.ID = id
        · right
          intro hnone
          exact hc ⟨hb, hnone⟩
        · exact Or.inl hb
      | patchBlock blockID p userID =>
        exact patchBlock_keeps_absent s blockID p userID id
          (hkeep blockID p userID (List.mem_cons_self _ _)) habs
      | deleteBlock blockID modifiedBy =>
        intro r hr
        exact habs r (deleteBlock_mem s blockID modifiedBy r hr).1

/-- C9: in every state reached from the empty store by a sequence of
insertBlock, patchBlock and deleteBlock calls no two live rows share a block
id; and, the patches leaving the block id as it is, an id whose most recent
successful call was a delete has no live row. -/
theorem live_unique (millis : Nat → Int) (dbType : String) (remarshal : String → String)
    (ops : List Op) :
    ((run (emptyStore millis dbType remarshal) ops).blocks.map Block.ID).Nodup ∧
    (PatchesKeepID ops →
      ∀ (id : String) (op : Op),
        lastSuccessful id (emptyStore millis dbType remarshal) ops none = some op →
        op.isDelete = true →
        ∀ r ∈ (run (emptyStore millis dbType remarshal) ops).blocks, r.ID ≠ id) := by
  refine ⟨run_ids_nodup ops (emptyStore millis dbType remarshal) (by simp [emptyStore]), ?_⟩
  intro hkeep id op hop hdel
  exact run_absent_after_delete id ops (emptyStore millis dbType remarshal) none hkeep
    (fun _ h => by cases h) op hop hdel

theorem titlePatch_keepsID (title : String) : (titlePatch title).KeepsID :=
  fun _ => rfl

theorem titlePatch_keepsDeleteAt (title : String) : (titlePatch title).KeepsDeleteAt :=
  fun _ => rfl

theorem live_unique_witness :
    ((run sampleEmpty sampleOps).blocks.map Block.ID).Nodup ∧
    ∀ r ∈ (run sampleEmpty sampleOps).blocks, r.ID ≠ "b1" :=
  ⟨(live_unique sampleMillis sqliteDBType sampleRemarshal sampleOps).1,
   (live_unique sampleMillis sqliteDBType sampleRemarshal sampleOps).2
     (fun b p u hm => by
       simp only [sampleOps, List.mem_cons, List.mem_singleton, List.mem_nil_iff] at hm
       rcases hm with hm | hm | hm | hm | hm
       · cases hm
       · cases hm; exact titlePatch_keepsID _
       · cases hm
       · cases hm; exact titlePatch_keepsID _
       · exact absurd hm (by simp))
     "b1" (Op.deleteBlock "b1" "u2") rfl rfl⟩

theorem insertBlock_deleteAt_zero (s : Store) (block : Block) (userID : String)
    (hb : block.DeleteAt = 0) (h : ∀ r ∈ s.blocks, r.DeleteAt = 0) :
    ∀ r ∈ (insertBlock s block userID).1.blocks, r.DeleteAt = 0 := by
  rcases insertBlock_cases s block userID with h1 | h1 | h1
  · rw [h1.2]; exact h
  · rw [h1.2]
    intro r hr
    obtain ⟨r0, hr0, rfl⟩ := List.mem_map.mp hr
    unfold updateRow
    split
    · exact hb
    · exact h r0 hr0
  · rw [h1.2]
    intro r hr
    rcases List.mem_append.mp hr with hr | hr
    · exact h r hr
    · rw [List.mem_singleton] at hr
      subst hr
      exact hb

theorem step_deleteAt_zero (s : Store) (op : Op) (hop : NoDeleteAtWritten [op])
    (h : ∀ r ∈ s.blocks, r.DeleteAt = 0) :
    ∀ r ∈ (step s op).1.blocks, r.DeleteAt = 0 := by
  cases op with
  | insertBlock block userID =>
    exact insertBlock_deleteAt_zero s block userID
      (hop.1 block userID (List.mem_singleton_self _)) h
  | patchBlock blockID p userID =>
    show ∀ r ∈ (patchBlock s blockID p userID).1.blocks, r.DeleteAt = 0
    unfold patchBlock
    cases hg : getBlock s blockID with
    | none => exact h
    | some e =>
      have hmem : e ∈ s.blocks := by
        unfold getBlock at hg
        exact (List.mem_filter.mp (List.mem_of_mem_head? hg)).1
      refine insertBlock_deleteAt_zero s (p.Patch (blockFromRow s e)) userID ?_ h
      rw [hop.2 blockID p userID (List.mem_singleton_self _) (blockFromRow s e)]
      exact h e hmem
  | deleteBlock blockID modifiedBy =>
    intro r hr
    exact h r (deleteBlock_mem s blockID modifiedBy r hr).1

theorem run_deleteAt_zero :
    ∀ (ops : List Op) (s : Store), NoDeleteAtWritten ops →
      (∀ r ∈ s.blocks, r.DeleteAt = 0) → ∀ r ∈ (run s ops).blocks, r.DeleteAt = 0 := by
  intro ops
  induction ops with
  | nil => intro s _ h; exact h
  | cons op ops ih =>
    intro s hops h
    refine ih (step s op).1 ?_ (step_deleteAt_zero s op ?_ h)
    · exact ⟨fun b u hm => hops.1 b u (List.mem_cons_of_mem _ hm),
        fun b p u hm => hops.2 b p u (List.mem_cons_of_mem _ hm)⟩
    · refine ⟨fun b u hm => hops.1 b u ?_, fun b p u hm => hops.2 b p u ?_⟩
      · rw [List.mem_singleton] at hm; rw [hm]; exact List.mem_cons_self _ _
      · rw [List.mem_singleton] at hm; rw [hm]; exact List.mem_cons_self _ _

/-- C10 (as amended): in every state reached from the empty store by a
sequence of insertBlock calls whose blocks carry deleteAt = 0, patchBlock calls
whose patches leave deleteAt as it is, and deleteBlock calls, every live row
has deleteAt = 0. -/
theorem live_rows_not_deleted (millis : Nat → Int) (dbType : String)
    (remarshal : String → String) (ops : List Op) (hops : NoDeleteAtWritten ops) :
    ∀ r ∈ (run (emptyStore millis dbType remarshal) ops).blocks, r.DeleteAt = 0 :=
  run_deleteAt_zero ops (emptyStore millis dbType remarshal) hops (by simp [emptyStore])

theorem live_rows_not_deleted_witness :
    (run sampleEmpty sampleLiveOps).blocks ≠ [] ∧
    ∀ r ∈ (run sampleEmpty sampleLiveOps).blocks, r.DeleteAt = 0 :=
  ⟨by decide,
   live_rows_not_deleted sampleMillis sqliteDBType sampleRemarshal sampleLiveOps
    ⟨fun b u hm => by
       simp only [sampleLiveOps, List.mem_cons, List.mem_singleton, List.mem_nil_iff] at hm
       rcases hm with hm | hm | hm
       · cases hm; rfl
       · cases hm
       · exact absurd hm (by simp),
     fun b p u hm => by
       simp only [sampleLiveOps, List.mem_cons, List.mem_singleton, List.mem_nil_iff] at hm
       rcases hm with hm | hm | hm
       · cases hm
       · cases hm; exact titlePatch_keepsDeleteAt _
       · exact absurd hm (by simp)⟩⟩

/-- C10 as stated fails: on the empty store, an upsert of a block that carries
deleteAt = 7 succeeds and leaves a live row with deleteAt = 7. -/
theorem live_row_with_deleteAt :
    outcomes sampleEmpty
      [Op.insertBlock { sampleBlock with DeleteAt := 7 } "u0"] = [none] ∧
    (run sampleEmpty
      [Op.insertBlock { sampleBlock with DeleteAt := 7 } "u0"]).blocks =
      [{ ID := "b1", ParentID := "p", RootID := "r", CreatedBy := "u0", ModifiedBy := "u0",
         Schema := 1, Type_ := "card", Title := "t1", Fields := "\x7b\x7d",
         CreateAt := 1001, UpdateAt := 1002, DeleteAt := 7, BoardID := "board" }] ∧
    ∃ r ∈ (run sampleEmpty
      [Op.insertBlock { sampleBlock with DeleteAt := 7 } "u0"]).blocks, r.DeleteAt ≠ 0 := by
  refine ⟨rfl, rfl, ⟨_, List.mem_singleton_self _, ?_⟩⟩
  decide

/-! ## Patches -/

/-- C11: a patch of an id with no live row fails with BlockNotFoundErr for
that id and leaves the store, live table and history table included, exactly
as it was, while a delete of the same id succeeds and also changes nothing. -/
theorem patchBlock_absent (s : Store) (blockID userID : String) (p : BlockPatch)
    (hAbsent : getBlock s blockID = none) :
    patchBlock s blockID p userID = (s, some (StoreError.BlockNotFoundErr blockID)) ∧
    deleteBlock s blockID userID = (s, none) := by
  constructor
  · simp [patchBlock, hAbsent]
  · exact deleteBlock_absent_eq s blockID userID hAbsent

theorem patchBlock_absent_witness :
    patchBlock sampleStore "nope" (titlePatch "t9") "u1" =
      (sampleStore, some (StoreError.BlockNotFoundErr "nope")) ∧
    deleteBlock sampleStore "nope" "u1" = (sampleStore, none) :=
  patchBlock_absent sampleStore "nope" "u1" (titlePatch "t9") rfl

theorem insertBlock_success_valid (s : Store) (block : Block) (userID : String)
    (h : (insertBlock s block userID).2 = none) :
    block.RootID ≠ "" ∧ block.BoardID ≠ "" := by
  constructor
  · intro hRoot
    simp [insertBlock, hRoot] at h
  · intro hBoard
    by_cases hRoot : block.RootID = ""
    · simp [insertBlock, hRoot] at h
    · simp [insertBlock, hRoot, hBoard] at h

theorem getBlock_some_mem (s : Store) (blockID : String) (b : Block)
    (h : getBlock s blockID = some b) : b ∈ s.blocks := by
  unfold getBlock at h
  exact (List.mem_filter.mp (List.mem_of_mem_head? h)).1

/-- An upsert keeps the live rows at non-empty rootID and boardID. -/
theorem insertBlock_live_valid (s : Store) (block : Block) (userID : String)
    (h : ∀ r ∈ s.blocks, r.RootID ≠ "" ∧ r.BoardID ≠ "") :
    ∀ r ∈ (insertBlock s block userID).1.blocks, r.RootID ≠ "" ∧ r.BoardID ≠ "" := by
  rcases insertBlock_cases s block userID with h1 | h1 | h1
  · rw [h1.2]; exact h
  · have hv := insertBlock_success_valid s block userID (by rw [h1.2])
    rw [h1.2]
    intro r hr
    obtain ⟨r0, hr0, rfl⟩ := List.mem_map.mp hr
    unfold updateRow
    split
    · exact ⟨hv.1, (h r0 hr0).2⟩
    · exact h r0 hr0
  · have hv := insertBlock_success_valid s block userID (by rw [h1.2])
    rw [h1.2]
    intro r hr
    rcases List.mem_append.mp hr with hr | hr
    · exact h r hr
    · rw [List.mem_singleton] at hr
      subst hr
      exact hv

theorem step_live_valid (s : Store) (op : Op)
    (h : ∀ r ∈ s.blocks, r.RootID ≠ "" ∧ r.BoardID ≠ "") :
    ∀ r ∈ (step s op).1.blocks, r.RootID ≠ "" ∧ r.BoardID ≠ "" := by
  cases op with
  | insertBlock block userID => exact insertBlock_live_valid s block userID h
  | patchBlock blockID p userID =>
    show ∀ r ∈ (patchBlock s blockID p userID).1.blocks, r.RootID ≠ "" ∧ r.BoardID ≠ ""
    unfold patchBlock
    cases getBlock s blockID with
    | none => exact h
    | some e => exact insertBlock_live_valid s (p.Patch (blockFromRow s e)) userID h
  | deleteBlock blockID modifiedBy =>
    intro r hr
    exact h r (deleteBlock_mem s blockID modifiedBy r hr).1

/-- Every live row of a state reached from the empty store through the write
calls has a non-empty rootID and a non-empty boardID. -/
theorem run_live_valid :
    ∀ (ops : List Op) (s : Store), (∀ r ∈ s.blocks, r.RootID ≠ "" ∧ r.BoardID ≠ "") →
      ∀ r ∈ (run s ops).blocks, r.RootID ≠ "" ∧ r.BoardID ≠ "" := by
  intro ops
  induction ops with
  | nil => intro s h; exact h
  | cons op ops ih => intro s h; exact ih (step s op).1 (step_live_valid s op h)

/-- C13: getBlocksForBoard returns exactly the live rows of the board, and
getBlocksWithParent, getBlocksWithRootID and getBlocksWithType exactly the live
rows of the board with the given parentID, rootID or type, each as often and in
the order the live table holds it; no returned row belongs to another
board. -/
theorem flat_reads_board_scoped (s : Store) (boardID : String) :
    getBlocksForBoard s boardID = s.blocks.filter (fun r => r.BoardID = boardID) ∧
    (∀ parentID : String, getBlocksWithParent s boardID parentID =
      s.blocks.filter (fun r => r.BoardID = boardID ∧ r.ParentID = parentID)) ∧
    (∀ rootID : String, getBlocksWithRootID s boardID rootID =
      s.blocks.filter (fun r => r.BoardID = boardID ∧ r.RootID = rootID)) ∧
    (∀ blockType : String, getBlocksWithType s boardID blockType =
      s.blocks.filter (fun r => r.BoardID = boardID ∧ r.Type_ = blockType)) ∧
    (∀ r : Block, r ∈ getBlocksForBoard s boardID → r.BoardID = boardID) ∧
    (∀ (x : String) (r : Block),
      (r ∈ getBlocksWithParent s boardID x ∨ r ∈ getBlocksWithRootID s boardID x ∨
        r ∈ getBlocksWithType s boardID x) → r.BoardID = boardID) := by
  refine ⟨rfl, ?_, ?_, ?_, ?_, ?_⟩
  · intro parentID
    simp [getBlocksWithParent, List.filter_filter]
  · intro rootID
    simp [getBlocksWithRootID, List.filter_filter]
  · intro blockType
    simp [getBlocksWithType, List.filter_filter]
  · intro r hr
    simpa using (List.mem_filter.mp hr).2
  · intro x r hr
    rcases hr with hr | hr | hr
    · simpa using (List.mem_filter.mp hr).2
    · simpa using (List.mem_filter.mp hr).2
    · simpa using (List.mem_filter.mp hr).2

theorem flat_reads_board_scoped_witness :
    getBlocksWithType sampleTree "board" "text" =
      [sampleRow "B" "" "board" 10, sampleRow "c1" "B" "board" 20,
       sampleRow "c2" "B" "board" 30, sampleRow "g1" "c1" "board" 40,
       sampleRow "g2" "c2" "board" 50] ∧
    getBlocksWithParent sampleTree "other" "B" = [sampleRow "x" "B" "other" 60] ∧
    sampleRow "x" "B" "other" 60 ∉ getBlocksWithParent sampleTree "board" "B" :=
  ⟨by rw [(flat_reads_board_scoped sampleTree "board").2.2.2.1 "text"]; decide,
   by rw [(flat_reads_board_scoped sampleTree "other").2.1 "B"]; decide,
   fun h => absurd
     ((flat_reads_board_scoped sampleTree "board").2.2.2.2.2 "B" _ (Or.inl h))
     (by decide)⟩

/-! ## Subtree reads -/

/-- C14: getSubTree2 without time window and limit returns exactly the live
rows of the board whose id or whose parentID is the given block id, each as
often and in the order the live table holds it; so a row that is neither the
block nor one of its children, such as a grandchild, is not returned. -/
theorem getSubTree2_exact (s : Store) (boardID blockID : String) :
    getSubTree2 s boardID blockID noSubtreeOpts =
      s.blocks.filter
        (fun r => r.BoardID = boardID ∧ (r.ID = blockID ∨ r.ParentID = blockID)) ∧
    (getSubTree2 s boardID blockID noSubtreeOpts).Sublist s.blocks ∧
    (∀ r : Block, r ∈ getSubTree2 s boardID blockID noSubtreeOpts ↔
      r ∈ s.blocks ∧ r.BoardID = boardID ∧ (r.ID = blockID ∨ r.ParentID = blockID)) ∧
    (∀ c g : Block, c.ParentID = blockID → g.ParentID = c.ID → g.ID ≠ blockID →
      c.ID ≠ blockID → g ∉ getSubTree2 s boardID blockID noSubtreeOpts) := by
  have h : getSubTree2 s boardID blockID noSubtreeOpts =
      s.blocks.filter
        (fun r => r.BoardID = boardID ∧ (r.ID = blockID ∨ r.ParentID = blockID)) := by
    simp [getSubTree2, noSubtreeOpts, List.filter_filter]
  refine ⟨h, ?_, ?_, ?_⟩
  · rw [h]; exact List.filter_sublist _
  · intro r
    rw [h, List.mem_filter]
    simp
  · intro c g hc hg hgB hcB hmem
    rw [h, List.mem_filter] at hmem
    have := hmem.2
    simp only [decide_eq_true_eq] at this
    rcases this.2 with h1 | h1
    · exact hgB h1
    · exact hcB (by rw [← hg, h1])

theorem getSubTree2_exact_witness :
    getSubTree2 sampleTree "board" "B" noSubtreeOpts =
      [sampleRow "B" "" "board" 10, sampleRow "c1" "B" "board" 20,
       sampleRow "c2" "B" "board" 30] ∧
    sampleRow "g1" "c1" "board" 40 ∉ getSubTree2 sampleTree "board" "B" noSubtreeOpts :=
  ⟨by rw [(getSubTree2_exact sampleTree "board" "B").1]; decide,
   (getSubTree2_exact sampleTree "board" "B").2.2.2
     (sampleRow "c1" "B" "board" 20) (sampleRow "g1" "c1" "board" 40)
     rfl rfl (by decide) (by decide)⟩

theorem mem_of_mem_distinctBy {κ : Type} [DecidableEq κ] (key : Block → κ) (x : Block) :
    ∀ l : List Block, x ∈ distinctBy key l → x ∈ l := by
  intro l
  induction l with
  | nil => intro h; simp [distinctBy] at h
  | cons r rs ih =>
    intro h
    simp only [distinctBy, List.mem_cons, List.mem_filter] at h
    rcases h with h | h
    · exact h ▸ List.mem_cons_self _ _
    · exact List.mem_cons_of_mem _ (ih h.1)

theorem distinctBy_key_nodup {κ : Type} [DecidableEq κ] (key : Block → κ) :
    ∀ l : List Block, ((distinctBy key l).map key).Nodup := by
  intro l
  induction l with
  | nil => simp [distinctBy]
  | cons r rs ih =>
    simp only [distinctBy, List.map_cons, List.nodup_cons]
    constructor
    · intro hmem
      obtain ⟨y, hy, hky⟩ := List.mem_map.mp hmem
      have := (List.mem_filter.mp hy).2
      simp only [decide_eq_true_eq] at this
      exact this hky
    · exact List.Nodup.sublist (List.Sublist.map _ (List.filter_sublist _)) ih

theorem exists_mem_distinctBy {κ : Type} [DecidableEq κ] (key : Block → κ) (x : Block) :
    ∀ l : List Block, x ∈ l → ∃ y ∈ distinctBy key l, key y = key x := by
  intro l
  induction l with
  | nil => intro h; simp at h
  | cons r rs ih =>
    intro h
    rcases List.mem_cons.mp h with h | h
    · exact ⟨r, by simp [distinctBy], by rw [h]⟩
    · obtain ⟨y, hy, hky⟩ := ih h
      by_cases hr : key y = key r
      · exact ⟨r, by simp [distinctBy], by rw [← hr, hky]⟩
      · refine ⟨y, ?_, hky⟩
        simp only [distinctBy, List.mem_cons, List.mem_filter, decide_eq_true_eq]
        exact Or.inr ⟨hy, hr⟩

/-- When rows with equal keys are equal, the distinct step keeps exactly the
rows of the list. -/
theorem mem_distinctBy_iff {κ : Type} [DecidableEq κ] (key : Block → κ) (l : List Block)
    (hinj : ∀ a ∈ l, ∀ b ∈ l, key a = key b → a = b) (x : Block) :
    x ∈ distinctBy key l ↔ x ∈ l := by
  constructor
  · exact mem_of_mem_distinctBy key x l
  · intro hx
    obtain ⟨y, hy, hky⟩ := exists_mem_distinctBy key x l hx
    have : y = x := hinj y (mem_of_mem_distinctBy key y l hy) x hx hky
    exact this ▸ hy

theorem mem_subTree3Join (s : Store) (t : JoinRow) :
    t ∈ subTree3Join s ↔
      t.l1 ∈ s.blocks ∧ t.l2 ∈ s.blocks ∧ t.l3 ∈ s.blocks ∧
      (t.l2.ParentID = t.l1.ID ∨ t.l2.ID = t.l1.ID) ∧
      (t.l3.ParentID = t.l2.ID ∨ t.l3.ID = t.l2.ID) := by
  unfold subTree3Join
  simp only [List.mem_flatMap, List.mem_map, List.mem_filter, decide_eq_true_eq]
  constructor
  · rintro ⟨a, ha, b, ⟨hb, hab⟩, c, ⟨hc, hbc⟩, rfl⟩
    exact ⟨ha, hb, hc, hab, hbc⟩
  · rintro ⟨ha, hb, hc, hab, hbc⟩
    exact ⟨t.l1, ha, t.l2, ⟨hb, hab⟩, t.l3, ⟨hc, hbc⟩, rfl⟩

/-- The rows the statement of `getSubTree3` selects before the distinct step,
when no time window is given. -/
theorem mem_subTree3_selected (s : Store) (boardID blockID : String)
    (hU : (s.blocks.map Block.ID).Nodup) (hB : getBlock s blockID ≠ none) (r : Block) :
    r ∈ (((subTree3Join s).filter (fun t => t.l1.ID = blockID)).filter
          (fun t => t.l3.BoardID = boardID)).map (fun t => t.l3) ↔
      r ∈ s.blocks ∧ r.BoardID = boardID ∧ InSubTree3 s blockID r := by
  have hinj := List.inj_on_of_nodup_map hU
  simp only [List.mem_map, List.mem_filter, decide_eq_true_eq, mem_subTree3Join]
  constructor
  · rintro ⟨t, ⟨⟨⟨h1, h2, h3, h12, h23⟩, hid⟩, hboard⟩, rfl⟩
    refine ⟨h3, hboard, ?_⟩
    rcases h12 with h12 | h12
    · rcases h23 with h23 | h23
      · exact Or.inr (Or.inr ⟨t.l2, h2, by rw [h12, hid], h23⟩)
      · have : t.l3 = t.l2 := hinj h3 h2 h23
        exact Or.inr (Or.inl (by rw [this, h12, hid]))
    · rcases h23 with h23 | h23
      · exact Or.inr (Or.inl (by rw [h23, h12, hid]))
      · exact Or.inl (by rw [h23, h12, hid])
  · rintro ⟨hr, hboard, hsub⟩
    cases hg : getBlock s blockID with
    | none => exact absurd hg hB
    | some b =>
      have hb : b ∈ s.blocks := getBlock_some_mem s blockID b hg
      have hbid : b.ID = blockID := getBlock_some_id s blockID b hg
      rcases hsub with h | h | ⟨c, hc, hcp, hrc⟩
      · exact ⟨⟨r, r, r⟩, ⟨⟨⟨hr, hr, hr, Or.inr rfl, Or.inr rfl⟩, h⟩, hboard⟩, rfl⟩
      · exact ⟨⟨b, b, r⟩,
          ⟨⟨⟨hb, hb, hr, Or.inr rfl, Or.inl (by rw [h, hbid])⟩, hbid⟩, hboard⟩, rfl⟩
      · exact ⟨⟨b, c, r⟩,
          ⟨⟨⟨hb, hc, hr, Or.inl (by rw [hcp, hbid]), Or.inl hrc⟩, hbid⟩, hboard⟩, rfl⟩

theorem getSubTree3_noOpts_eq (s : Store) (boardID blockID : String) :
    getSubTree3 s boardID blockID noSubtreeOpts =
      Except.ok (if s.dbType = postgresDBType then
          distinctBy Block.ID ((((subTree3Join s).filter (fun t => t.l1.ID = blockID)).filter
            (fun t => t.l3.BoardID = boardID)).map (fun t => t.l3))
        else
          distinctBy (fun r => r) ((((subTree3Join s).filter
            (fun t => t.l1.ID = blockID)).filter
            (fun t => t.l3.BoardID = boardID)).map (fun t => t.l3))) := by
  simp [getSubTree3, noSubtreeOpts, Except.map, Except.bind]

/-- C15: with unique live ids and a live row for the block id, getSubTree3
without time window and limit returns, for the postgres dialect and for any
other, a list that holds exactly the live rows of the board that are the block,
a child of it or a grandchild of it, and in which no id occurs twice. -/
theorem getSubTree3_exact (s : Store) (boardID blockID : String)
    (hU : (s.blocks.map Block.ID).Nodup) (hB : getBlock s blockID ≠ none) :
    ∃ rows : List Block,
      getSubTree3 s boardID blockID noSubtreeOpts = Except.ok rows ∧
      (rows.map Block.ID).Nodup ∧
      (∀ r : Block, r ∈ rows ↔
        r ∈ s.blocks ∧ r.BoardID = boardID ∧ InSubTree3 s blockID r) ∧
      (∀ id : String, id ∈ rows.map Block.ID ↔
        ∃ r ∈ s.blocks, r.ID = id ∧ r.BoardID = boardID ∧ InSubTree3 s blockID r) := by
  have hinj := List.inj_on_of_nodup_map hU
  have hsel := mem_subTree3_selected s boardID blockID hU hB
  refine ⟨_, getSubTree3_noOpts_eq s boardID blockID, ?_⟩
  have hmem : ∀ r : Block,
      r ∈ (if s.dbType = postgresDBType then
          distinctBy Block.ID ((((subTree3Join s).filter (fun t => t.l1.ID = blockID)).filter
            (fun t => t.l3.BoardID = boardID)).map (fun t => t.l3))
        else
          distinctBy (fun r => r) ((((subTree3Join s).filter
            (fun t => t.l1.ID = blockID)).filter
            (fun t => t.l3.BoardID = boardID)).map (fun t => t.l3))) ↔
      r ∈ s.blocks ∧ r.BoardID = boardID ∧ InSubTree3 s blockID r := by
    intro r
    rw [← hsel r]
    split
    · exact mem_distinctBy_iff Block.ID _
        (fun a ha b hb hab => hinj ((hsel a).mp ha).1 ((hsel b).mp hb).1 hab) r
    · exact mem_distinctBy_iff (fun r => r) _ (fun a _ b _ hab => hab) r
  have hnodup : ((if s.dbType = postgresDBType then
          distinctBy Block.ID ((((subTree3Join s).filter (fun t => t.l1.ID = blockID)).filter
            (fun t => t.l3.BoardID = boardID)).map (fun t => t.l3))
        else
          distinctBy (fun r => r) ((((subTree3Join s).filter
            (fun t => t.l1.ID = blockID)).filter
            (fun t => t.l3.BoardID = boardID)).map (fun t => t.l3))).map Block.ID).Nodup := by
    split
    · exact distinctBy_key_nodup Block.ID _
    · refine List.Nodup.map_on ?_ ?_
      · intro a ha b hb hab
        exact hinj ((hsel a).mp (mem_of_mem_distinctBy _ a _ ha)).1
          ((hsel b).mp (mem_of_mem_distinctBy _ b _ hb)).1 hab
      · simpa using distinctBy_key_nodup (fun r : Block => r) _
  refine ⟨hnodup, hmem, ?_⟩
  intro id
  rw [List.mem_map]
  constructor
  · rintro ⟨r, hr, rfl⟩
    exact ⟨r, ((hmem r).mp hr).1, rfl, ((hmem r).mp hr).2⟩
  · rintro ⟨r, hr, hid, h⟩
    exact ⟨r, (hmem r).mpr ⟨hr, h⟩, hid⟩

theorem getSubTree3_exact_witness :
    ∃ rows : List Block,
      getSubTree3 samplePgTree "board" "B" noSubtreeOpts =
        Except.ok rows ∧
      (rows.map Block.ID).Nodup ∧
      (∀ r : Block, r ∈ rows ↔
        r ∈ samplePgTree.blocks ∧ r.BoardID = "board" ∧ InSubTree3 samplePgTree "B" r) ∧
      (∀ id : String, id ∈ rows.map Block.ID ↔
        ∃ r ∈ samplePgTree.blocks, r.ID = id ∧ r.BoardID = "board" ∧
          InSubTree3 samplePgTree "B" r) :=
  getSubTree3_exact samplePgTree "board" "B"
    (by decide) (by decide)

/-- The depth-3 read of the sample tree, for the postgres dialect and for
another one: the block, its two children and its two grandchildren in the
board, each once, although the join yields the block three times and each
child twice. -/
theorem getSubTree3_sample :
    getSubTree3 samplePgTree "board" "B" noSubtreeOpts =
      Except.ok [sampleRow "B" "" "board" 10, sampleRow "c1" "B" "board" 20,
        sampleRow "c2" "B" "board" 30, sampleRow "g1" "c1" "board" 40,
        sampleRow "g2" "c2" "board" 50] ∧
    getSubTree3 { sampleTree with dbType := mysqlDBType } "board" "B" noSubtreeOpts =
      Except.ok [sampleRow "B" "" "board" 10, sampleRow "c1" "B" "board" 20,
        sampleRow "c2" "B" "board" 30, sampleRow "g1" "c1" "board" 40,
        sampleRow "g2" "c2" "board" 50] ∧
    ((((subTree3Join sampleTree).filter (fun t => t.l1.ID = "B")).filter
        (fun t => t.l3.BoardID = "board")).map (fun t => t.l3.ID)) =
      ["B", "c1", "c2", "c1", "g1", "c2", "g2"] := by
  refine ⟨?_, ?_, ?_⟩ <;> rfl

/-- With a non-zero time bound the statement of `getSubTree3` names the column
`update_at` without an alias in a join of three aliases, and is rejected. -/
theorem getSubTree3_window_error (s : Store) (boardID blockID : String)
    (opts : QuerySubtreeOptions)
    (h : opts.BeforeUpdateAt ≠ 0 ∨ opts.AfterUpdateAt ≠ 0) :
    getSubTree3 s boardID blockID opts =
      Except.error (QueryError.AmbiguousColumn "update_at") := by
  by_cases hb : opts.BeforeUpdateAt = 0
  · have ha : opts.AfterUpdateAt ≠ 0 := by
      rcases h with h | h
      · exact absurd hb h
      · exact h
    simp [getSubTree3, hb, ha, resolveBare, Except.map, Except.bind]
  · simp [getSubTree3, hb, resolveBare, Except.map, Except.bind]

/-- C16 at the failing input: on the sample tree, getSubTree3 for the block `B`
with beforeUpdateAt = 100 and limit 2 does not succeed, on the postgres dialect
as on another one, while getSubTree2 with the same options returns two rows of
the subtree. -/
theorem getSubTree3_window_fails :
    getSubTree3 samplePgTree "board" "B"
        { BeforeUpdateAt := 100, AfterUpdateAt := 0, Limit := 2 } =
      Except.error (QueryError.AmbiguousColumn "update_at") ∧
    getSubTree3 { sampleTree with dbType := mysqlDBType } "board" "B"
        { BeforeUpdateAt := 100, AfterUpdateAt := 0, Limit := 2 } =
      Except.error (QueryError.AmbiguousColumn "update_at") ∧
    getSubTree2 sampleTree "board" "B"
        { BeforeUpdateAt := 100, AfterUpdateAt := 0, Limit := 2 } =
      [sampleRow "B" "" "board" 10, sampleRow "c1" "B" "board" 20] := by
  refine ⟨?_, ?_, ?_⟩ <;> rfl

theorem getSubTree2_eq_matching (s : Store) (boardID blockID : String)
    (opts : QuerySubtreeOptions) :
    getSubTree2 s boardID blockID opts =
      if opts.Limit ≠ 0 then
        limitRows s.dbType opts.Limit (subTree2Matching s boardID blockID opts)
      else subTree2Matching s boardID blockID opts := by
  by_cases hb : opts.BeforeUpdateAt = 0 <;> by_cases ha : opts.AfterUpdateAt = 0 <;>
    simp only [getSubTree2, subTree2Matching, hb, ha, ne_eq, not_true_eq_false,
      not_false_eq_true, if_true, if_false, List.filter_filter] <;>
    congr <;> funext x <;> rw [Bool.eq_iff_iff] <;> simp <;> tauto

/-- With unique live ids, getSubTree2 with a limit
n > 0 that the backend takes returns the first n rows of the board's subtree
rows inside the window, so min n m rows when there are m of them, none of them
twice. -/
theorem getSubTree2_window_limit (s : Store) (boardID blockID : String)
    (opts : QuerySubtreeOptions) (hU : (s.blocks.map Block.ID).Nodup)
    (hn : opts.Limit ≠ 0) (hacc : limitAccepted s.dbType opts.Limit = true) :
    (getSubTree2 s boardID blockID opts).length =
      min opts.Limit (subTree2Matching s boardID blockID opts).length ∧
    ((getSubTree2 s boardID blockID opts).map Block.ID).Nodup ∧
    (∀ r ∈ getSubTree2 s boardID blockID opts,
      r ∈ s.blocks ∧ (r.ID = blockID ∨ r.ParentID = blockID) ∧ r.BoardID = boardID ∧
      (opts.BeforeUpdateAt ≠ 0 → r.UpdateAt ≤ opts.BeforeUpdateAt) ∧
      (opts.AfterUpdateAt ≠ 0 → r.UpdateAt ≥ opts.AfterUpdateAt)) := by
  rw [getSubTree2_eq_matching, if_pos hn, limitRows, if_pos hacc]
  refine ⟨List.length_take _ _, ?_, ?_⟩
  · exact List.Nodup.sublist
      (List.Sublist.map _ ((List.take_sublist _ _).trans (List.filter_sublist _))) hU
  · intro r hr
    have h := List.mem_filter.mp (List.mem_of_mem_take hr)
    have h2 := h.2
    simp only [decide_eq_true_eq] at h2
    exact ⟨h.1, h2⟩

/-! ## History read -/

theorem getBlockHistory_eq_matching (s : Store) (blockID : String)
    (opts : QueryBlockHistoryOptions) :
    getBlockHistory s blockID opts =
      if opts.Limit ≠ 0 then
        limitRows s.dbType opts.Limit
          (if opts.Descending then (historyMatching s blockID opts).reverse
            else historyMatching s blockID opts)
      else
        (if opts.Descending then (historyMatching s blockID opts).reverse
          else historyMatching s blockID opts) := by
  by_cases hb : opts.BeforeUpdateAt = 0 <;> by_cases ha : opts.AfterUpdateAt = 0 <;>
    simp only [getBlockHistory, historyMatching, hb, ha, ne_eq, not_true_eq_false,
      not_false_eq_true, if_true, if_false, List.filter_filter] <;>
    congr <;> funext x <;> rw [Bool.eq_iff_iff] <;> simp <;> tauto

theorem mem_of_mem_limitRows {α : Type} (dbType : String) (n : Nat) (rows : List α) (r : α)
    (h : r ∈ limitRows dbType n rows) : r ∈ rows := by
  unfold limitRows at h
  split at h
  · exact List.mem_of_mem_take h
  · simp at h

theorem limitRows_sublist {α : Type} (dbType : String) (n : Nat) (rows : List α) :
    (limitRows dbType n rows).Sublist rows := by
  unfold limitRows
  split
  · exact List.take_sublist _ _
  · exact List.nil_sublist _

/-- What getBlockHistory returns: only history rows of the block id; the
matching rows in insert order when descending is false and in the reverse of
it when descending is true; with limit 0 all matching rows; with a limit n > 0
that the backend takes the first min n total of them, with one it does not
take no row at all; and with limit 1, descending and no time window the most
recently inserted entry of the block, or nothing when the block has no
entry. -/
theorem getBlockHistory_spec (s : Store) (blockID : String)
    (opts : QueryBlockHistoryOptions) :
    (∀ r ∈ getBlockHistory s blockID opts, r ∈ s.blocks_history ∧ r.ID = blockID) ∧
    (opts.Descending = false →
      (getBlockHistory s blockID opts).Sublist s.blocks_history) ∧
    (opts.Descending = true →
      (getBlockHistory s blockID opts).reverse.Sublist s.blocks_history) ∧
    (opts.Limit = 0 →
      getBlockHistory s blockID opts =
        if opts.Descending then (historyMatching s blockID opts).reverse
        else historyMatching s blockID opts) ∧
    (opts.Limit ≠ 0 → limitAccepted s.dbType opts.Limit = true →
      getBlockHistory s blockID opts =
        (if opts.Descending then (historyMatching s blockID opts).reverse
          else historyMatching s blockID opts).take opts.Limit ∧
      (getBlockHistory s blockID opts).length =
        min opts.Limit (historyMatching s blockID opts).length) ∧
    (opts.Limit ≠ 0 → limitAccepted s.dbType opts.Limit = false →
      getBlockHistory s blockID opts = []) ∧
    getBlockHistory s blockID latestOpts = (historyOf s blockID).getLast?.toList := by
  have hsub : (historyMatching s blockID opts).Sublist s.blocks_history :=
    List.filter_sublist _
  have hmem : ∀ r ∈ historyMatching s blockID opts, r ∈ s.blocks_history ∧ r.ID = blockID := by
    intro r hr
    have h := List.mem_filter.mp hr
    have h2 := h.2
    simp only [decide_eq_true_eq] at h2
    exact ⟨h.1, h2.1⟩
  refine ⟨?_, ?_, ?_, ?_, ?_, ?_, ?_⟩
  · intro r hr
    rw [getBlockHistory_eq_matching] at hr
    apply hmem
    by_cases hn : opts.Limit = 0 <;> by_cases hd : opts.Descending = true <;>
      simp only [hn, hd, ne_eq, not_true_eq_false, not_false_eq_true, if_true, if_false] at hr
    · exact List.mem_reverse.mp hr
    · exact hr
    · exact List.mem_reverse.mp (mem_of_mem_limitRows _ _ _ _ hr)
    · exact mem_of_mem_limitRows _ _ _ _ hr
  · intro hd
    rw [getBlockHistory_eq_matching]
    by_cases hn : opts.Limit = 0 <;>
      simp only [hn, hd, ne_eq, not_true_eq_false, not_false_eq_true, if_true, if_false,
        Bool.false_eq_true]
    · exact hsub
    · exact (limitRows_sublist _ _ _).trans hsub
  · intro hd
    rw [getBlockHistory_eq_matching]
    by_cases hn : opts.Limit = 0 <;>
      simp only [hn, hd, ne_eq, not_true_eq_false, not_false_eq_true, if_true, if_false]
    · rw [List.reverse_reverse]; exact hsub
    · have h1 : (limitRows s.dbType opts.Limit (historyMatching s blockID opts).reverse).Sublist
          (historyMatching s blockID opts).reverse := limitRows_sublist _ _ _
      have h2 := List.reverse_sublist.mpr h1
      rw [List.reverse_reverse] at h2
      exact h2.trans hsub
  · intro hn
    rw [getBlockHistory_eq_matching]
    simp only [hn, ne_eq, not_true_eq_false, if_false]
  · intro hn hacc
    rw [getBlockHistory_eq_matching]
    simp only [hn, ne_eq, not_false_eq_true, if_true, limitRows, hacc]
    refine ⟨trivial, ?_⟩
    rw [List.length_take]
    split <;> simp
  · intro hn hacc
    rw [getBlockHistory_eq_matching]
    simp [hn, limitRows, hacc]
  · rw [getBlockHistory_latest, List.take_one, List.head?_reverse]

/-- C17 at the failing input: on SQLite the history holds three entries of
`h1`; getBlockHistory with limit 2^63 and no time window returns no row, not
the first min(2^63, 3) = 3 rows of the order, while with limit 2^63 - 1 it
returns the three. -/
theorem getBlockHistory_limit_fails :
    sampleHistory.dbType = sqliteDBType ∧
    (historyMatching sampleHistory "h1"
      { BeforeUpdateAt := 0, AfterUpdateAt := 0, Limit := 2 ^ 63, Descending := false }).length
      = 3 ∧
    getBlockHistory sampleHistory "h1"
        { BeforeUpdateAt := 0, AfterUpdateAt := 0, Limit := 2 ^ 63, Descending := false } =
      [] ∧
    getBlockHistory sampleHistory "h1"
        { BeforeUpdateAt := 0, AfterUpdateAt := 0, Limit := 2 ^ 63 - 1, Descending := false } =
      [sampleEntry "h1" "" "text" 10, sampleEntry "h1" "" "text" 20,
       sampleEntry "h1" "" "text" 30] := by
  refine ⟨rfl, rfl, ?_, ?_⟩
  · exact ((getBlockHistory_spec sampleHistory "h1"
      { BeforeUpdateAt := 0, AfterUpdateAt := 0, Limit := 2 ^ 63, Descending := false }).2.2.2.2.2.1
      (by norm_num) (by decide))
  · rw [((getBlockHistory_spec sampleHistory "h1"
      { BeforeUpdateAt := 0, AfterUpdateAt := 0, Limit := 2 ^ 63 - 1,
        Descending := false }).2.2.2.2.1 (by norm_num) (by decide)).1]
    rfl

/-! ## Ancestor walk -/

/-- The walk makes at most `maxSearchDepth - count` further history
look-ups. -/
theorem getBoardAndCardLoop_lookups (s : Store) :
    ∀ (n count : Nat) (iter : Block) (card : Option Block) (lookups : Nat),
      maxSearchDepth - count ≤ n →
      (getBoardAndCardLoop s count iter card lookups).lookups ≤
        lookups + (maxSearchDepth - count) := by
  intro n
  induction n with
  | zero =>
    intro count iter card lookups hn
    rw [getBoardAndCardLoop]
    have hc : count + 1 > maxSearchDepth := by omega
    rw [if_pos (Or.inr (Or.inr hc))]
    simp
  | succ n ih =>
    intro count iter card lookups hn
    rw [getBoardAndCardLoop]
    by_cases hcond :
        iter.ParentID = "" ∨ cardStep card iter ≠ none ∨ count + 1 > maxSearchDepth
    · rw [if_pos hcond]
      simp
    · rw [if_neg hcond]
      have hc : ¬ (count + 1 > maxSearchDepth) := fun h => hcond (Or.inr (Or.inr h))
      split
      · show lookups + 1 ≤ lookups + (maxSearchDepth - count)
        omega
      · rename_i b rest _
        have := ih (count + 1) b (cardStep card iter) (lookups + 1) (by omega)
        omega

theorem cardStep_none_of_ne (iter : Block) (h : iter.Type_ ≠ TypeCard) :
    cardStep none iter = none := by
  simp [cardStep, h]

theorem cardStep_none_of_card (iter : Block) (h : iter.Type_ = TypeCard) :
    cardStep none iter = some iter := by
  simp [cardStep, h]

theorem mem_history_of_latest (s : Store) (id : String) (b : Block) (rest : List Block)
    (h : getBlockHistory s id latestOpts = b :: rest) : b ∈ s.blocks_history := by
  have hb : b ∈ getBlockHistory s id latestOpts := by
    rw [h]; exact List.mem_cons_self _ _
  rw [getBlockHistory_latest] at hb
  have h1 := List.mem_of_mem_take hb
  rw [List.mem_reverse] at h1
  exact (List.mem_filter.mp h1).1

/-- A walk that meets no card ends with an empty card. -/
theorem getBoardAndCardLoop_no_card (s : Store)
    (hh : ∀ r ∈ s.blocks_history, r.Type_ ≠ TypeCard) :
    ∀ (n count : Nat) (iter : Block) (lookups : Nat),
      maxSearchDepth - count ≤ n → iter.Type_ ≠ TypeCard →
      (getBoardAndCardLoop s count iter none lookups).card = none := by
  intro n
  induction n with
  | zero =>
    intro count iter lookups hn hiter
    rw [getBoardAndCardLoop]
    have hc : count + 1 > maxSearchDepth := by omega
    rw [if_pos (Or.inr (Or.inr hc))]
    exact cardStep_none_of_ne iter hiter
  | succ n ih =>
    intro count iter lookups hn hiter
    rw [getBoardAndCardLoop]
    by_cases hcond :
        iter.ParentID = "" ∨ cardStep none iter ≠ none ∨ count + 1 > maxSearchDepth
    · rw [if_pos hcond]
      exact cardStep_none_of_ne iter hiter
    · rw [if_neg hcond]
      have hc : ¬ (count + 1 > maxSearchDepth) := fun h => hcond (Or.inr (Or.inr h))
      split
      · exact cardStep_none_of_ne iter hiter
      · rename_i b rest heq
        rw [cardStep_none_of_ne iter hiter]
        exact ih (count + 1) b (lookups + 1) (by omega)
          (hh b (mem_history_of_latest s iter.ParentID b rest heq))

/-- The result of `getBoardAndCard` in terms of how the loop ended. -/
theorem getBoardAndCard_of_loop (s : Store)
    (getBoard : String → Except QueryError (Option Board)) (block : Block)
    (board : Option Board) (hBoard : getBoard block.BoardID = Except.ok board) :
    getBoardAndCard s getBoard block =
      Except.ok (if (getBoardAndCardLoop s 0 block none 0).finished then board else none,
        (getBoardAndCardLoop s 0 block none 0).card) := by
  unfold getBoardAndCard
  split
  · rw [hBoard]
  · rfl

/-- C18: for every history table without a card, a cyclic one included, and
every starting block that is no card, the walk of getBoardAndCard makes at most
maxSearchDepth = 50 history look-ups and, the board look-up not failing,
getBoardAndCard returns without error and with an empty card.  The bound on the
look-ups holds for every history table. -/
theorem getBoardAndCard_bounded (s : Store)
    (getBoard : String → Except QueryError (Option Board)) (block : Block)
    (board : Option Board)
    (hBlock : block.Type_ ≠ TypeCard)
    (hHist : ∀ r ∈ s.blocks_history, r.Type_ ≠ TypeCard)
    (hBoard : getBoard block.BoardID = Except.ok board) :
    (getBoardAndCardLoop s 0 block none 0).lookups ≤ 50 ∧
    ∃ b : Option Board, getBoardAndCard s getBoard block = Except.ok (b, none) := by
  constructor
  · have := getBoardAndCardLoop_lookups s maxSearchDepth 0 block none 0 (by omega)
    simpa [maxSearchDepth] using this
  · rw [getBoardAndCard_of_loop s getBoard block board hBoard,
      getBoardAndCardLoop_no_card s hHist maxSearchDepth 0 block 0 (by omega) hBlock]
    exact ⟨_, rfl⟩

theorem getBoardAndCard_bounded_witness :
    (getBoardAndCardLoop sampleCycle 0 (sampleEntry "A" "B" "text" 10) none 0).lookups ≤ 50 ∧
    ∃ b : Option Board,
      getBoardAndCard sampleCycle sampleGetBoard (sampleEntry "A" "B" "text" 10) =
        Except.ok (b, none) :=
  getBoardAndCard_bounded sampleCycle sampleGetBoard (sampleEntry "A" "B" "text" 10)
    (some { ID := "board", Type_ := "O", IsTemplate := false })
    (by decide) (by decide) rfl

theorem ancestor_succ (s : Store) (b : Block) :
    ∀ k : Nat, ancestor s b (k + 1) = (parentEntry s b).bind (fun p => ancestor s p k) := by
  intro k
  induction k with
  | zero =>
    show (some b).bind (parentEntry s) = (parentEntry s b).bind (fun p => some p)
    simp
  | succ k ih =>
    show (ancestor s b (k + 1)).bind (parentEntry s) =
      (parentEntry s b).bind (fun p => (ancestor s p k).bind (parentEntry s))
    rw [ih, Option.bind_assoc]

theorem parentEntry_some (s : Store) (b p : Block) (h : parentEntry s b = some p) :
    b.ParentID ≠ "" ∧ ∃ rest, getBlockHistory s b.ParentID latestOpts = p :: rest := by
  unfold parentEntry at h
  by_cases hp : b.ParentID = ""
  · rw [if_pos hp] at h; cases h
  · rw [if_neg hp] at h
    refine ⟨hp, ?_⟩
    cases hg : getBlockHistory s b.ParentID latestOpts with
    | nil => rw [hg] at h; cases h
    | cons x rest =>
      rw [hg] at h
      have : x = p := Option.some.inj h
      exact ⟨rest, by rw [this]⟩

/-- The next member of the chain after `b`, when the chain goes on. -/
theorem ancestor_step (s : Store) (b x : Block) (k : Nat)
    (h : ancestor s b (k + 1) = some x) :
    ∃ p, parentEntry s b = some p ∧ ancestor s p k = some x := by
  rw [ancestor_succ] at h
  cases hp : parentEntry s b with
  | none => rw [hp] at h; cases h
  | some p => rw [hp] at h; exact ⟨p, rfl, h⟩

/-- The walk stops at the first card of the chain, after one look-up for each
member before it. -/
theorem getBoardAndCardLoop_card (s : Store) :
    ∀ (j count : Nat) (b bj : Block) (lookups : Nat),
      count + j ≤ maxSearchDepth →
      ancestor s b j = some bj → bj.Type_ = TypeCard →
      (∀ i < j, ∀ bi, ancestor s b i = some bi → bi.Type_ ≠ TypeCard) →
      getBoardAndCardLoop s count b none lookups =
        { card := some bj, finished := true, lookups := lookups + j } := by
  intro j
  induction j with
  | zero =>
    intro count b bj lookups _ hanc hcard _
    have hb : b = bj := Option.some.inj hanc
    subst hb
    rw [getBoardAndCardLoop, cardStep_none_of_card b hcard]
    rw [if_pos (Or.inr (Or.inl (by simp)))]
    rfl
  | succ j ih =>
    intro count b bj lookups hle hanc hcard hbefore
    obtain ⟨p, hp, hpj⟩ := ancestor_step s b bj j hanc
    obtain ⟨hparent, rest, hhist⟩ := parentEntry_some s b p hp
    have hb : b.Type_ ≠ TypeCard := hbefore 0 (Nat.succ_pos j) b rfl
    rw [getBoardAndCardLoop, cardStep_none_of_ne b hb]
    have hcond : ¬ (b.ParentID = "" ∨ (none : Option Block) ≠ none ∨
        count + 1 > maxSearchDepth) := by
      intro h
      rcases h with h | h | h
      · exact hparent h
      · exact h rfl
      · omega
    rw [if_neg hcond, hhist]
    show getBoardAndCardLoop s (count + 1) p none (lookups + 1) = _
    rw [ih (count + 1) p bj (lookups + 1) (by omega) hpj hcard ?_]
    · congr 1; omega
    · intro i hi bi hbi
      refine hbefore (i + 1) (by omega) bi ?_
      rw [ancestor_succ, hp]
      exact hbi

/-- The walk stops at a member of the chain that names no parent, when no card
came before. -/
theorem getBoardAndCardLoop_root (s : Store) :
    ∀ (k count : Nat) (b bk : Block) (lookups : Nat),
      count + k ≤ maxSearchDepth →
      ancestor s b k = some bk → bk.ParentID = "" →
      (∀ i ≤ k, ∀ bi, ancestor s b i = some bi → bi.Type_ ≠ TypeCard) →
      getBoardAndCardLoop s count b none lookups =
        { card := none, finished := true, lookups := lookups + k } := by
  intro k
  induction k with
  | zero =>
    intro count b bk lookups _ hanc hroot hno
    have hb : b = bk := Option.some.inj hanc
    subst hb
    rw [getBoardAndCardLoop, cardStep_none_of_ne b (hno 0 (Nat.le_refl 0) b rfl)]
    rw [if_pos (Or.inl hroot)]
    rfl
  | succ k ih =>
    intro count b bk lookups hle hanc hroot hno
    obtain ⟨p, hp, hpk⟩ := ancestor_step s b bk k hanc
    obtain ⟨hparent, rest, hhist⟩ := parentEntry_some s b p hp
    rw [getBoardAndCardLoop, cardStep_none_of_ne b (hno 0 (Nat.zero_le _) b rfl)]
    have hcond : ¬ (b.ParentID = "" ∨ (none : Option Block) ≠ none ∨
        count + 1 > maxSearchDepth) := by
      intro h
      rcases h with h | h | h
      · exact hparent h
      · exact h rfl
      · omega
    rw [if_neg hcond, hhist]
    show getBoardAndCardLoop s (count + 1) p none (lookups + 1) = _
    rw [ih (count + 1) p bk (lookups + 1) (by omega) hpk hroot ?_]
    · congr 1; omega
    · intro i hi bi hbi
      refine hno (i + 1) (by omega) bi ?_
      rw [ancestor_succ, hp]
      exact hbi

/-- The walk stops at the cap when the chain goes on beyond it without a
card. -/
theorem getBoardAndCardLoop_cap (s : Store) :
    ∀ (n count : Nat) (b : Block) (lookups : Nat),
      maxSearchDepth - count ≤ n → count ≤ maxSearchDepth →
      (∀ i, count + i ≤ maxSearchDepth →
        ∃ bi, ancestor s b i = some bi ∧ bi.Type_ ≠ TypeCard) →
      (getBoardAndCardLoop s count b none lookups).card = none ∧
      (getBoardAndCardLoop s count b none lookups).finished = true := by
  intro n
  induction n with
  | zero =>
    intro count b lookups hn hle hall
    have hc : count + 1 > maxSearchDepth := by omega
    obtain ⟨b0, hb0, hno⟩ := hall 0 (by omega)
    have hb : b = b0 := Option.some.inj hb0
    subst hb
    rw [getBoardAndCardLoop, if_pos (Or.inr (Or.inr hc))]
    exact ⟨cardStep_none_of_ne b hno, rfl⟩
  | succ n ih =>
    intro count b lookups hn hle hall
    obtain ⟨b0, hb0, hno⟩ := hall 0 (by omega)
    have hb : b = b0 := Option.some.inj hb0
    subst hb
    by_cases hc : count + 1 > maxSearchDepth
    · rw [getBoardAndCardLoop, if_pos (Or.inr (Or.inr hc))]
      exact ⟨cardStep_none_of_ne b hno, rfl⟩
    · obtain ⟨b1, hb1, _⟩ := hall 1 (by omega)
      obtain ⟨p, hp, _⟩ := ancestor_step s b b1 0 hb1
      obtain ⟨hparent, rest, hhist⟩ := parentEntry_some s b p hp
      rw [getBoardAndCardLoop, cardStep_none_of_ne b hno]
      have hcond : ¬ (b.ParentID = "" ∨ (none : Option Block) ≠ none ∨
          count + 1 > maxSearchDepth) := by
        intro h
        rcases h with h | h | h
        · exact hparent h
        · exact h rfl
        · exact hc h
      rw [if_neg hcond, hhist]
      show (getBoardAndCardLoop s (count + 1) p none (lookups + 1)).card = none ∧
        (getBoardAndCardLoop s (count + 1) p none (lookups + 1)).finished = true
      refine ih (count + 1) p (lookups + 1) (by omega) (by omega) ?_
      intro i hi
      obtain ⟨bi, hbi, hnoi⟩ := hall (i + 1) (by omega)
      refine ⟨bi, ?_, hnoi⟩
      rw [ancestor_succ, hp] at hbi
      exact hbi

/-- C19 (as amended): let the chain of a block be the block itself followed,
member by member, by the latest history entry of the member's parentID.  When
the board look-up does not fail: if the member j ≤ 50 of the chain is a card and no earlier
member is, getBoardAndCard returns it as card (the block itself for j = 0); if
the chain reaches a member without parentID, or goes on beyond member 50,
without a card, getBoardAndCard returns an empty card and no error. -/
theorem getBoardAndCard_nearest_card (s : Store)
    (getBoard : String → Except QueryError (Option Board)) (block : Block)
    (board : Option Board) (hBoard : getBoard block.BoardID = Except.ok board) :
    (∀ (j : Nat) (bj : Block), j ≤ 50 → ancestor s block j = some bj →
      bj.Type_ = "card" →
      (∀ i < j, ∀ bi, ancestor s block i = some bi → bi.Type_ ≠ "card") →
      getBoardAndCard s getBoard block = Except.ok (board, some bj)) ∧
    (∀ (k : Nat) (bk : Block), k ≤ 50 → ancestor s block k = some bk →
      bk.ParentID = "" →
      (∀ i ≤ k, ∀ bi, ancestor s block i = some bi → bi.Type_ ≠ "card") →
      getBoardAndCard s getBoard block = Except.ok (board, none)) ∧
    ((∀ i ≤ 50, ∃ bi, ancestor s block i = some bi ∧ bi.Type_ ≠ "card") →
      getBoardAndCard s getBoard block = Except.ok (board, none)) := by
  refine ⟨?_, ?_, ?_⟩
  · intro j bj hj hanc hcard hbefore
    rw [getBoardAndCard_of_loop s getBoard block board hBoard,
      getBoardAndCardLoop_card s j 0 block bj 0 (by simpa [maxSearchDepth] using hj)
        hanc hcard hbefore]
    rfl
  · intro k bk hk hanc hroot hno
    rw [getBoardAndCard_of_loop s getBoard block board hBoard,
      getBoardAndCardLoop_root s k 0 block bk 0 (by simpa [maxSearchDepth] using hk)
        hanc hroot hno]
    rfl
  · intro hall
    have h := getBoardAndCardLoop_cap s maxSearchDepth 0 block 0 (by omega) (by omega)
      (fun i hi => hall i (by simpa [maxSearchDepth] using hi))
    rw [getBoardAndCard_of_loop s getBoard block board hBoard, h.1, h.2]
    rfl

theorem getBoardAndCard_nearest_card_witness :
    getBoardAndCard sampleChain sampleGetBoard (sampleEntry "text" "card" "text" 30) =
      Except.ok (some { ID := "board", Type_ := "O", IsTemplate := false },
        some { sampleEntry "card" "view" "card" 40 with DeleteAt := 40 }) ∧
    getBoardAndCard sampleChain sampleGetBoard (sampleEntry "note" "view" "text" 50) =
      Except.ok (some { ID := "board", Type_ := "O", IsTemplate := false }, none) :=
  ⟨(getBoardAndCard_nearest_card sampleChain sampleGetBoard
      (sampleEntry "text" "card" "text" 30)
      (some { ID := "board", Type_ := "O", IsTemplate := false }) rfl).1 1
      { sampleEntry "card" "view" "card" 40 with DeleteAt := 40 } (by decide) rfl rfl
      (fun i hi bi hbi => by
        have hi0 : i = 0 := by omega
        subst hi0
        have : sampleEntry "text" "card" "text" 30 = bi := Option.some.inj hbi
        subst this
        decide),
   (getBoardAndCard_nearest_card sampleChain sampleGetBoard
      (sampleEntry "note" "view" "text" 50)
      (some { ID := "board", Type_ := "O", IsTemplate := false }) rfl).2.1 1
      (sampleEntry "view" "" "view" 10) (by decide) rfl rfl
      (fun i hi bi hbi => by
        have hi01 : i = 0 ∨ i = 1 := by omega
        rcases hi01 with h | h
        · subst h
          have : sampleEntry "note" "view" "text" 50 = bi := Option.some.inj hbi
          subst this
          decide
        · subst h
          have : sampleEntry "view" "" "view" 10 = bi := Option.some.inj hbi
          subst this
          decide)⟩

/-- When the loop is left by `break` and the board look-up fails, the error
of the look-up is all getBoardAndCard returns. -/
theorem getBoardAndCard_board_error (s : Store)
    (getBoard : String → Except QueryError (Option Board)) (block : Block)
    (err : QueryError) (hBoard : getBoard block.BoardID = Except.error err)
    (hFin : (getBoardAndCardLoop s 0 block none 0).finished = true) :
    getBoardAndCard s getBoard block = Except.error err := by
  unfold getBoardAndCard
  rw [if_pos hFin, hBoard]

/-- C19 as stated fails when the board look-up fails: in the sample chain the
block `text` has the card `card` as member 1 of its chain, and with a board
look-up that reports a backend error getBoardAndCard returns that error and no
card. -/
theorem getBoardAndCard_card_dropped :
    ancestor sampleChain (sampleEntry "text" "card" "text" 30) 1 =
      some { sampleEntry "card" "view" "card" 40 with DeleteAt := 40 } ∧
    ({ sampleEntry "card" "view" "card" 40 with DeleteAt := 40 } : Block).Type_ = "card" ∧
    (sampleEntry "text" "card" "text" 30).Type_ ≠ "card" ∧
    getBoardAndCard sampleChain sampleBoardDown (sampleEntry "text" "card" "text" 30) =
      Except.error (QueryError.Backend "connection lost") := by
  refine ⟨rfl, rfl, by decide, ?_⟩
  have hloop := getBoardAndCardLoop_card sampleChain 1 0
    (sampleEntry "text" "card" "text" 30)
    { sampleEntry "card" "view" "card" 40 with DeleteAt := 40 } 0
    (by decide) rfl rfl
    (fun i hi bi hbi => by
      have hi0 : i = 0 := by omega
      subst hi0
      have : sampleEntry "text" "card" "text" 30 = bi := Option.some.inj hbi
      subst this
      decide)
  exact getBoardAndCard_board_error sampleChain sampleBoardDown
    (sampleEntry "text" "card" "text" 30) (QueryError.Backend "connection lost") rfl
    (by rw [hloop])

/-- When the parent of the starting block has no history entry, the loop is
left by its inner `return`: the board look-up is never made and the result
holds neither board nor card, whatever the look-up would have found. -/
theorem getBoardAndCard_dangling (s : Store)
    (getBoard : String → Except QueryError (Option Board)) (block : Block)
    (hBlock : block.Type_ ≠ TypeCard) (hParent : block.ParentID ≠ "")
    (hNone : getBlockHistory s block.ParentID latestOpts = []) :
    getBoardAndCard s getBoard block = Except.ok (none, none) := by
  have hcond : ¬ (block.ParentID = "" ∨ (none : Option Block) ≠ none ∨
      0 + 1 > maxSearchDepth) := by
    intro h
    rcases h with h | h | h
    · exact hParent h
    · exact h rfl
    · simp [maxSearchDepth] at h
  have hloop : getBoardAndCardLoop s 0 block none 0 =
      { card := none, finished := false, lookups := 1 } := by
    rw [getBoardAndCardLoop, cardStep_none_of_ne block hBlock, if_neg hcond, hNone]
  unfold getBoardAndCard
  rw [hloop]
  rfl

/-- C20 at the failing input: the block `orphan` of the board `board` names the
parent `gone`, which has no history entry.  The look-up of `board` finds the
board, yet getBoardAndCard returns an empty board (and an empty card, and no
error). -/
theorem getBoardAndCard_dangling_parent :
    sampleGetBoard (sampleEntry "orphan" "gone" "text" 60).BoardID =
      Except.ok (some { ID := "board", Type_ := "O", IsTemplate := false }) ∧
    getBlockHistory sampleChain "gone" latestOpts = [] ∧
    getBoardAndCard sampleChain sampleGetBoard (sampleEntry "orphan" "gone" "text" 60) =
      Except.ok (none, none) :=
  ⟨rfl, rfl,
   getBoardAndCard_dangling sampleChain sampleGetBoard (sampleEntry "orphan" "gone" "text" 60)
     (by decide) (by decide) rfl⟩

/-- When the loop is left by `break`, the returned board is what the look-up
of the starting block's boardID gives. -/
theorem getBoardAndCard_board_of_finished (s : Store)
    (getBoard : String → Except QueryError (Option Board)) (block : Block)
    (board : Option Board) (hBoard : getBoard block.BoardID = Except.ok board)
    (hFin : (getBoardAndCardLoop s 0 block none 0).finished = true) :
    getBoardAndCard s getBoard block =
      Except.ok (board, (getBoardAndCardLoop s 0 block none 0).card) := by
  rw [getBoardAndCard_of_loop s getBoard block board hBoard, if_pos hFin]

/-! ## Resolution by id -/

theorem getBlockHistory_congr (s t : Store) (h : s.blocks_history = t.blocks_history)
    (id : String) :
    getBlockHistory s id latestOpts = getBlockHistory t id latestOpts := by
  rw [getBlockHistory_latest, getBlockHistory_latest]
  unfold historyOf
  rw [h]

/-- The walk reads nothing but the history table. -/
theorem getBoardAndCardLoop_congr (s t : Store) (h : s.blocks_history = t.blocks_history) :
    ∀ (n count : Nat) (iter : Block) (card : Option Block) (lookups : Nat),
      maxSearchDepth - count ≤ n →
      getBoardAndCardLoop s count iter card lookups =
        getBoardAndCardLoop t count iter card lookups := by
  intro n
  induction n with
  | zero =>
    intro count iter card lookups hn
    have hc : count + 1 > maxSearchDepth := by omega
    rw [getBoardAndCardLoop, if_pos (Or.inr (Or.inr hc))]
    rw [getBoardAndCardLoop, if_pos (Or.inr (Or.inr hc))]
  | succ n ih =>
    intro count iter card lookups hn
    by_cases hcond :
        iter.ParentID = "" ∨ cardStep card iter ≠ none ∨ count + 1 > maxSearchDepth
    · rw [getBoardAndCardLoop, if_pos hcond]
      rw [getBoardAndCardLoop, if_pos hcond]
    · have hc : ¬ (count + 1 > maxSearchDepth) := fun h => hcond (Or.inr (Or.inr h))
      rw [getBoardAndCardLoop, if_neg hcond]
      conv_rhs => rw [getBoardAndCardLoop, if_neg hcond]
      rw [getBlockHistory_congr s t h]
      cases getBlockHistory t iter.ParentID latestOpts with
      | nil => rfl
      | cons b rest =>
        exact ih (count + 1) b (cardStep card iter) (lookups + 1) (by omega)

theorem getBoardAndCard_congr (s t : Store) (h : s.blocks_history = t.blocks_history)
    (getBoard : String → Except QueryError (Option Board)) (block : Block) :
    getBoardAndCard s getBoard block = getBoardAndCard t getBoard block := by
  unfold getBoardAndCard
  rw [getBoardAndCardLoop_congr s t h maxSearchDepth 0 block none 0 (by omega)]

theorem getBoardAndCardByID_congr (s t : Store) (h : s.blocks_history = t.blocks_history)
    (getBoard : String → Except QueryError (Option Board)) (blockID : String) :
    getBoardAndCardByID s getBoard blockID = getBoardAndCardByID t getBoard blockID := by
  unfold getBoardAndCardByID
  rw [getBlockHistory_congr s t h]
  cases getBlockHistory t blockID latestOpts with
  | nil => rfl
  | cons b rest => exact getBoardAndCard_congr s t h getBoard b

theorem getBlockHistory_latest_of_getLast (s : Store) (blockID : String) (e : Block)
    (h : (historyOf s blockID).getLast? = some e) :
    getBlockHistory s blockID latestOpts = [e] := by
  rw [getBlockHistory_latest, List.take_one, List.head?_reverse, h]
  rfl

/-- C21: getBoardAndCardByID fails with the not-found error for the id when the
id has no history entry; otherwise it is the walk started from the most
recently inserted history entry of the id; its result does not depend on the
live table; and after a delete of a live block it is the walk started from
the tombstone the delete wrote. -/
theorem getBoardAndCardByID_history (s : Store)
    (getBoard : String → Except QueryError (Option Board)) (blockID : String) :
    (historyOf s blockID = [] →
      getBoardAndCardByID s getBoard blockID =
        Except.error (QueryError.ErrNotFound blockID)) ∧
    (∀ e : Block, (historyOf s blockID).getLast? = some e →
      getBoardAndCardByID s getBoard blockID = getBoardAndCard s getBoard e) ∧
    (∀ live : List Block,
      getBoardAndCardByID
        { s with blocks := live } getBoard blockID =
      getBoardAndCardByID s getBoard blockID) ∧
    (∀ (b : Block) (modifiedBy : String), getBlock s blockID = some b →
      getBlock (deleteBlock s blockID modifiedBy).1 blockID = none ∧
      getBoardAndCardByID (deleteBlock s blockID modifiedBy).1 getBoard blockID =
        getBoardAndCard (deleteBlock s blockID modifiedBy).1 getBoard
          (tombstone (blockFromRow s b) modifiedBy (s.millis s.tick))) := by
  refine ⟨?_, ?_, ?_, ?_⟩
  · intro h
    have : getBlockHistory s blockID latestOpts = [] := by
      rw [getBlockHistory_latest, h]; rfl
    unfold getBoardAndCardByID
    rw [this]
  · intro e h
    unfold getBoardAndCardByID
    rw [getBlockHistory_latest_of_getLast s blockID e h]
  · intro live
    exact getBoardAndCardByID_congr
      { s with blocks := live } s rfl getBoard blockID
  · intro b modifiedBy hLive
    have hid : b.ID = blockID := getBlock_some_id s blockID b hLive
    rw [deleteBlock_existing_eq s blockID modifiedBy b hLive]
    constructor
    · rw [getBlock_eq_none_iff]
      intro r hr
      simpa using (List.mem_filter.mp hr).2
    · have hlast : (historyOf
          { blocks := s.blocks.filter (fun r => r.ID ≠ blockID)
            blocks_history := s.blocks_history ++
              [tombstone (blockFromRow s b) modifiedBy (s.millis s.tick)]
            millis := s.millis
            tick := s.tick + 1
            dbType := s.dbType
            remarshal := s.remarshal } blockID).getLast? =
          some (tombstone (blockFromRow s b) modifiedBy (s.millis s.tick)) := by
        simp [historyOf, List.filter_append, tombstone, blockFromRow, hid]
      unfold getBoardAndCardByID
      rw [getBlockHistory_latest_of_getLast _ blockID _ hlast]

theorem getBoardAndCardByID_history_witness :
    getBoardAndCardByID sampleChain sampleGetBoard "nope" =
      Except.error (QueryError.ErrNotFound "nope") ∧
    getBoardAndCardByID sampleChain sampleGetBoard "card" =
      getBoardAndCard sampleChain sampleGetBoard
        { sampleEntry "card" "view" "card" 40 with DeleteAt := 40 } ∧
    getBlock (deleteBlock sampleStore "b1" "u2").1 "b1" = none ∧
    getBoardAndCardByID (deleteBlock sampleStore "b1" "u2").1 sampleGetBoard "b1" =
      getBoardAndCard (deleteBlock sampleStore "b1" "u2").1 sampleGetBoard
        (tombstone (blockFromRow sampleStore (createdRow sampleBlock "u0" 1001 1002)) "u2"
          (sampleStore.millis sampleStore.tick)) :=
  ⟨(getBoardAndCardByID_history sampleChain sampleGetBoard "nope").1 rfl,
   (getBoardAndCardByID_history sampleChain sampleGetBoard "card").2.1 _ rfl,
   ((getBoardAndCardByID_history sampleStore sampleGetBoard "b1").2.2.2
      (createdRow sampleBlock "u0" 1001 1002) "u2" rfl).1,
   ((getBoardAndCardByID_history sampleStore sampleGetBoard "b1").2.2.2
      (createdRow sampleBlock "u0" 1001 1002) "u2" rfl).2⟩

/-! ## Batches -/

theorem patchBlock_unchanged_of_error (s : Store) (blockID : String) (p : BlockPatch)
    (userID : String) (h : (patchBlock s blockID p userID).2 ≠ none) :
    (patchBlock s blockID p userID).1 = s := by
  unfold patchBlock at h ⊢
  cases hg : getBlock s blockID with
  | none => rfl
  | some e =>
    rw [hg] at h
    exact insertBlock_unchanged_of_error s (p.Patch (blockFromRow s e)) userID h

theorem insertBlocks_all_succeed (userID : String) :
    ∀ (blocks : List Block) (s : Store),
      (∀ o ∈ outcomes s (insertOps blocks userID), o = none) →
      insertBlocks s blocks userID = (run s (insertOps blocks userID), none) := by
  intro blocks
  induction blocks with
  | nil => intro s _; rfl
  | cons b rest ih =>
    intro s hOk
    have h1 : (insertBlock s b userID).2 = none :=
      hOk _ (by simp [insertOps, outcomes, step])
    have h2 : ∀ o ∈ outcomes (insertBlock s b userID).1 (insertOps rest userID), o = none := by
      intro o ho
      exact hOk o (by simp only [insertOps, List.map_cons, outcomes, step, List.mem_cons]
                      exact Or.inr ho)
    have h3 := ih (insertBlock s b userID).1 h2
    unfold insertBlocks
    rcases hr : insertBlock s b userID with ⟨s1, err⟩
    rw [hr] at h1 h3
    simp only at h1
    subst h1
    simp only []
    rw [h3]
    simp [insertOps, run, step, hr]

theorem insertBlocks_first_failure (userID : String) (b : Block) (post : List Block)
    (err : StoreError) :
    ∀ (pre : List Block) (s : Store),
      (∀ o ∈ outcomes s (insertOps pre userID), o = none) →
      (insertBlock (run s (insertOps pre userID)) b userID).2 = some err →
      insertBlocks s (pre ++ b :: post) userID =
        (run s (insertOps pre userID), some err) := by
  intro pre
  induction pre with
  | nil =>
    intro s _ hFail
    have hs : (insertBlock s b userID).1 = s :=
      insertBlock_unchanged_of_error s b userID (by
        have : (insertBlock s b userID).2 = some err := hFail
        rw [this]; simp)
    have hFail2 : (insertBlock s b userID).2 = some err := hFail
    show insertBlocks s (b :: post) userID = (s, some err)
    unfold insertBlocks
    rcases hr : insertBlock s b userID with ⟨s1, e1⟩
    rw [hr] at hs hFail2
    simp only at hs hFail2
    subst hs
    subst hFail2
    rfl
  | cons a pre ih =>
    intro s hOk hFail
    have h1 : (insertBlock s a userID).2 = none :=
      hOk _ (by simp [insertOps, outcomes, step])
    have h2 : ∀ o ∈ outcomes (insertBlock s a userID).1 (insertOps pre userID), o = none := by
      intro o ho
      exact hOk o (by simp only [insertOps, List.map_cons, outcomes, step, List.mem_cons]
                      exact Or.inr ho)
    have h3 := ih (insertBlock s a userID).1 h2 hFail
    show insertBlocks s (a :: (pre ++ b :: post)) userID = _
    unfold insertBlocks
    rcases hr : insertBlock s a userID with ⟨s1, e1⟩
    rw [hr] at h1 h3
    simp only at h1
    subst h1
    simp only []
    rw [h3]
    simp [insertOps, run, step, hr]

theorem patchBlocksLoop_all_succeed (userID : String) :
    ∀ (ids : List String) (ps : List BlockPatch) (s : Store),
      ids.length = ps.length →
      (∀ o ∈ outcomes s (patchOps ids ps userID), o = none) →
      patchBlocksLoop userID s ids ps = (run s (patchOps ids ps userID), none) := by
  intro ids
  induction ids with
  | nil => intro ps s _ _; simp [patchBlocksLoop, patchOps, run]
  | cons id ids ih =>
    intro ps s hlen hOk
    cases ps with
    | nil => simp at hlen
    | cons p ps =>
      have hlen1 : ids.length = ps.length := by simpa using hlen
      have h1 : (patchBlock s id p userID).2 = none :=
        hOk _ (by simp [patchOps, outcomes, step])
      have h2 : ∀ o ∈ outcomes (patchBlock s id p userID).1 (patchOps ids ps userID),
          o = none := by
        intro o ho
        exact hOk o (by
          simp only [patchOps, List.zipWith_cons_cons, outcomes, step, List.mem_cons]
          exact Or.inr ho)
      have h3 := ih ps (patchBlock s id p userID).1 hlen1 h2
      unfold patchBlocksLoop
      rcases hr : patchBlock s id p userID with ⟨s1, e1⟩
      rw [hr] at h1 h3
      simp only at h1
      subst h1
      simp only []
      rw [h3]
      simp [patchOps, run, step, hr]

theorem patchBlocksLoop_first_failure (userID : String) (id : String) (p : BlockPatch)
    (postIds : List String) (postPs : List BlockPatch) (err : StoreError) :
    ∀ (preIds : List String) (prePs : List BlockPatch) (s : Store),
      preIds.length = prePs.length →
      (∀ o ∈ outcomes s (patchOps preIds prePs userID), o = none) →
      (patchBlock (run s (patchOps preIds prePs userID)) id p userID).2 = some err →
      patchBlocksLoop userID s (preIds ++ id :: postIds) (prePs ++ p :: postPs) =
        (run s (patchOps preIds prePs userID), some err) := by
  intro preIds
  induction preIds with
  | nil =>
    intro prePs s hlen _ hFail
    have hps : prePs = [] := by
      cases prePs with
      | nil => rfl
      | cons _ _ => simp at hlen
    subst hps
    have hFail2 : (patchBlock s id p userID).2 = some err := hFail
    have hs : (patchBlock s id p userID).1 = s :=
      patchBlock_unchanged_of_error s id p userID (by rw [hFail2]; simp)
    show patchBlocksLoop userID s (id :: postIds) (p :: postPs) = (s, some err)
    unfold patchBlocksLoop
    rcases hr : patchBlock s id p userID with ⟨s1, e1⟩
    rw [hr] at hs hFail2
    simp only at hs hFail2
    subst hs
    subst hFail2
    rfl
  | cons a preIds ih =>
    intro prePs s hlen hOk hFail
    cases prePs with
    | nil => simp at hlen
    | cons q prePs =>
      have hlen1 : preIds.length = prePs.length := by simpa using hlen
      have h1 : (patchBlock s a q userID).2 = none :=
        hOk _ (by simp [patchOps, outcomes, step])
      have h2 : ∀ o ∈ outcomes (patchBlock s a q userID).1 (patchOps preIds prePs userID),
          o = none := by
        intro o ho
        exact hOk o (by
          simp only [patchOps, List.zipWith_cons_cons, outcomes, step, List.mem_cons]
          exact Or.inr ho)
      have h3 := ih prePs (patchBlock s a q userID).1 hlen1 h2 hFail
      show patchBlocksLoop userID s (a :: (preIds ++ id :: postIds))
        (q :: (prePs ++ p :: postPs)) = _
      unfold patchBlocksLoop
      rcases hr : patchBlock s a q userID with ⟨s1, e1⟩
      rw [hr] at h1 h3
      simp only at h1
      subst h1
      simp only []
      rw [h3]
      simp [patchOps, run, step, hr]

/-- C24: insertBlocks, and patchBlocks over ids and patches of equal length,
are the single calls applied from left to right: when every element succeeds
the batch succeeds with the state the single calls reach one after the other;
when an element is the first to fail the batch returns its error with the
state reached by the elements before it, whatever follows it in the batch. -/
theorem batch_sequential (s : Store) (userID : String) :
    (∀ blocks : List Block,
      (∀ o ∈ outcomes s (insertOps blocks userID), o = none) →
      insertBlocks s blocks userID = (run s (insertOps blocks userID), none)) ∧
    (∀ (pre : List Block) (b : Block) (post : List Block) (err : StoreError),
      (∀ o ∈ outcomes s (insertOps pre userID), o = none) →
      (insertBlock (run s (insertOps pre userID)) b userID).2 = some err →
      insertBlocks s (pre ++ b :: post) userID =
        (run s (insertOps pre userID), some err)) ∧
    (∀ (ids : List String) (ps : List BlockPatch), ids.length = ps.length →
      (∀ o ∈ outcomes s (patchOps ids ps userID), o = none) →
      patchBlocks s { BlockIDs := ids, BlockPatches := ps } userID =
        (run s (patchOps ids ps userID), none)) ∧
    (∀ (preIds : List String) (prePs : List BlockPatch) (id : String) (p : BlockPatch)
        (postIds : List String) (postPs : List BlockPatch) (err : StoreError),
      preIds.length = prePs.length → postIds.length = postPs.length →
      (∀ o ∈ outcomes s (patchOps preIds prePs userID), o = none) →
      (patchBlock (run s (patchOps preIds prePs userID)) id p userID).2 = some err →
      patchBlocks s
          { BlockIDs := preIds ++ id :: postIds, BlockPatches := prePs ++ p :: postPs }
          userID =
        (run s (patchOps preIds prePs userID), some err)) := by
  refine ⟨?_, ?_, ?_, ?_⟩
  · intro blocks hOk
    exact insertBlocks_all_succeed userID blocks s hOk
  · intro pre b post err hOk hFail
    exact insertBlocks_first_failure userID b post err pre s hOk hFail
  · intro ids ps hlen hOk
    exact patchBlocksLoop_all_succeed userID ids ps s hlen hOk
  · intro preIds prePs id p postIds postPs err hlen _ hOk hFail
    exact patchBlocksLoop_first_failure userID id p postIds postPs err preIds prePs s
      hlen hOk hFail

theorem batch_sequential_witness :
    insertBlocks sampleEmpty
        ([sampleBlock] ++ { sampleBlock with ID := "b2", RootID := "" } ::
          [{ sampleBlock with ID := "b3" }]) "u0" =
      (run sampleEmpty (insertOps [sampleBlock] "u0"),
        some StoreError.RootIDNilError) ∧
    patchBlocks sampleStore
        { BlockIDs := ["b1"] ++ "nope" :: ["b1"],
          BlockPatches := [titlePatch "t6"] ++ titlePatch "t7" :: [titlePatch "t8"] } "u1" =
      (run sampleStore (patchOps ["b1"] [titlePatch "t6"] "u1"),
        some (StoreError.BlockNotFoundErr "nope")) :=
  ⟨(batch_sequential sampleEmpty "u0").2.1 [sampleBlock]
      { sampleBlock with ID := "b2", RootID := "" } [{ sampleBlock with ID := "b3" }]
      StoreError.RootIDNilError (by decide) rfl,
   (batch_sequential sampleStore "u1").2.2.2 ["b1"] [titlePatch "t6"] "nope"
      (titlePatch "t7") ["b1"] [titlePatch "t8"] (StoreError.BlockNotFoundErr "nope")
      rfl rfl (by decide) rfl⟩

/-! ## Upserts across boards and of minimal blocks -/

/-- C25: an upsert of a block with non-empty rootID and boardID whose id is
live, but only in other boards, returns success, leaves the live table exactly
as it was and appends one history row, the caller's block as passed, with its
boardID. -/
theorem insertBlock_cross_board (s : Store) (block e : Block) (userID : String)
    (hRoot : block.RootID ≠ "") (hBoard : block.BoardID ≠ "")
    (hLive : getBlock s block.ID = some e)
    (hOther : ∀ r ∈ s.blocks, r.ID = block.ID → r.BoardID ≠ block.BoardID) :
    (insertBlock s block userID).2 = none ∧
    (insertBlock s block userID).1.blocks = s.blocks ∧
    (insertBlock s block userID).1.blocks_history = s.blocks_history ++ [block] := by
  rw [insertBlock_update_eq s block e userID hRoot hBoard hLive]
  refine ⟨rfl, ?_, rfl⟩
  show s.blocks.map _ = s.blocks
  conv_rhs => rw [← List.map_id s.blocks]
  apply List.map_congr_left
  intro r hr
  unfold updateRow
  rw [if_neg]
  · rfl
  · intro hc
    exact hOther r hr hc.1 hc.2

theorem insertBlock_cross_board_witness :
    (insertBlock sampleStore { sampleBlock with BoardID := "other", Title := "t2" } "u1").2
      = none ∧
    (insertBlock sampleStore { sampleBlock with BoardID := "other", Title := "t2" } "u1").1.blocks
      = sampleStore.blocks ∧
    (insertBlock sampleStore { sampleBlock with BoardID := "other", Title := "t2" }
        "u1").1.blocks_history =
      sampleStore.blocks_history ++ [{ sampleBlock with BoardID := "other", Title := "t2" }] :=
  insertBlock_cross_board sampleStore { sampleBlock with BoardID := "other", Title := "t2" }
    (createdRow sampleBlock "u0" 1001 1002) "u1" (by decide) (by decide) rfl (by decide)

/-- C26 (as amended): an upsert of a block that carries an id, a title, the
type `card`, a boardID and a non-empty rootID, with parentID left empty,
returns no error, whatever the store holds; with rootID left empty as well it
returns RootIDNilError and leaves the store as it was. -/
theorem insertBlock_minimal (s : Store) (id boardID rootID userID : String)
    (hBoard : boardID ≠ "") (hRoot : rootID ≠ "") :
    (insertBlock s { minimalBlock id boardID with RootID := rootID } userID).2 = none ∧
    insertBlock s (minimalBlock id boardID) userID = (s, some StoreError.RootIDNilError) := by
  constructor
  · rcases insertBlock_cases s { minimalBlock id boardID with RootID := rootID } userID
      with h | h | h
    · exfalso
      apply h.1
      cases hg : getBlock s ({ minimalBlock id boardID with RootID := rootID } : Block).ID with
      | none => rw [insertBlock_create_eq s _ userID hRoot hBoard hg]
      | some e => rw [insertBlock_update_eq s _ e userID hRoot hBoard hg]
    · rw [h.2]
    · rw [h.2]
  · simp [insertBlock, minimalBlock]

theorem insertBlock_minimal_witness :
    (insertBlock sampleEmpty
      { minimalBlock "block-1" "board-1" with RootID := "block-1" } "admin").2 = none ∧
    insertBlock sampleEmpty (minimalBlock "block-1" "board-1") "admin" =
      (sampleEmpty, some StoreError.RootIDNilError) :=
  insertBlock_minimal sampleEmpty "block-1" "board-1" "block-1" "admin"
    (by decide) (by decide)

/-- C26 as stated fails: the upsert of the block `block-1` of the test setup,
with an id, a title, the type `card` and a board but no rootID, into the empty
store returns RootIDNilError and writes nothing. -/
theorem insertBlock_minimal_rejected :
    (insertBlock sampleEmpty (minimalBlock "block-1" "board-1") "admin").2 =
      some StoreError.RootIDNilError ∧
    (insertBlock sampleEmpty (minimalBlock "block-1" "board-1") "admin").1.blocks
      = [] ∧
    (insertBlock sampleEmpty (minimalBlock "block-1" "board-1")
      "admin").1.blocks_history = [] := by
  refine ⟨rfl, rfl, rfl⟩

/-! ## Depth-2 against depth-3, and the bounds of the windows -/

theorem mem_getSubTree2_noOpts (s : Store) (boardID blockID : String) (r : Block) :
    r ∈ getSubTree2 s boardID blockID noSubtreeOpts ↔
      r ∈ s.blocks ∧ (r.ID = blockID ∨ r.ParentID = blockID) ∧ r.BoardID = boardID := by
  simp only [getSubTree2, noSubtreeOpts, ne_eq, not_true_eq_false, if_false,
    List.mem_filter, decide_eq_true_eq]
  tauto

/-- A live row of the board that is the block or a child of it is among the
rows the statement of `getSubTree3` selects, when the block is live. -/
theorem mem_subTree3_selected_of_subTree2 (s : Store) (boardID blockID : String)
    (hB : getBlock s blockID ≠ none) (r : Block) (hr : r ∈ s.blocks)
    (hsub : r.ID = blockID ∨ r.ParentID = blockID) (hboard : r.BoardID = boardID) :
    r ∈ (((subTree3Join s).filter (fun t => t.l1.ID = blockID)).filter
          (fun t => t.l3.BoardID = boardID)).map (fun t => t.l3) := by
  simp only [List.mem_map, List.mem_filter, decide_eq_true_eq, mem_subTree3Join]
  cases hg : getBlock s blockID with
  | none => exact absurd hg hB
  | some b =>
    have hb : b ∈ s.blocks := getBlock_some_mem s blockID b hg
    have hbid : b.ID = blockID := getBlock_some_id s blockID b hg
    rcases hsub with h | h
    · exact ⟨⟨r, r, r⟩, ⟨⟨⟨hr, hr, hr, Or.inr rfl, Or.inr rfl⟩, h⟩, hboard⟩, rfl⟩
    · exact ⟨⟨b, b, r⟩,
        ⟨⟨⟨hb, hb, hr, Or.inr rfl, Or.inl (by rw [h, hbid])⟩, hbid⟩, hboard⟩, rfl⟩

theorem subTree3Join_no_root (s : Store) (blockID : String)
    (hB : getBlock s blockID = none) :
    (subTree3Join s).filter (fun t => t.l1.ID = blockID) = [] := by
  rw [List.filter_eq_nil_iff]
  intro t ht
  have h1 := ((mem_subTree3Join s t).mp ht).1
  have := (getBlock_eq_none_iff s blockID).mp hB t.l1 h1
  simpa using this

/-- C27: when the block has no live row, getSubTree3 without options returns
nothing, while getSubTree2 returns the live rows of the board whose parentID
it is; when the block is live, every row of the depth-2 result has its id in
the depth-3 result, and is itself in the depth-3 result when the live ids are
unique. -/
theorem subTree3_needs_live_root (s : Store) (boardID blockID : String) :
    (getBlock s blockID = none →
      getSubTree3 s boardID blockID noSubtreeOpts = Except.ok [] ∧
      getSubTree2 s boardID blockID noSubtreeOpts =
        s.blocks.filter (fun r => r.BoardID = boardID ∧ r.ParentID = blockID)) ∧
    (getBlock s blockID ≠ none →
      ∃ rows : List Block,
        getSubTree3 s boardID blockID noSubtreeOpts = Except.ok rows ∧
        (∀ r ∈ getSubTree2 s boardID blockID noSubtreeOpts, ∃ x ∈ rows, x.ID = r.ID) ∧
        ((s.blocks.map Block.ID).Nodup →
          ∀ r ∈ getSubTree2 s boardID blockID noSubtreeOpts, r ∈ rows)) := by
  constructor
  · intro hB
    constructor
    · rw [getSubTree3_noOpts_eq, subTree3Join_no_root s blockID hB]
      simp [distinctBy]
    · have habs := (getBlock_eq_none_iff s blockID).mp hB
      simp only [getSubTree2, noSubtreeOpts, ne_eq, not_true_eq_false, if_false,
        List.filter_filter]
      apply List.filter_congr
      intro r hr
      have := habs r hr
      simp [this, Bool.and_comm]
  · intro hB
    refine ⟨_, getSubTree3_noOpts_eq s boardID blockID, ?_, ?_⟩
    · intro r hr
      obtain ⟨hmem, hsub, hboard⟩ := (mem_getSubTree2_noOpts s boardID blockID r).mp hr
      have hsel := mem_subTree3_selected_of_subTree2 s boardID blockID hB r hmem hsub hboard
      split
      · exact exists_mem_distinctBy Block.ID r _ hsel
      · obtain ⟨y, hy, hky⟩ := exists_mem_distinctBy (fun r : Block => r) r _ hsel
        exact ⟨y, hy, by rw [hky]⟩
    · intro hU r hr
      have hinj := List.inj_on_of_nodup_map hU
      obtain ⟨hmem, hsub, hboard⟩ := (mem_getSubTree2_noOpts s boardID blockID r).mp hr
      have hsel := mem_subTree3_selected_of_subTree2 s boardID blockID hB r hmem hsub hboard
      have hall := mem_subTree3_selected s boardID blockID hU hB
      split
      · exact (mem_distinctBy_iff Block.ID _
          (fun a ha b hb hab => hinj ((hall a).mp ha).1 ((hall b).mp hb).1 hab) r).mpr hsel
      · exact (mem_distinctBy_iff (fun r => r) _ (fun a _ b _ hab => hab) r).mpr hsel

theorem subTree3_needs_live_root_witness :
    (getSubTree3 samplePgTreeNoRoot "board" "B"
        noSubtreeOpts = Except.ok [] ∧
      getSubTree2 samplePgTreeNoRoot "board" "B" noSubtreeOpts =
        samplePgTreeNoRoot.blocks.filter (fun r => r.BoardID = "board" ∧ r.ParentID = "B")) ∧
    getSubTree2 samplePgTreeNoRoot "board" "B" noSubtreeOpts =
      [sampleRow "c1" "B" "board" 20, sampleRow "c2" "B" "board" 30] ∧
    ∃ rows : List Block,
      getSubTree3 samplePgTree "board" "B" noSubtreeOpts =
        Except.ok rows ∧
      (∀ r ∈ getSubTree2 samplePgTree "board" "B" noSubtreeOpts, ∃ x ∈ rows, x.ID = r.ID) ∧
      ((samplePgTree.blocks.map Block.ID).Nodup →
        ∀ r ∈ getSubTree2 samplePgTree "board" "B" noSubtreeOpts, r ∈ rows) :=
  ⟨(subTree3_needs_live_root samplePgTreeNoRoot "board" "B").1 rfl,
   rfl,
   (subTree3_needs_live_root samplePgTree "board" "B").2 (by decide)⟩

theorem mem_getSubTree2_unlimited (s : Store) (boardID blockID : String)
    (opts : QuerySubtreeOptions) (hLimit : opts.Limit = 0) (r : Block) :
    r ∈ getSubTree2 s boardID blockID opts ↔
      r ∈ s.blocks ∧ (r.ID = blockID ∨ r.ParentID = blockID) ∧ r.BoardID = boardID ∧
      (opts.BeforeUpdateAt ≠ 0 → r.UpdateAt ≤ opts.BeforeUpdateAt) ∧
      (opts.AfterUpdateAt ≠ 0 → r.UpdateAt ≥ opts.AfterUpdateAt) := by
  rw [getSubTree2_eq_matching, hLimit]
  simp only [ne_eq, not_true_eq_false, if_false, subTree2Matching, List.mem_filter,
    decide_eq_true_eq]

theorem mem_getBlockHistory_unlimited (s : Store) (blockID : String)
    (opts : QueryBlockHistoryOptions) (hLimit : opts.Limit = 0) (r : Block) :
    r ∈ getBlockHistory s blockID opts ↔
      r ∈ s.blocks_history ∧ r.ID = blockID ∧
      (opts.BeforeUpdateAt ≠ 0 → r.UpdateAt < opts.BeforeUpdateAt) ∧
      (opts.AfterUpdateAt ≠ 0 → r.UpdateAt > opts.AfterUpdateAt) := by
  rw [getBlockHistory_eq_matching, hLimit]
  by_cases hd : opts.Descending = true <;>
    simp only [hd, ne_eq, not_true_eq_false, if_false, if_true, historyMatching,
      List.mem_filter, List.mem_reverse, decide_eq_true_eq, Bool.false_eq_true]

theorem not_mem_getBlockHistory_of_window (s : Store) (blockID : String)
    (opts : QueryBlockHistoryOptions) (r : Block)
    (h : (opts.BeforeUpdateAt ≠ 0 ∧ ¬ r.UpdateAt < opts.BeforeUpdateAt) ∨
         (opts.AfterUpdateAt ≠ 0 ∧ ¬ r.UpdateAt > opts.AfterUpdateAt)) :
    r ∉ getBlockHistory s blockID opts := by
  intro hmem
  rw [getBlockHistory_eq_matching] at hmem
  have hm : r ∈ historyMatching s blockID opts := by
    by_cases hn : opts.Limit = 0 <;> by_cases hd : opts.Descending = true <;>
      simp only [hn, hd, ne_eq, not_true_eq_false, not_false_eq_true, if_true, if_false,
        Bool.false_eq_true] at hmem
    · exact List.mem_reverse.mp hmem
    · exact hmem
    · exact List.mem_reverse.mp (mem_of_mem_limitRows _ _ _ _ hmem)
    · exact mem_of_mem_limitRows _ _ _ _ hmem
  have h2 := (List.mem_filter.mp hm).2
  simp only [historyMatching, decide_eq_true_eq] at h2
  rcases h with h | h
  · exact h.2 (h2.2.1 h.1)
  · exact h.2 (h2.2.2 h.1)

/-- C28: without a limit, getSubTree2 returns exactly the rows of the subtree
in the board with updateAt ≤ beforeUpdateAt and updateAt ≥ afterUpdateAt, and
getBlockHistory exactly the history rows of the id with updateAt <
beforeUpdateAt and updateAt > afterUpdateAt, a bound of 0 not being applied; so
a row whose updateAt equals a non-zero bound is kept by getSubTree2 when it
meets the other bound, and is dropped by getBlockHistory, with any limit. -/
theorem window_bounds (s : Store) :
    (∀ (boardID blockID : String) (opts : QuerySubtreeOptions) (r : Block),
      opts.Limit = 0 →
      (r ∈ getSubTree2 s boardID blockID opts ↔
        r ∈ s.blocks ∧ (r.ID = blockID ∨ r.ParentID = blockID) ∧ r.BoardID = boardID ∧
        (opts.BeforeUpdateAt ≠ 0 → r.UpdateAt ≤ opts.BeforeUpdateAt) ∧
        (opts.AfterUpdateAt ≠ 0 → r.UpdateAt ≥ opts.AfterUpdateAt))) ∧
    (∀ (blockID : String) (opts : QueryBlockHistoryOptions) (r : Block),
      opts.Limit = 0 →
      (r ∈ getBlockHistory s blockID opts ↔
        r ∈ s.blocks_history ∧ r.ID = blockID ∧
        (opts.BeforeUpdateAt ≠ 0 → r.UpdateAt < opts.BeforeUpdateAt) ∧
        (opts.AfterUpdateAt ≠ 0 → r.UpdateAt > opts.AfterUpdateAt))) ∧
    (∀ (boardID blockID : String) (opts : QuerySubtreeOptions) (r : Block),
      opts.Limit = 0 → r ∈ s.blocks → (r.ID = blockID ∨ r.ParentID = blockID) →
      r.BoardID = boardID →
      ((opts.BeforeUpdateAt ≠ 0 ∧ r.UpdateAt = opts.BeforeUpdateAt ∧
          (opts.AfterUpdateAt ≠ 0 → r.UpdateAt ≥ opts.AfterUpdateAt)) ∨
       (opts.AfterUpdateAt ≠ 0 ∧ r.UpdateAt = opts.AfterUpdateAt ∧
          (opts.BeforeUpdateAt ≠ 0 → r.UpdateAt ≤ opts.BeforeUpdateAt))) →
      r ∈ getSubTree2 s boardID blockID opts) ∧
    (∀ (blockID : String) (opts : QueryBlockHistoryOptions) (r : Block),
      ((opts.BeforeUpdateAt ≠ 0 ∧ r.UpdateAt = opts.BeforeUpdateAt) ∨
       (opts.AfterUpdateAt ≠ 0 ∧ r.UpdateAt = opts.AfterUpdateAt)) →
      r ∉ getBlockHistory s blockID opts) := by
  refine ⟨?_, ?_, ?_, ?_⟩
  · intro boardID blockID opts r hLimit
    exact mem_getSubTree2_unlimited s boardID blockID opts hLimit r
  · intro blockID opts r hLimit
    exact mem_getBlockHistory_unlimited s blockID opts hLimit r
  · intro boardID blockID opts r hLimit hr hsub hboard hbound
    rw [mem_getSubTree2_unlimited s boardID blockID opts hLimit r]
    refine ⟨hr, hsub, hboard, ?_, ?_⟩
    · rcases hbound with h | h
      · intro _; exact le_of_eq h.2.1
      · exact h.2.2
    · rcases hbound with h | h
      · exact h.2.2
      · intro _; exact ge_of_eq h.2.1
  · intro blockID opts r hbound
    apply not_mem_getBlockHistory_of_window
    rcases hbound with h | h
    · exact Or.inl ⟨h.1, by rw [h.2]; exact lt_irrefl _⟩
    · exact Or.inr ⟨h.1, by rw [h.2]; exact lt_irrefl _⟩

theorem window_bounds_witness :
    sampleRow "c1" "B" "board" 20 ∈
      getSubTree2 sampleTree "board" "B"
        { BeforeUpdateAt := 20, AfterUpdateAt := 0, Limit := 0 } ∧
    sampleEntry "h1" "" "text" 20 ∉
      getBlockHistory sampleHistory "h1"
        { BeforeUpdateAt := 20, AfterUpdateAt := 0, Limit := 0, Descending := false } ∧
    getBlockHistory sampleHistory "h1"
        { BeforeUpdateAt := 20, AfterUpdateAt := 0, Limit := 0, Descending := false } =
      [sampleEntry "h1" "" "text" 10] ∧
    getSubTree2 sampleTree "board" "B"
        { BeforeUpdateAt := 20, AfterUpdateAt := 0, Limit := 0 } =
      [sampleRow "B" "" "board" 10, sampleRow "c1" "B" "board" 20] :=
  ⟨(window_bounds sampleTree).2.2.1 "board" "B"
      { BeforeUpdateAt := 20, AfterUpdateAt := 0, Limit := 0 }
      (sampleRow "c1" "B" "board" 20) rfl (by decide) (by decide) rfl
      (Or.inl ⟨by decide, rfl, fun h => absurd rfl h⟩),
   (window_bounds sampleHistory).2.2.2 "h1"
      { BeforeUpdateAt := 20, AfterUpdateAt := 0, Limit := 0, Descending := false }
      (sampleEntry "h1" "" "text" 20) (Or.inl ⟨by decide, rfl⟩),
   rfl, rfl⟩

/-! ## Legacy purge -/

theorem sqliteCondition_jsonText (b : Bool) : sqliteCondition (jsonText b) = false := by
  cases b <;> rfl

theorem getIsTemplateFilter_unsupported (member : String → Option Bool) (dbType : String)
    (h : dbType ≠ mysqlDBType ∧ dbType ≠ sqliteDBType ∧ dbType ≠ postgresDBType) :
    getIsTemplateFilter member dbType =
      Except.error (QueryError.Backend "invalid dbType") := by
  simp [getIsTemplateFilter, h.1, h.2.1, h.2.2]

theorem getIsTemplateFilter_sqlite (member : String → Option Bool) :
    getIsTemplateFilter member sqliteDBType = Except.ok (fun _ => false) := by
  have h : sqliteDBType ≠ mysqlDBType := by decide
  unfold getIsTemplateFilter
  rw [if_neg h, if_pos rfl]
  congr 1
  funext r
  cases member r.Fields with
  | none => rfl
  | some b => exact sqliteCondition_jsonText b

theorem getIsTemplateFilter_boolean (member : String → Option Bool) (dbType : String)
    (h : dbType = mysqlDBType ∨ dbType = postgresDBType) :
    getIsTemplateFilter member dbType =
      Except.ok (fun r => decide (member r.Fields = some true)) := by
  rcases h with h | h
  · subst h; simp [getIsTemplateFilter]
  · subst h; simp [getIsTemplateFilter, sqliteDBType, mysqlDBType, postgresDBType]

/-- What the legacy purge does, dialect by dialect.  On MySQL and PostgreSQL
deleteAllBoardTemplateBlocks succeeds, keeps of the live table exactly the rows
that are not of type `board` with the member `isTemplate` true, and leaves the
history table as it was, so that getAllBoardTemplateBlocks afterwards returns
an empty live list and the history list it returned before.  On SQLite the
condition holds for no row: the purge succeeds and changes nothing, and
getAllBoardTemplateBlocks returns two empty lists.  For any other dialect both
functions return an error and the store is unchanged. -/
theorem purge_effect (member : String → Option Bool) (s : Store) :
    ((s.dbType = mysqlDBType ∨ s.dbType = postgresDBType) →
      (deleteAllBoardTemplateBlocks member s).2 = none ∧
      (deleteAllBoardTemplateBlocks member s).1.blocks =
        s.blocks.filter
          (fun r => ¬ (r.Type_ = legacyTypeBoard ∧ member r.Fields = some true)) ∧
      (deleteAllBoardTemplateBlocks member s).1.blocks_history = s.blocks_history ∧
      getAllBoardTemplateBlocks member (deleteAllBoardTemplateBlocks member s).1 =
        Except.ok ([], s.blocks_history.filter
          (fun r => r.Type_ = legacyTypeBoard ∧ member r.Fields = some true)) ∧
      getAllBoardTemplateBlocks member s =
        Except.ok
          (s.blocks.filter
            (fun r => r.Type_ = legacyTypeBoard ∧ member r.Fields = some true),
           s.blocks_history.filter
            (fun r => r.Type_ = legacyTypeBoard ∧ member r.Fields = some true))) ∧
    (s.dbType = sqliteDBType →
      deleteAllBoardTemplateBlocks member s = (s, none) ∧
      getAllBoardTemplateBlocks member s = Except.ok ([], [])) ∧
    ((s.dbType ≠ mysqlDBType ∧ s.dbType ≠ sqliteDBType ∧ s.dbType ≠ postgresDBType) →
      deleteAllBoardTemplateBlocks member s =
        (s, some (QueryError.Backend "invalid dbType")) ∧
      getAllBoardTemplateBlocks member s =
        Except.error (QueryError.Backend "invalid dbType")) := by
  refine ⟨?_, ?_, ?_⟩
  · intro h
    have hf := getIsTemplateFilter_boolean member s.dbType h
    have hfun : (fun a : Block =>
          decide (member a.Fields = some true) && decide (a.Type_ = legacyTypeBoard)) =
        (fun r => decide (r.Type_ = legacyTypeBoard ∧ member r.Fields = some true)) := by
      funext r
      simp [Bool.and_comm]
    have hget : ∀ t : Store, t.dbType = s.dbType → getAllBoardTemplateBlocks member t =
        Except.ok
          (t.blocks.filter
            (fun r => r.Type_ = legacyTypeBoard ∧ member r.Fields = some true),
           t.blocks_history.filter
            (fun r => r.Type_ = legacyTypeBoard ∧ member r.Fields = some true)) := by
      intro t ht
      simp only [getAllBoardTemplateBlocks, ht, hf, List.filter_filter, hfun]
    have hdel : ∀ live : List Block,
        live = s.blocks.filter
          (fun r => ¬ (r.Type_ = legacyTypeBoard ∧ member r.Fields = some true)) →
        deleteAllBoardTemplateBlocks member s = ({ s with blocks := live }, none) := by
      intro live hlive
      subst hlive
      simp [deleteAllBoardTemplateBlocks, hf, List.filter_filter]
    have hd := hdel _ rfl
    have hg2 : ∀ live : List Block,
        getAllBoardTemplateBlocks member { s with blocks := live } =
          Except.ok
            (live.filter (fun r => r.Type_ = legacyTypeBoard ∧ member r.Fields = some true),
             s.blocks_history.filter
              (fun r => r.Type_ = legacyTypeBoard ∧ member r.Fields = some true)) :=
      fun live => hget { s with blocks := live } rfl
    refine ⟨by rw [hd], by rw [hd], by rw [hd], ?_, hget s rfl⟩
    rw [hd]
    show getAllBoardTemplateBlocks member { s with blocks := _ } = _
    rw [hg2]
    simp only [List.filter_filter]
    congr 2
    rw [List.filter_eq_nil_iff]
    intro r _
    simp
  · intro h
    have hf := getIsTemplateFilter_sqlite member
    constructor
    · rcases s with ⟨blocks, hist, millis, tick, dbType, remarshal⟩
      simp only at h
      subst h
      simp [deleteAllBoardTemplateBlocks, hf]
    · simp [getAllBoardTemplateBlocks, h, hf]
  · intro h
    have hf := getIsTemplateFilter_unsupported member s.dbType h
    constructor
    · simp [deleteAllBoardTemplateBlocks, hf]
    · simp [getAllBoardTemplateBlocks, hf]

/-- C30 at the failing input: on SQLite the live table holds the legacy board
`t1` with the fields `{"isTemplate":true}`.  The text `true` that the operator
`->` gives for the member is no number, so the condition of the purge holds
for no row: deleteAllBoardTemplateBlocks returns no error and leaves `t1` in
the live table, and getAllBoardTemplateBlocks lists nothing.  On PostgreSQL the
same call removes `t1` and keeps the history. -/
theorem purge_misses_template :
    sampleLegacy.dbType = sqliteDBType ∧
    sampleMember "\x7b\"isTemplate\":true\x7d" = some true ∧
    sqliteCondition (jsonText true) = false ∧
    (deleteAllBoardTemplateBlocks sampleMember sampleLegacy).2 = none ∧
    (deleteAllBoardTemplateBlocks sampleMember sampleLegacy).1.blocks =
      [sampleBoardRow "t1" "\x7b\"isTemplate\":true\x7d",
       sampleBoardRow "n1" "\x7b\"isTemplate\":false\x7d", sampleRow "c1" "t1" "0" 5] ∧
    getAllBoardTemplateBlocks sampleMember sampleLegacy = Except.ok ([], []) ∧
    (deleteAllBoardTemplateBlocks sampleMember
        { sampleLegacy with dbType := postgresDBType }).1.blocks =
      [sampleBoardRow "n1" "\x7b\"isTemplate\":false\x7d", sampleRow "c1" "t1" "0" 5] ∧
    (deleteAllBoardTemplateBlocks sampleMember
        { sampleLegacy with dbType := postgresDBType }).1.blocks_history =
      [sampleBoardRow "t1" "\x7b\"isTemplate\":true\x7d",
       sampleBoardRow "n1" "\x7b\"isTemplate\":false\x7d"] := by
  refine ⟨rfl, rfl, rfl, rfl, rfl, rfl, rfl, rfl⟩

/-! ## Identifier rewrite -/

theorem updateWhere_comp (c1 c2 : Row → Prop) [DecidablePred c1] [DecidablePred c2]
    (f1 f2 : Row → Row) (rows : List Row) :
    updateWhere c2 f2 (updateWhere c1 f1 rows) =
      rows.map (fun r =>
        if c2 (if c1 r then f1 r else r) then f2 (if c1 r then f1 r else r)
        else (if c1 r then f1 r else r)) := by
  simp [updateWhere, List.map_map, Function.comp_def]

/-- The four updates of `replaceBlockID` on one table amount to `rewriteRow` on
each of its rows. -/
theorem rewrite_table (dbType : String) (contentOrder : String → String)
    (currentID newID workspaceID : String) (rows : List Row) :
    (if dbType = postgresDBType then
      updateWhere
        (fun r => r.workspace_id = some workspaceID ∧
          likeContains (contentOrder r.Fields) currentID ∧ r.Type_ = TypeCard)
        (fun r => { r with Fields := sqlReplace r.Fields currentID newID })
    else
      updateWhere
        (fun r => r.workspace_id = some workspaceID ∧
          likeContains r.Fields currentID ∧ r.Type_ = TypeCard)
        (fun r => { r with Fields := sqlReplace r.Fields currentID newID }))
      (updateWhere (fun r => r.workspace_id = some workspaceID ∧ r.ParentID = currentID)
        (fun r => { r with ParentID := newID })
        (updateWhere (fun r => r.workspace_id = some workspaceID ∧ r.RootID = currentID)
          (fun r => { r with RootID := newID })
          (updateWhere (fun r => r.workspace_id = some workspaceID ∧ r.ID = currentID)
            (fun r => { r with ID := newID }) rows))) =
    rows.map (rewriteRow dbType contentOrder currentID newID workspaceID) := by
  by_cases hdb : dbType = postgresDBType
  · simp only [hdb, if_true, updateWhere, List.map_map]
    apply List.map_congr_left
    intro r _
    rcases r with ⟨⟨id, pid, rid, cb, mb, sch, ty, ti, fl, ca, ua, da, bid⟩, ws⟩
    simp only [Function.comp_def, rewriteRow, selectsCard, if_true]
    by_cases hs : ws = some workspaceID <;> by_cases h1 : id = currentID <;>
      by_cases h2 : rid = currentID <;> by_cases h3 : pid = currentID <;>
      by_cases h4 : likeContains (contentOrder fl) currentID <;>
      by_cases h5 : ty = TypeCard <;>
      simp only [hs, h1, h2, h3, h4, h5, and_self, and_true, and_false, true_and, false_and,
        if_true, if_false, not_true_eq_false, not_false_eq_true]
  · simp only [hdb, if_false, updateWhere, List.map_map]
    apply List.map_congr_left
    intro r _
    rcases r with ⟨⟨id, pid, rid, cb, mb, sch, ty, ti, fl, ca, ua, da, bid⟩, ws⟩
    simp only [Function.comp_def, rewriteRow, selectsCard, if_false, hdb]
    by_cases hs : ws = some workspaceID <;> by_cases h1 : id = currentID <;>
      by_cases h2 : rid = currentID <;> by_cases h3 : pid = currentID <;>
      by_cases h4 : likeContains fl currentID <;>
      by_cases h5 : ty = TypeCard <;>
      simp only [hs, h1, h2, h3, h4, h5, and_self, and_true, and_false, true_and, false_and,
        if_true, if_false, not_true_eq_false, not_false_eq_true]

/-- With the column in place the rewrite succeeds and is `rewriteRow` on every
row of both tables. -/
theorem replaceBlockID_eq (contentOrder : String → String) (t : Tables)
    (currentID newID workspaceID : String) (hCol : t.hasWorkspaceID = true) :
    replaceBlockID contentOrder t currentID newID workspaceID =
      ({ t with
         blocks := t.blocks.map (rewriteRow t.dbType contentOrder currentID newID workspaceID)
         blocks_history :=
           t.blocks_history.map
             (rewriteRow t.dbType contentOrder currentID newID workspaceID) }, none) := by
  have hb := rewrite_table t.dbType contentOrder currentID newID workspaceID t.blocks
  have hh := rewrite_table t.dbType contentOrder currentID newID workspaceID t.blocks_history
  by_cases hdb : t.dbType = postgresDBType
  · simp only [hdb, if_true] at hb hh
    simp only [replaceBlockID, runUpdateForBlocksAndHistory, hCol, hdb, if_true, hb, hh,
      Bool.true_eq_false, if_false]
  · simp only [hdb, if_false] at hb hh
    simp only [replaceBlockID, runUpdateForBlocksAndHistory, hCol, hdb, if_false, hb, hh,
      Bool.true_eq_false]

/-- Without the column the rewrite fails and changes nothing. -/
theorem replaceBlockID_no_column (contentOrder : String → String) (t : Tables)
    (currentID newID workspaceID : String) (hCol : t.hasWorkspaceID = false) :
    replaceBlockID contentOrder t currentID newID workspaceID =
      (t, some (QueryError.Backend "no such column: workspace_id")) := by
  simp only [replaceBlockID, hCol, if_true]

theorem hasWorkspaceID_of_success (contentOrder : String → String) (t : Tables)
    (currentID newID workspaceID : String)
    (hOk : (replaceBlockID contentOrder t currentID newID workspaceID).2 = none) :
    t.hasWorkspaceID = true := by
  cases hc : t.hasWorkspaceID with
  | true => rfl
  | false =>
    rw [replaceBlockID_no_column contentOrder t currentID newID workspaceID hc] at hOk
    cases hOk

theorem rewriteRow_outside (dbType : String) (contentOrder : String → String)
    (currentID newID workspaceID : String) (r : Row)
    (h : r.workspace_id ≠ some workspaceID) :
    rewriteRow dbType contentOrder currentID newID workspaceID r = r := by
  unfold rewriteRow
  rw [if_neg h]

theorem rewriteRow_frame (dbType : String) (contentOrder : String → String)
    (currentID newID workspaceID : String) (r : Row) :
    FrameKept r (rewriteRow dbType contentOrder currentID newID workspaceID r) := by
  unfold rewriteRow FrameKept
  split <;> simp

theorem rewriteRow_rewritten (dbType : String) (contentOrder : String → String)
    (currentID newID workspaceID : String) (r : Row)
    (hScope : r.workspace_id = some workspaceID) (hNe : currentID ≠ newID) :
    Rewritten dbType contentOrder currentID newID r
      (rewriteRow dbType contentOrder currentID newID workspaceID r) := by
  have hNe2 : ¬ newID = currentID := fun h => hNe h.symm
  unfold rewriteRow Rewritten
  rw [if_pos hScope]
  refine ⟨?_, ?_, ?_, ?_, ?_, ?_, ?_, ?_, ?_, ?_, ?_⟩
  · show (if r.ID = currentID then newID else r.ID) ≠ currentID
    split
    · exact hNe2
    · assumption
  · show (if r.RootID = currentID then newID else r.RootID) ≠ currentID
    split
    · exact hNe2
    · assumption
  · show (if r.ParentID = currentID then newID else r.ParentID) ≠ currentID
    split
    · exact hNe2
    · assumption
  · intro h
    show (if r.ID = currentID then newID else r.ID) = newID
    rw [if_pos h]
  · intro h
    show (if r.RootID = currentID then newID else r.RootID) = newID
    rw [if_pos h]
  · intro h
    show (if r.ParentID = currentID then newID else r.ParentID) = newID
    rw [if_pos h]
  · intro h
    show (if r.ID = currentID then newID else r.ID) = r.ID
    rw [if_neg h]
  · intro h
    show (if r.RootID = currentID then newID else r.RootID) = r.RootID
    rw [if_neg h]
  · intro h
    show (if r.ParentID = currentID then newID else r.ParentID) = r.ParentID
    rw [if_neg h]
  · intro h
    show (if selectsCard dbType contentOrder currentID r
      then sqlReplace r.Fields currentID newID else r.Fields) = _
    rw [if_pos h]
  · intro h
    show (if selectsCard dbType contentOrder currentID r
      then sqlReplace r.Fields currentID newID else r.Fields) = _
    rw [if_neg]
    intro hsel
    exact h hsel.1

theorem frameKept_refl (r : Row) : FrameKept r r := by
  unfold FrameKept
  simp

/-- On tables all of whose rows the write path of the store wrote, the
rewrite changes nothing, whatever the arguments: no row holds a workspace
id. -/
theorem replaceBlockID_written (contentOrder : String → String) (s : Store)
    (hasWorkspaceID : Bool) (currentID newID workspaceID : String) :
    (replaceBlockID contentOrder (writtenTables s hasWorkspaceID)
      currentID newID workspaceID).1 = writtenTables s hasWorkspaceID := by
  cases hasWorkspaceID with
  | false => rw [replaceBlockID_no_column _ _ _ _ _ rfl]
  | true =>
    rw [replaceBlockID_eq _ _ _ _ _ rfl]
    have hmap : ∀ rows : List Block,
        (rows.map writtenRow).map
          (rewriteRow (writtenTables s true).dbType contentOrder currentID newID workspaceID)
          = rows.map writtenRow := by
      intro rows
      rw [List.map_map]
      apply List.map_congr_left
      intro b _
      exact rewriteRow_outside _ _ _ _ _ (writtenRow b) (by simp [writtenRow])
    show ({ writtenTables s true with
      blocks := (s.blocks.map writtenRow).map _
      blocks_history := (s.blocks_history.map writtenRow).map _ } : Tables) = _
    rw [hmap, hmap]
    rfl

/-- C23: replaceBlockID keeps the length of the live table and of the history
table; the row at each place of either table is the old row of that place
with, at most, other values in id, rootID, parentID and fields (title, type,
boardID, schema, createdBy, modifiedBy, the three timestamps and the workspace
id are the same), and is the old row itself when its workspace id is not the
given one. -/
theorem replaceBlockID_frame (contentOrder : String → String) (t : Tables)
    (currentID newID workspaceID : String) :
    (replaceBlockID contentOrder t currentID newID workspaceID).1.blocks.length =
      t.blocks.length ∧
    (replaceBlockID contentOrder t currentID newID workspaceID).1.blocks_history.length
      = t.blocks_history.length ∧
    (∀ (i : Nat) (r : Row), t.blocks[i]? = some r →
      ∃ x, (replaceBlockID contentOrder t currentID newID workspaceID).1.blocks[i]?
          = some x ∧
        FrameKept r x ∧ (r.workspace_id ≠ some workspaceID → x = r)) ∧
    (∀ (i : Nat) (r : Row), t.blocks_history[i]? = some r →
      ∃ x, (replaceBlockID contentOrder t currentID newID
          workspaceID).1.blocks_history[i]? = some x ∧
        FrameKept r x ∧ (r.workspace_id ≠ some workspaceID → x = r)) := by
  cases hc : t.hasWorkspaceID with
  | false =>
    rw [replaceBlockID_no_column contentOrder t currentID newID workspaceID hc]
    exact ⟨rfl, rfl, fun i r hi => ⟨r, hi, frameKept_refl r, fun _ => rfl⟩,
      fun i r hi => ⟨r, hi, frameKept_refl r, fun _ => rfl⟩⟩
  | true =>
    rw [replaceBlockID_eq contentOrder t currentID newID workspaceID hc]
    refine ⟨by simp, by simp, ?_, ?_⟩
    · intro i r hi
      refine ⟨rewriteRow t.dbType contentOrder currentID newID workspaceID r, ?_,
        rewriteRow_frame _ _ _ _ _ r, rewriteRow_outside _ _ _ _ _ r⟩
      simp only [List.getElem?_map, hi, Option.map_some']
    · intro i r hi
      refine ⟨rewriteRow t.dbType contentOrder currentID newID workspaceID r, ?_,
        rewriteRow_frame _ _ _ _ _ r, rewriteRow_outside _ _ _ _ _ r⟩
      simp only [List.getElem?_map, hi, Option.map_some']

theorem replaceBlockID_frame_witness :
    ∃ x, (replaceBlockID sampleContentOrder sampleScoped "B" "N" "board").1.blocks[2]?
        = some x ∧
      FrameKept (inWorkspace "other" (sampleRow "x" "B" "other" 60)) x ∧
      ((inWorkspace "other" (sampleRow "x" "B" "other" 60)).workspace_id ≠ some "board" →
        x = inWorkspace "other" (sampleRow "x" "B" "other" 60)) :=
  (replaceBlockID_frame sampleContentOrder sampleScoped "B" "N" "board").2.2.1 2 _ rfl

/-- The rewrite of `B` to `N` in the workspace `board` of the sample tables:
the rows of the workspace follow, the row of the workspace `other` and the row
without workspace keep the parent `B`. -/
theorem replaceBlockID_frame_sample :
    (replaceBlockID sampleContentOrder sampleScoped "B" "N" "board").2 = none ∧
    (replaceBlockID sampleContentOrder sampleScoped "B" "N" "board").1.blocks =
      [inWorkspace "board" (sampleRow "N" "" "board" 10),
       inWorkspace "board" (sampleRow "c1" "N" "board" 20),
       inWorkspace "other" (sampleRow "x" "B" "other" 60),
       writtenRow (sampleRow "w" "B" "board" 70)] ∧
    (replaceBlockID sampleContentOrder sampleScoped "B" "N" "board").1.blocks_history =
      [inWorkspace "board" (sampleRow "N" "" "board" 10)] ∧
    replaceBlockID sampleContentOrder { sampleScoped with hasWorkspaceID := false }
        "B" "N" "board" =
      ({ sampleScoped with hasWorkspaceID := false },
        some (QueryError.Backend "no such column: workspace_id")) := by
  refine ⟨rfl, rfl, rfl, rfl⟩

/-- C22 (as amended): when the rewrite succeeds, every row of both tables holds
the given workspace id and the new id differs from the old one, then, in the
live table and in the history table alike, each row is rewritten in place so
that its id, rootID and parentID are the new id where they were the old one
and are otherwise unchanged, so that no row has the old id in one of these
three columns; the fields of every card that the embedded-reference step
selects are the text with the new id substituted for the old one, and the
fields of a row of any other type stay as they are, whatever its contentOrder
lists. -/
theorem replaceBlockID_complete (contentOrder : String → String) (t : Tables)
    (currentID newID workspaceID : String)
    (hOk : (replaceBlockID contentOrder t currentID newID workspaceID).2 = none)
    (hScope : ∀ r ∈ t.blocks ++ t.blocks_history, r.workspace_id = some workspaceID)
    (hNe : currentID ≠ newID) :
    (∀ (i : Nat) (r : Row), t.blocks[i]? = some r →
      ∃ x, (replaceBlockID contentOrder t currentID newID workspaceID).1.blocks[i]?
          = some x ∧ Rewritten t.dbType contentOrder currentID newID r x) ∧
    (∀ (i : Nat) (r : Row), t.blocks_history[i]? = some r →
      ∃ x, (replaceBlockID contentOrder t currentID newID
          workspaceID).1.blocks_history[i]? = some x ∧
        Rewritten t.dbType contentOrder currentID newID r x) ∧
    (∀ x ∈ (replaceBlockID contentOrder t currentID newID workspaceID).1.blocks,
      x.ID ≠ currentID ∧ x.RootID ≠ currentID ∧ x.ParentID ≠ currentID) ∧
    (∀ x ∈ (replaceBlockID contentOrder t currentID newID workspaceID).1.blocks_history,
      x.ID ≠ currentID ∧ x.RootID ≠ currentID ∧ x.ParentID ≠ currentID) := by
  have hCol := hasWorkspaceID_of_success contentOrder t currentID newID workspaceID hOk
  rw [replaceBlockID_eq contentOrder t currentID newID workspaceID hCol]
  refine ⟨?_, ?_, ?_, ?_⟩
  · intro i r hi
    have hr : r ∈ t.blocks := List.getElem?_mem hi
    refine ⟨rewriteRow t.dbType contentOrder currentID newID workspaceID r, ?_,
      rewriteRow_rewritten _ _ _ _ _ r (hScope r (List.mem_append_left _ hr)) hNe⟩
    simp only [List.getElem?_map, hi, Option.map_some']
  · intro i r hi
    have hr : r ∈ t.blocks_history := List.getElem?_mem hi
    refine ⟨rewriteRow t.dbType contentOrder currentID newID workspaceID r, ?_,
      rewriteRow_rewritten _ _ _ _ _ r (hScope r (List.mem_append_right _ hr)) hNe⟩
    simp only [List.getElem?_map, hi, Option.map_some']
  · intro x hx
    obtain ⟨r, hr, rfl⟩ := List.mem_map.mp hx
    have h := rewriteRow_rewritten t.dbType contentOrder currentID newID workspaceID r
      (hScope r (List.mem_append_left _ hr)) hNe
    exact ⟨h.1, h.2.1, h.2.2.1⟩
  · intro x hx
    obtain ⟨r, hr, rfl⟩ := List.mem_map.mp hx
    have h := rewriteRow_rewritten t.dbType contentOrder currentID newID workspaceID r
      (hScope r (List.mem_append_right _ hr)) hNe
    exact ⟨h.1, h.2.1, h.2.2.1⟩

theorem replaceBlockID_complete_witness :
    (∃ x, (replaceBlockID sampleContentOrder { sampleRefs with dbType := postgresDBType }
        "X" "Y" "board").1.blocks[0]? = some x ∧
      Rewritten postgresDBType sampleContentOrder "X" "Y"
        (sampleRefRow "card1" "root" "card" "\x7b\"contentOrder\":[\"X\"]\x7d") x) ∧
    (∀ x ∈ (replaceBlockID sampleContentOrder { sampleRefs with dbType := postgresDBType }
        "X" "Y" "board").1.blocks,
      x.ID ≠ "X" ∧ x.RootID ≠ "X" ∧ x.ParentID ≠ "X") :=
  ⟨(replaceBlockID_complete sampleContentOrder { sampleRefs with dbType := postgresDBType }
      "X" "Y" "board" rfl (by decide) (by decide)).1 0 _ rfl,
   (replaceBlockID_complete sampleContentOrder { sampleRefs with dbType := postgresDBType }
      "X" "Y" "board" rfl (by decide) (by decide)).2.2.1⟩

/-- C22 as stated fails: all rows of the sample tables hold the workspace id
`board` (and the board id `board`), the card `card1` lists the child `X` in its
contentOrder, and so does the view `view1`.  After replaceBlockID of `X` by
`Y`, which succeeds, on the postgres dialect as on another one, the card lists
`Y`, but the view, which is no card, still lists `X` in its contentOrder. -/
theorem replaceBlockID_leaves_reference :
    (∀ r ∈ sampleRefs.blocks ++ sampleRefs.blocks_history,
      r.workspace_id = some "board" ∧ r.BoardID = "board") ∧
    (replaceBlockID sampleContentOrder { sampleRefs with dbType := postgresDBType }
        "X" "Y" "board").1.blocks =
      [sampleRefRow "card1" "root" "card" "\x7b\"contentOrder\":[\"Y\"]\x7d",
       sampleRefRow "view1" "root" "view" "\x7b\"contentOrder\":[\"X\"]\x7d",
       sampleRefRow "Y" "card1" "text" "\x7b\x7d"] ∧
    (replaceBlockID sampleContentOrder sampleRefs "X" "Y" "board").1.blocks =
      [sampleRefRow "card1" "root" "card" "\x7b\"contentOrder\":[\"Y\"]\x7d",
       sampleRefRow "view1" "root" "view" "\x7b\"contentOrder\":[\"X\"]\x7d",
       sampleRefRow "Y" "card1" "text" "\x7b\x7d"] ∧
    (replaceBlockID sampleContentOrder { sampleRefs with dbType := postgresDBType }
        "X" "Y" "board").2 = none ∧
    (replaceBlockID sampleContentOrder sampleRefs "X" "Y" "board").2 = none ∧
    sampleContentOrder "\x7b\"contentOrder\":[\"X\"]\x7d" = "[\"X\"]" ∧
    likeContains (sampleContentOrder "\x7b\"contentOrder\":[\"X\"]\x7d") "X" := by
  refine ⟨by decide, rfl, rfl, rfl, rfl, ?_, ?_⟩ <;> decide

/-! ## The text substitution of the identifier rewrite -/

/-- Each of the four conditions of `Clear` is needed: the old id comes back
when an end of it starts the new id, when an end of the new id starts it, when
the new id occurs in it, and when it occurs in the new id. -/
theorem clear_needed :
    (Overlaps "ab".data "bc".data ∧ sqlReplace "aab" "ab" "bc" = "abc") ∧
    (Overlaps "ca".data "ab".data ∧ sqlReplace "abb" "ab" "ca" = "cab") ∧
    ("c".data <:+: "acb".data ∧ sqlReplace "aacbb" "acb" "c" = "acb") ∧
    ("a".data <:+: "xax".data ∧ sqlReplace "a" "a" "xax" = "xax") := by
  refine ⟨⟨by decide, by decide⟩, ⟨by decide, by decide⟩, ⟨by decide, by decide⟩,
    ⟨by decide, by decide⟩⟩

/-- The substitution on the sample tables: outside the postgres dialect the id
`X` is replaced in the contentOrder, in the member `icon` and inside the longer
id `X2` of the first card; on the postgres dialect, too, the longer id `X2` of
the second card's contentOrder becomes `Y2`; the view keeps its fields. -/
theorem fields_substitution_sample :
    (replaceBlockID sampleContentOrder sampleWide "X" "Y" "board").1.blocks =
      [sampleRefRow "card1" "root" "card"
         "\x7b\"contentOrder\":[\"Y\"],\"icon\":\"Y\",\"link\":\"Y2\"\x7d",
       sampleRefRow "card2" "root" "card" "\x7b\"contentOrder\":[\"Y\",\"Y2\"]\x7d",
       sampleRefRow "view1" "root" "view" "\x7b\"contentOrder\":[\"X\"]\x7d"] ∧
    ((replaceBlockID sampleContentOrder { sampleWide with dbType := postgresDBType }
        "X" "Y" "board").1.blocks.map (fun r => r.Fields))[1]? =
      some "\x7b\"contentOrder\":[\"Y\",\"Y2\"]\x7d" := by
  constructor <;> rfl

end Sqlstore
